import Mathlib

/-! ARIA block cipher (aria.cpp): embedding and verification.

The development embeds `src/lib/block/aria/aria.cpp` (namespace `ARIA_F` and the
`ARIA_128/192/256` member functions) as Lean functions over `Nat`:

* a 32-bit word (`uint32_t`) is a natural number below `2^32`; operations that can
  leave the range (`<<`) are reduced modulo `2^32` explicitly;
* a byte buffer or a `secure_vector<uint32_t>` is a `List Nat`;
* `size_t` arithmetic that can wrap is reduced modulo `2^64` explicitly;
* a read or write outside a buffer, which is undefined behaviour in C++, and a loop
  that exhausts its fuel, make the embedded function return `none`.
-/

/-! ## Definitions -/

namespace ARIA_F

/-- Four 32-bit words: a cipher state, a schedule group or one of `w0 .. w3`. -/
abbrev W4 := Nat × Nat × Nat × Nat

/-- Substitution table S1 of aria.cpp (256 bytes, copied entry by entry). -/
def S1 : List Nat := [
   0x63, 0x7C, 0x77, 0x7B, 0xF2, 0x6B, 0x6F, 0xC5, 0x30, 0x01, 0x67, 0x2B, 0xFE, 0xD7, 0xAB, 0x76,
   0xCA, 0x82, 0xC9, 0x7D, 0xFA, 0x59, 0x47, 0xF0, 0xAD, 0xD4, 0xA2, 0xAF, 0x9C, 0xA4, 0x72, 0xC0,
   0xB7, 0xFD, 0x93, 0x26, 0x36, 0x3F, 0xF7, 0xCC, 0x34, 0xA5, 0xE5, 0xF1, 0x71, 0xD8, 0x31, 0x15,
   0x04, 0xC7, 0x23, 0xC3, 0x18, 0x96, 0x05, 0x9A, 0x07, 0x12, 0x80, 0xE2, 0xEB, 0x27, 0xB2, 0x75,
   0x09, 0x83, 0x2C, 0x1A, 0x1B, 0x6E, 0x5A, 0xA0, 0x52, 0x3B, 0xD6, 0xB3, 0x29, 0xE3, 0x2F, 0x84,
   0x53, 0xD1, 0x00, 0xED, 0x20, 0xFC, 0xB1, 0x5B, 0x6A, 0xCB, 0xBE, 0x39, 0x4A, 0x4C, 0x58, 0xCF,
   0xD0, 0xEF, 0xAA, 0xFB, 0x43, 0x4D, 0x33, 0x85, 0x45, 0xF9, 0x02, 0x7F, 0x50, 0x3C, 0x9F, 0xA8,
   0x51, 0xA3, 0x40, 0x8F, 0x92, 0x9D, 0x38, 0xF5, 0xBC, 0xB6, 0xDA, 0x21, 0x10, 0xFF, 0xF3, 0xD2,
   0xCD, 0x0C, 0x13, 0xEC, 0x5F, 0x97, 0x44, 0x17, 0xC4, 0xA7, 0x7E, 0x3D, 0x64, 0x5D, 0x19, 0x73,
   0x60, 0x81, 0x4F, 0xDC, 0x22, 0x2A, 0x90, 0x88, 0x46, 0xEE, 0xB8, 0x14, 0xDE, 0x5E, 0x0B, 0xDB,
   0xE0, 0x32, 0x3A, 0x0A, 0x49, 0x06, 0x24, 0x5C, 0xC2, 0xD3, 0xAC, 0x62, 0x91, 0x95, 0xE4, 0x79,
   0xE7, 0xC8, 0x37, 0x6D, 0x8D, 0xD5, 0x4E, 0xA9, 0x6C, 0x56, 0xF4, 0xEA, 0x65, 0x7A, 0xAE, 0x08,
   0xBA, 0x78, 0x25, 0x2E, 0x1C, 0xA6, 0xB4, 0xC6, 0xE8, 0xDD, 0x74, 0x1F, 0x4B, 0xBD, 0x8B, 0x8A,
   0x70, 0x3E, 0xB5, 0x66, 0x48, 0x03, 0xF6, 0x0E, 0x61, 0x35, 0x57, 0xB9, 0x86, 0xC1, 0x1D, 0x9E,
   0xE1, 0xF8, 0x98, 0x11, 0x69, 0xD9, 0x8E, 0x94, 0x9B, 0x1E, 0x87, 0xE9, 0xCE, 0x55, 0x28, 0xDF,
   0x8C, 0xA1, 0x89, 0x0D, 0xBF, 0xE6, 0x42, 0x68, 0x41, 0x99, 0x2D, 0x0F, 0xB0, 0x54, 0xBB, 0x16]

/-- Substitution table S2 of aria.cpp (256 bytes, copied entry by entry). -/
def S2 : List Nat := [
   0xE2, 0x4E, 0x54, 0xFC, 0x94, 0xC2, 0x4A, 0xCC, 0x62, 0x0D, 0x6A, 0x46, 0x3C, 0x4D, 0x8B, 0xD1,
   0x5E, 0xFA, 0x64, 0xCB, 0xB4, 0x97, 0xBE, 0x2B, 0xBC, 0x77, 0x2E, 0x03, 0xD3, 0x19, 0x59, 0xC1,
   0x1D, 0x06, 0x41, 0x6B, 0x55, 0xF0, 0x99, 0x69, 0xEA, 0x9C, 0x18, 0xAE, 0x63, 0xDF, 0xE7, 0xBB,
   0x00, 0x73, 0x66, 0xFB, 0x96, 0x4C, 0x85, 0xE4, 0x3A, 0x09, 0x45, 0xAA, 0x0F, 0xEE, 0x10, 0xEB,
   0x2D, 0x7F, 0xF4, 0x29, 0xAC, 0xCF, 0xAD, 0x91, 0x8D, 0x78, 0xC8, 0x95, 0xF9, 0x2F, 0xCE, 0xCD,
   0x08, 0x7A, 0x88, 0x38, 0x5C, 0x83, 0x2A, 0x28, 0x47, 0xDB, 0xB8, 0xC7, 0x93, 0xA4, 0x12, 0x53,
   0xFF, 0x87, 0x0E, 0x31, 0x36, 0x21, 0x58, 0x48, 0x01, 0x8E, 0x37, 0x74, 0x32, 0xCA, 0xE9, 0xB1,
   0xB7, 0xAB, 0x0C, 0xD7, 0xC4, 0x56, 0x42, 0x26, 0x07, 0x98, 0x60, 0xD9, 0xB6, 0xB9, 0x11, 0x40,
   0xEC, 0x20, 0x8C, 0xBD, 0xA0, 0xC9, 0x84, 0x04, 0x49, 0x23, 0xF1, 0x4F, 0x50, 0x1F, 0x13, 0xDC,
   0xD8, 0xC0, 0x9E, 0x57, 0xE3, 0xC3, 0x7B, 0x65, 0x3B, 0x02, 0x8F, 0x3E, 0xE8, 0x25, 0x92, 0xE5,
   0x15, 0xDD, 0xFD, 0x17, 0xA9, 0xBF, 0xD4, 0x9A, 0x7E, 0xC5, 0x39, 0x67, 0xFE, 0x76, 0x9D, 0x43,
   0xA7, 0xE1, 0xD0, 0xF5, 0x68, 0xF2, 0x1B, 0x34, 0x70, 0x05, 0xA3, 0x8A, 0xD5, 0x79, 0x86, 0xA8,
   0x30, 0xC6, 0x51, 0x4B, 0x1E, 0xA6, 0x27, 0xF6, 0x35, 0xD2, 0x6E, 0x24, 0x16, 0x82, 0x5F, 0xDA,
   0xE6, 0x75, 0xA2, 0xEF, 0x2C, 0xB2, 0x1C, 0x9F, 0x5D, 0x6F, 0x80, 0x0A, 0x72, 0x44, 0x9B, 0x6C,
   0x90, 0x0B, 0x5B, 0x33, 0x7D, 0x5A, 0x52, 0xF3, 0x61, 0xA1, 0xF7, 0xB0, 0xD6, 0x3F, 0x7C, 0x6D,
   0xED, 0x14, 0xE0, 0xA5, 0x3D, 0x22, 0xB3, 0xF8, 0x89, 0xDE, 0x71, 0x1A, 0xAF, 0xBA, 0xB5, 0x81]

/-- Substitution table X1 of aria.cpp (256 bytes, copied entry by entry). -/
def X1 : List Nat := [
   0x52, 0x09, 0x6A, 0xD5, 0x30, 0x36, 0xA5, 0x38, 0xBF, 0x40, 0xA3, 0x9E, 0x81, 0xF3, 0xD7, 0xFB,
   0x7C, 0xE3, 0x39, 0x82, 0x9B, 0x2F, 0xFF, 0x87, 0x34, 0x8E, 0x43, 0x44, 0xC4, 0xDE, 0xE9, 0xCB,
   0x54, 0x7B, 0x94, 0x32, 0xA6, 0xC2, 0x23, 0x3D, 0xEE, 0x4C, 0x95, 0x0B, 0x42, 0xFA, 0xC3, 0x4E,
   0x08, 0x2E, 0xA1, 0x66, 0x28, 0xD9, 0x24, 0xB2, 0x76, 0x5B, 0xA2, 0x49, 0x6D, 0x8B, 0xD1, 0x25,
   0x72, 0xF8, 0xF6, 0x64, 0x86, 0x68, 0x98, 0x16, 0xD4, 0xA4, 0x5C, 0xCC, 0x5D, 0x65, 0xB6, 0x92,
   0x6C, 0x70, 0x48, 0x50, 0xFD, 0xED, 0xB9, 0xDA, 0x5E, 0x15, 0x46, 0x57, 0xA7, 0x8D, 0x9D, 0x84,
   0x90, 0xD8, 0xAB, 0x00, 0x8C, 0xBC, 0xD3, 0x0A, 0xF7, 0xE4, 0x58, 0x05, 0xB8, 0xB3, 0x45, 0x06,
   0xD0, 0x2C, 0x1E, 0x8F, 0xCA, 0x3F, 0x0F, 0x02, 0xC1, 0xAF, 0xBD, 0x03, 0x01, 0x13, 0x8A, 0x6B,
   0x3A, 0x91, 0x11, 0x41, 0x4F, 0x67, 0xDC, 0xEA, 0x97, 0xF2, 0xCF, 0xCE, 0xF0, 0xB4, 0xE6, 0x73,
   0x96, 0xAC, 0x74, 0x22, 0xE7, 0xAD, 0x35, 0x85, 0xE2, 0xF9, 0x37, 0xE8, 0x1C, 0x75, 0xDF, 0x6E,
   0x47, 0xF1, 0x1A, 0x71, 0x1D, 0x29, 0xC5, 0x89, 0x6F, 0xB7, 0x62, 0x0E, 0xAA, 0x18, 0xBE, 0x1B,
   0xFC, 0x56, 0x3E, 0x4B, 0xC6, 0xD2, 0x79, 0x20, 0x9A, 0xDB, 0xC0, 0xFE, 0x78, 0xCD, 0x5A, 0xF4,
   0x1F, 0xDD, 0xA8, 0x33, 0x88, 0x07, 0xC7, 0x31, 0xB1, 0x12, 0x10, 0x59, 0x27, 0x80, 0xEC, 0x5F,
   0x60, 0x51, 0x7F, 0xA9, 0x19, 0xB5, 0x4A, 0x0D, 0x2D, 0xE5, 0x7A, 0x9F, 0x93, 0xC9, 0x9C, 0xEF,
   0xA0, 0xE0, 0x3B, 0x4D, 0xAE, 0x2A, 0xF5, 0xB0, 0xC8, 0xEB, 0xBB, 0x3C, 0x83, 0x53, 0x99, 0x61,
   0x17, 0x2B, 0x04, 0x7E, 0xBA, 0x77, 0xD6, 0x26, 0xE1, 0x69, 0x14, 0x63, 0x55, 0x21, 0x0C, 0x7D]

/-- Substitution table X2 of aria.cpp (256 bytes, copied entry by entry). -/
def X2 : List Nat := [
   0x30, 0x68, 0x99, 0x1B, 0x87, 0xB9, 0x21, 0x78, 0x50, 0x39, 0xDB, 0xE1, 0x72, 0x09, 0x62, 0x3C,
   0x3E, 0x7E, 0x5E, 0x8E, 0xF1, 0xA0, 0xCC, 0xA3, 0x2A, 0x1D, 0xFB, 0xB6, 0xD6, 0x20, 0xC4, 0x8D,
   0x81, 0x65, 0xF5, 0x89, 0xCB, 0x9D, 0x77, 0xC6, 0x57, 0x43, 0x56, 0x17, 0xD4, 0x40, 0x1A, 0x4D,
   0xC0, 0x63, 0x6C, 0xE3, 0xB7, 0xC8, 0x64, 0x6A, 0x53, 0xAA, 0x38, 0x98, 0x0C, 0xF4, 0x9B, 0xED,
   0x7F, 0x22, 0x76, 0xAF, 0xDD, 0x3A, 0x0B, 0x58, 0x67, 0x88, 0x06, 0xC3, 0x35, 0x0D, 0x01, 0x8B,
   0x8C, 0xC2, 0xE6, 0x5F, 0x02, 0x24, 0x75, 0x93, 0x66, 0x1E, 0xE5, 0xE2, 0x54, 0xD8, 0x10, 0xCE,
   0x7A, 0xE8, 0x08, 0x2C, 0x12, 0x97, 0x32, 0xAB, 0xB4, 0x27, 0x0A, 0x23, 0xDF, 0xEF, 0xCA, 0xD9,
   0xB8, 0xFA, 0xDC, 0x31, 0x6B, 0xD1, 0xAD, 0x19, 0x49, 0xBD, 0x51, 0x96, 0xEE, 0xE4, 0xA8, 0x41,
   0xDA, 0xFF, 0xCD, 0x55, 0x86, 0x36, 0xBE, 0x61, 0x52, 0xF8, 0xBB, 0x0E, 0x82, 0x48, 0x69, 0x9A,
   0xE0, 0x47, 0x9E, 0x5C, 0x04, 0x4B, 0x34, 0x15, 0x79, 0x26, 0xA7, 0xDE, 0x29, 0xAE, 0x92, 0xD7,
   0x84, 0xE9, 0xD2, 0xBA, 0x5D, 0xF3, 0xC5, 0xB0, 0xBF, 0xA4, 0x3B, 0x71, 0x44, 0x46, 0x2B, 0xFC,
   0xEB, 0x6F, 0xD5, 0xF6, 0x14, 0xFE, 0x7C, 0x70, 0x5A, 0x7D, 0xFD, 0x2F, 0x18, 0x83, 0x16, 0xA5,
   0x91, 0x1F, 0x05, 0x95, 0x74, 0xA9, 0xC1, 0x5B, 0x4A, 0x85, 0x6D, 0x13, 0x07, 0x4F, 0x4E, 0x45,
   0xB2, 0x0F, 0xC9, 0x1C, 0xA6, 0xBC, 0xEC, 0x73, 0x90, 0x7B, 0xCF, 0x59, 0x8F, 0xA1, 0xF9, 0x2D,
   0xF2, 0xB1, 0x00, 0x94, 0x37, 0x9F, 0xD0, 0x2E, 0x9C, 0x6E, 0x28, 0x3F, 0x80, 0xF0, 0x3D, 0xD3,
   0x25, 0x8A, 0xB5, 0xE7, 0x42, 0xB3, 0xC7, 0xEA, 0xF7, 0x4C, 0x11, 0x33, 0x03, 0xA2, 0xAC, 0x60]

/-- Table lookup `T[i]`; the index is always a byte at the call sites. -/
def sub (T : List Nat) (i : Nat) : Nat := T.getD i 0

/-- Modelled from the spec: `get_byte<B>(x)` of loadstor.h (not in the excerpt), byte `B`
of a 32-bit word counted from the most significant byte ("successive bytes of each word"). -/
def get_byte (B : Nat) (x : Nat) : Nat := (x / 2 ^ (8 * (3 - B))) % 256

/-- Modelled from the spec: `rotr<n>(x)` of rotate.h (not in the excerpt), "rotate right by
`n` bits" on a 32-bit word. -/
def rotr (n : Nat) (x : Nat) : Nat := (x / 2 ^ n + (x % 2 ^ n) * 2 ^ (32 - n)) % 2 ^ 32

/-- Modelled from the spec: `reverse_bytes(x)` of bswap.h (not in the excerpt), "fully
reverse byte order" of a 32-bit word. -/
def reverse_bytes (x : Nat) : Nat :=
  get_byte 3 x * 2 ^ 24 + get_byte 2 x * 2 ^ 16 + get_byte 1 x * 2 ^ 8 + get_byte 0 x

/-- Modelled from the spec: `load_be<uint32_t>(buf, i)` of loadstor.h (not in the excerpt),
the `i`-th big-endian 32-bit word of a byte buffer; `none` when a byte is out of range. -/
def load_be (buf : List Nat) (i : Nat) : Option Nat := do
  let b0 ← buf[4 * i]?
  let b1 ← buf[4 * i + 1]?
  let b2 ← buf[4 * i + 2]?
  let b3 ← buf[4 * i + 3]?
  pure (b0 * 2 ^ 24 + b1 * 2 ^ 16 + b2 * 2 ^ 8 + b3)

/-- Modelled from the spec: `load_be(in + off, t0, t1, t2, t3)` of loadstor.h, "load 4
big-endian 32-bit words from the block" that starts at byte offset `off`. -/
def load_be4 (buf : List Nat) (off : Nat) : Option W4 := do
  let t0 ← load_be (buf.drop off) 0
  let t1 ← load_be (buf.drop off) 1
  let t2 ← load_be (buf.drop off) 2
  let t3 ← load_be (buf.drop off) 3
  pure (t0, t1, t2, t3)

/-- `ARIA_F1` of aria.cpp. -/
def ARIA_F1 (X : Nat) : Nat :=
  let M1 := 0x00010101
  let M2 := 0x01000101
  let M3 := 0x01010001
  let M4 := 0x01010100
  (sub S1 (get_byte 0 X) * M1) ^^^ (sub S2 (get_byte 1 X) * M2) ^^^ (sub X1 (get_byte 2 X) * M3)
    ^^^ (sub X2 (get_byte 3 X) * M4)

/-- `ARIA_F2` of aria.cpp. -/
def ARIA_F2 (X : Nat) : Nat :=
  let M1 := 0x00010101
  let M2 := 0x01000101
  let M3 := 0x01010001
  let M4 := 0x01010100
  (sub X1 (get_byte 0 X) * M3) ^^^ (sub X2 (get_byte 1 X) * M4) ^^^ (sub S1 (get_byte 2 X) * M1)
    ^^^ (sub S2 (get_byte 3 X) * M2)

/-- The statement `T = ((T << 8) & 0xFF00FF00) | ((T >> 8) & 0x00FF00FF)` of aria.cpp. -/
def swap_pairs (T : Nat) : Nat :=
  (((T <<< 8) % 2 ^ 32) &&& 0xFF00FF00) ||| ((T >>> 8) &&& 0x00FF00FF)

/-- `ARIA_FO` of aria.cpp; the four reference parameters become the result. -/
def ARIA_FO (T0 T1 T2 T3 : Nat) : W4 :=
  let T0 := ARIA_F1 T0
  let T1 := ARIA_F1 T1
  let T2 := ARIA_F1 T2
  let T3 := ARIA_F1 T3
  let T1 := T1 ^^^ T2
  let T2 := T2 ^^^ T3
  let T0 := T0 ^^^ T1
  let T3 := T3 ^^^ T1
  let T2 := T2 ^^^ T0
  let T1 := T1 ^^^ T2
  let T1 := swap_pairs T1
  let T2 := rotr 16 T2
  let T3 := reverse_bytes T3
  let T1 := T1 ^^^ T2
  let T2 := T2 ^^^ T3
  let T0 := T0 ^^^ T1
  let T3 := T3 ^^^ T1
  let T2 := T2 ^^^ T0
  let T1 := T1 ^^^ T2
  (T0, T1, T2, T3)

/-- `ARIA_FE` of aria.cpp; the four reference parameters become the result. -/
def ARIA_FE (T0 T1 T2 T3 : Nat) : W4 :=
  let T0 := ARIA_F2 T0
  let T1 := ARIA_F2 T1
  let T2 := ARIA_F2 T2
  let T3 := ARIA_F2 T3
  let T1 := T1 ^^^ T2
  let T2 := T2 ^^^ T3
  let T0 := T0 ^^^ T1
  let T3 := T3 ^^^ T1
  let T2 := T2 ^^^ T0
  let T1 := T1 ^^^ T2
  let T3 := swap_pairs T3
  let T0 := rotr 16 T0
  let T1 := reverse_bytes T1
  let T1 := T1 ^^^ T2
  let T2 := T2 ^^^ T3
  let T0 := T0 ^^^ T1
  let T3 := T3 ^^^ T1
  let T2 := T2 ^^^ T0
  let T1 := T1 ^^^ T2
  (T0, T1, T2, T3)

/-- The value `ROUNDS = (KS.size() / 4) - 1` of `transform`, in `size_t` arithmetic. -/
def rounds_of (KS : List Nat) : Nat := (KS.length / 4 + 2 ^ 64 - 1) % 2 ^ 64

/-- The loop `for(size_t r = 0; r < ROUNDS; r += 2)` of `transform`, entered at `r` with
working words `t`. The loop needs at most `ROUNDS` iterations; `none` is an out-of-range
read of `KS` or exhausted fuel. -/
def round_loop (KS : List Nat) (ROUNDS : Nat) : Nat → Nat → W4 → Option W4
  | 0, r, t => if r < ROUNDS then none else some t
  | fuel + 1, r, (t0, t1, t2, t3) =>
    if r < ROUNDS then do
      let k0 ← KS[4 * r]?
      let k1 ← KS[4 * r + 1]?
      let k2 ← KS[4 * r + 2]?
      let k3 ← KS[4 * r + 3]?
      let (t0, t1, t2, t3) := ARIA_FO (t0 ^^^ k0) (t1 ^^^ k1) (t2 ^^^ k2) (t3 ^^^ k3)
      let k4 ← KS[4 * r + 4]?
      let k5 ← KS[4 * r + 5]?
      let k6 ← KS[4 * r + 6]?
      let k7 ← KS[4 * r + 7]?
      let (t0, t1, t2, t3) := (t0 ^^^ k4, t1 ^^^ k5, t2 ^^^ k6, t3 ^^^ k7)
      let t := if r ≠ (ROUNDS + 2 ^ 64 - 2) % 2 ^ 64 then ARIA_FE t0 t1 t2 t3 else (t0, t1, t2, t3)
      round_loop KS ROUNDS fuel (r + 2) t
    else some (t0, t1, t2, t3)

/-- The four output bytes `out[16*i + 4*j .. 16*i + 4*j + 3]` that the final stage of
`transform` writes for working word `t` and schedule word `k = KS[4 * ROUNDS + j]`. -/
def final_word (t k : Nat) : List Nat :=
  [sub X1 (get_byte 0 t) ^^^ get_byte 0 k,
   sub X2 (get_byte 1 t) ^^^ get_byte 1 k,
   sub S1 (get_byte 2 t) ^^^ get_byte 2 k,
   sub S2 (get_byte 3 t) ^^^ get_byte 3 k]

/-- One iteration of the block loop of `transform`: the 16 bytes written to
`out[16*i .. 16*i + 15]` from `in[16*i .. 16*i + 15]`. -/
def transform_block (inp : List Nat) (i : Nat) (KS : List Nat) : Option (List Nat) := do
  let ROUNDS := rounds_of KS
  let t ← load_be4 inp (16 * i)
  let (t0, t1, t2, t3) ← round_loop KS ROUNDS ROUNDS 0 t
  let k0 ← KS[4 * ROUNDS]?
  let k1 ← KS[4 * ROUNDS + 1]?
  let k2 ← KS[4 * ROUNDS + 2]?
  let k3 ← KS[4 * ROUNDS + 3]?
  pure (final_word t0 k0 ++ final_word t1 k1 ++ final_word t2 k2 ++ final_word t3 k3)

/-- The loop `for(size_t i = 0; i != blocks; ++i)` of `transform`, entered at block `i`
with `n` blocks left; the result is the bytes written to `out` from offset `16 * i` on. -/
def transform_from (inp : List Nat) (KS : List Nat) : Nat → Nat → Option (List Nat)
  | _, 0 => some []
  | i, n + 1 => do
    let b ← transform_block inp i KS
    let rest ← transform_from inp KS (i + 1) n
    pure (b ++ rest)

/-- `ARIA_F::transform` of aria.cpp: the `16 * blocks` bytes written to `out`. The table
prefetch has no effect on the result. -/
def transform (inp : List Nat) (blocks : Nat) (KS : List Nat) : Option (List Nat) :=
  transform_from inp KS 0 blocks

/-- Element `Y[i]` of a four-word array. -/
def at4 (Y : W4) (i : Nat) : Nat :=
  match i with
  | 0 => Y.1
  | 1 => Y.2.1
  | 2 => Y.2.2.1
  | _ => Y.2.2.2

/-- `ARIA_ROL128<N>` of aria.cpp; the four words written to `KS[0 .. 3]` are the result. -/
def ARIA_ROL128 (N : Nat) (X Y : W4) : W4 :=
  let Q := 4 - (N / 32)
  let R := N % 32
  (at4 X 0 ^^^ (at4 Y (Q % 4) >>> R) ^^^ ((at4 Y ((Q + 3) % 4) <<< (32 - R)) % 2 ^ 32),
   at4 X 1 ^^^ (at4 Y ((Q + 1) % 4) >>> R) ^^^ ((at4 Y (Q % 4) <<< (32 - R)) % 2 ^ 32),
   at4 X 2 ^^^ (at4 Y ((Q + 2) % 4) >>> R) ^^^ ((at4 Y ((Q + 1) % 4) <<< (32 - R)) % 2 ^ 32),
   at4 X 3 ^^^ (at4 Y ((Q + 3) % 4) >>> R) ^^^ ((at4 Y ((Q + 2) % 4) <<< (32 - R)) % 2 ^ 32))

/-- `aria_ks_dk_transform` of aria.cpp; the four reference parameters become the result. -/
def aria_ks_dk_transform (K0 K1 K2 K3 : Nat) : W4 :=
  let K0 := rotr 8 K0 ^^^ rotr 16 K0 ^^^ rotr 24 K0
  let K1 := rotr 8 K1 ^^^ rotr 16 K1 ^^^ rotr 24 K1
  let K2 := rotr 8 K2 ^^^ rotr 16 K2 ^^^ rotr 24 K2
  let K3 := rotr 8 K3 ^^^ rotr 16 K3 ^^^ rotr 24 K3
  let K1 := K1 ^^^ K2
  let K2 := K2 ^^^ K3
  let K0 := K0 ^^^ K1
  let K3 := K3 ^^^ K1
  let K2 := K2 ^^^ K0
  let K1 := K1 ^^^ K2
  let K1 := swap_pairs K1
  let K2 := rotr 16 K2
  let K3 := reverse_bytes K3
  let K1 := K1 ^^^ K2
  let K2 := K2 ^^^ K3
  let K0 := K0 ^^^ K1
  let K3 := K3 ^^^ K1
  let K2 := K2 ^^^ K0
  let K1 := K1 ^^^ K2
  (K0, K1, K2, K3)

/-- The constant `KRK[3][4]` of `key_schedule`. -/
def KRK : List W4 :=
  [(0x517cc1b7, 0x27220a94, 0xfe13abe8, 0xfa9a6ee0),
   (0x6db14acc, 0x9e21c820, 0xff28b1d5, 0xef5de2b0),
   (0xdb92371d, 0x2126e970, 0x03249775, 0x04e8c90e)]

/-- `v.resize(n)` of a vector: truncate, or extend with zero words. -/
def resize (v : List Nat) (n : Nat) : List Nat := v.take n ++ List.replicate (n - v.length) 0

/-- The four writes `KS[0] = .. ; .. ; KS[3] = ..` through the pointer `&V[off]`;
`none` when a written element is outside the vector. -/
def store4 (V : List Nat) (off : Nat) (g : W4) : Option (List Nat) :=
  if off + 3 < V.length then
    some ((((V.set off g.1).set (off + 1) g.2.1).set (off + 2) g.2.2.1).set (off + 3) g.2.2.2)
  else none

/-- Componentwise XOR of two four-word arrays. -/
def xor4 (a b : W4) : W4 := (a.1 ^^^ b.1, a.2.1 ^^^ b.2.1, a.2.2.1 ^^^ b.2.2.1, a.2.2.2 ^^^ b.2.2.2)

/-- The first part of `key_schedule` (lines 252 to 308): the arrays `w0, w1, w2, w3`
computed from the key bytes; `none` on an out-of-range read of `key` or `KRK`. -/
def key_words (key : List Nat) : Option (W4 × W4 × W4 × W4) := do
  let length := key.length
  let CK0 := (length / 8 + 2 ^ 64 - 2) % 2 ^ 64
  let CK1 := (CK0 + 1) % 3
  let CK2 := (CK1 + 1) % 3
  let w0 : W4 := (← load_be key 0, ← load_be key 1, ← load_be key 2, ← load_be key 3)
  let w1 := xor4 w0 (← KRK[CK0]?)
  let w1 := ARIA_FO w1.1 w1.2.1 w1.2.2.1 w1.2.2.2
  let w1 : W4 ←
    if length = 24 ∨ length = 32 then do
      pure (w1.1 ^^^ (← load_be key 4), w1.2.1 ^^^ (← load_be key 5), w1.2.2.1, w1.2.2.2)
    else pure w1
  let w1 : W4 ←
    if length = 32 then do
      pure (w1.1, w1.2.1, w1.2.2.1 ^^^ (← load_be key 6), w1.2.2.2 ^^^ (← load_be key 7))
    else pure w1
  let w2 := xor4 w1 (← KRK[CK1]?)
  let w2 := ARIA_FE w2.1 w2.2.1 w2.2.2.1 w2.2.2.2
  let w2 := xor4 w2 w0
  let w3 := xor4 w2 (← KRK[CK2]?)
  let w3 := ARIA_FO w3.1 w3.2.1 w3.2.2.1 w3.2.2.2
  let w3 := xor4 w3 w1
  pure (w0, w1, w2, w3)

/-- The second part of `key_schedule` (lines 310 to 339): the resize of `ERK` and the
`ARIA_ROL128` calls that fill it, in source order. -/
def fill_ERK (ERK : List Nat) (length : Nat) (w0 w1 w2 w3 : W4) : Option (List Nat) :=
  let ERK :=
    if length = 16 then resize ERK (4 * 13)
    else if length = 24 then resize ERK (4 * 15)
    else if length = 32 then resize ERK (4 * 17)
    else ERK
  match store4 ERK 0 (ARIA_ROL128 19 w0 w1) with
  | none => none
  | some ERK =>
  match store4 ERK 4 (ARIA_ROL128 19 w1 w2) with
  | none => none
  | some ERK =>
  match store4 ERK 8 (ARIA_ROL128 19 w2 w3) with
  | none => none
  | some ERK =>
  match store4 ERK 12 (ARIA_ROL128 19 w3 w0) with
  | none => none
  | some ERK =>
  match store4 ERK 16 (ARIA_ROL128 31 w0 w1) with
  | none => none
  | some ERK =>
  match store4 ERK 20 (ARIA_ROL128 31 w1 w2) with
  | none => none
  | some ERK =>
  match store4 ERK 24 (ARIA_ROL128 31 w2 w3) with
  | none => none
  | some ERK =>
  match store4 ERK 28 (ARIA_ROL128 31 w3 w0) with
  | none => none
  | some ERK =>
  match store4 ERK 32 (ARIA_ROL128 67 w0 w1) with
  | none => none
  | some ERK =>
  match store4 ERK 36 (ARIA_ROL128 67 w1 w2) with
  | none => none
  | some ERK =>
  match store4 ERK 40 (ARIA_ROL128 67 w2 w3) with
  | none => none
  | some ERK =>
  match store4 ERK 44 (ARIA_ROL128 67 w3 w0) with
  | none => none
  | some ERK =>
  match store4 ERK 48 (ARIA_ROL128 97 w0 w1) with
  | none => none
  | some ERK =>
  if length = 24 ∨ length = 32 then
    match store4 ERK 52 (ARIA_ROL128 97 w1 w2) with
    | none => none
    | some ERK =>
    match store4 ERK 56 (ARIA_ROL128 97 w2 w3) with
    | none => none
    | some ERK =>
    if length = 32 then
      match store4 ERK 60 (ARIA_ROL128 97 w3 w0) with
      | none => none
      | some ERK =>
      match store4 ERK 64 (ARIA_ROL128 109 w0 w1) with
      | none => none
      | some ERK =>
      some ERK
    else some ERK
  else some ERK

/-- The loop `for(size_t i = 0; i != DRK.size(); i += 4)` of `key_schedule`, entered at
`i`; `none` is an out-of-range access or exhausted fuel. -/
def drk_copy_loop (ERK : List Nat) : Nat → Nat → List Nat → Option (List Nat)
  | 0, i, DRK => if i ≠ DRK.length then none else some DRK
  | fuel + 1, i, DRK =>
    if i ≠ DRK.length then do
      let e0 ← ERK[(ERK.length + 2 ^ 64 - 4 - i) % 2 ^ 64]?
      let e1 ← ERK[(ERK.length + 2 ^ 64 - 3 - i) % 2 ^ 64]?
      let e2 ← ERK[(ERK.length + 2 ^ 64 - 2 - i) % 2 ^ 64]?
      let e3 ← ERK[(ERK.length + 2 ^ 64 - 1 - i) % 2 ^ 64]?
      let DRK ← store4 DRK i (e0, e1, e2, e3)
      drk_copy_loop ERK fuel (i + 4) DRK
    else some DRK

/-- The loop `for(size_t i = 4; i != DRK.size() - 4; i += 4)` of `key_schedule`, entered
at `i`; `none` is an out-of-range access or exhausted fuel. -/
def drk_transform_loop : Nat → Nat → List Nat → Option (List Nat)
  | 0, i, DRK => if i ≠ (DRK.length + 2 ^ 64 - 4) % 2 ^ 64 then none else some DRK
  | fuel + 1, i, DRK =>
    if i ≠ (DRK.length + 2 ^ 64 - 4) % 2 ^ 64 then do
      let K0 ← DRK[i + 0]?
      let K1 ← DRK[i + 1]?
      let K2 ← DRK[i + 2]?
      let K3 ← DRK[i + 3]?
      let DRK ← store4 DRK i (aria_ks_dk_transform K0 K1 K2 K3)
      drk_transform_loop fuel (i + 4) DRK
    else some DRK

/-- The third part of `key_schedule` (lines 341 to 353): the decryption schedule built
from the finished `ERK`. -/
def make_DRK (ERK DRK : List Nat) : Option (List Nat) := do
  let DRK := resize DRK ERK.length
  let DRK ← drk_copy_loop ERK DRK.length 0 DRK
  drk_transform_loop DRK.length 4 DRK

/-- `ARIA_F::key_schedule` of aria.cpp: the new contents of `ERK` and `DRK`. The
parameter `length` of the source is the length of `key`. -/
def key_schedule (ERK DRK : List Nat) (key : List Nat) : Option (List Nat × List Nat) := do
  let (w0, w1, w2, w3) ← key_words key
  let ERK ← fill_ERK ERK key.length w0 w1 w2 w3
  let DRK ← make_DRK ERK DRK
  pure (ERK, DRK)

/-- The 32-bit word with bytes `a b c d`, most significant first (each reduced to a byte). -/
def mkw (a b c d : Nat) : Nat := (a % 256) * 2 ^ 24 + (b % 256) * 2 ^ 16 + (c % 256) * 2 ^ 8 + d % 256

/-- Substitution of one word, bytes through `S1, S2, X1, X2` (most significant first). -/
def sl1 (x : Nat) : Nat :=
  mkw (sub S1 (get_byte 0 x)) (sub S2 (get_byte 1 x)) (sub X1 (get_byte 2 x)) (sub X2 (get_byte 3 x))

/-- Substitution of one word, bytes through `X1, X2, S1, S2` (most significant first). -/
def sl2 (x : Nat) : Nat :=
  mkw (sub X1 (get_byte 0 x)) (sub X2 (get_byte 1 x)) (sub S1 (get_byte 2 x)) (sub S2 (get_byte 3 x))

/-- Substitution layer `SL1` on a state: `sl1` on each of the four words. -/
def SL1 (t : W4) : W4 := (sl1 t.1, sl1 t.2.1, sl1 t.2.2.1, sl1 t.2.2.2)

/-- Substitution layer `SL2` on a state: `sl2` on each of the four words. -/
def SL2 (t : W4) : W4 := (sl2 t.1, sl2 t.2.1, sl2 t.2.2.1, sl2 t.2.2.2)

/-- The map of `aria_ks_dk_transform` on a four-word array. -/
def A4 (t : W4) : W4 := aria_ks_dk_transform t.1 t.2.1 t.2.2.1 t.2.2.2

/-- `ARIA_FO` on a four-word array. -/
def FO4 (t : W4) : W4 := ARIA_FO t.1 t.2.1 t.2.2.1 t.2.2.2

/-- `ARIA_FE` on a four-word array. -/
def FE4 (t : W4) : W4 := ARIA_FE t.1 t.2.1 t.2.2.1 t.2.2.2

/-- All four words are 32-bit values. -/
def valid4 (t : W4) : Prop := t.1 < 2 ^ 32 ∧ t.2.1 < 2 ^ 32 ∧ t.2.2.1 < 2 ^ 32 ∧ t.2.2.2 < 2 ^ 32

instance (t : W4) : Decidable (valid4 t) := by unfold valid4; infer_instance

/-- The four words of an array, as a list. -/
def g4 (g : W4) : List Nat := [g.1, g.2.1, g.2.2.1, g.2.2.2]

/-- Group `i` of a schedule: the words `KS[4*i] .. KS[4*i + 3]`. -/
def group (KS : List Nat) (i : Nat) : W4 :=
  (KS.getD (4 * i) 0, KS.getD (4 * i + 1) 0, KS.getD (4 * i + 2) 0, KS.getD (4 * i + 3) 0)

/-- The first `4 * j` words of the decryption schedule after the copy loop: groups
`G-1, G-2, .., G-j` of `ERK`. -/
def copied (ERK : List Nat) (G : Nat) : Nat → List Nat
  | 0 => []
  | j + 1 => copied ERK G j ++ g4 (group ERK (G - 1 - j))

/-- The first `4 * (j + 1)` words of the decryption schedule after the transform loop has
passed group `j`: group 0 of `T` unchanged, then groups `1 .. j` through
`aria_ks_dk_transform`. -/
def mixed (T : List Nat) : Nat → List Nat
  | 0 => g4 (group T 0)
  | j + 1 => mixed T j ++ g4 (A4 (group T (j + 1)))

/-- The decryption schedule that `key_schedule` derives from a finished `ERK` of `G`
groups, in closed form. -/
def drk_of (ERK : List Nat) (G : Nat) : List Nat :=
  mixed (copied ERK G G) (G - 2) ++ (copied ERK G G).drop (4 * (G - 1))

/-- The schedule groups that `key_schedule` writes to `ERK` for a key of `length` bytes,
in source order. -/
def erk_groups (length : Nat) (w0 w1 w2 w3 : W4) : List W4 :=
  [ARIA_ROL128 19 w0 w1,
   ARIA_ROL128 19 w1 w2,
   ARIA_ROL128 19 w2 w3,
   ARIA_ROL128 19 w3 w0,
   ARIA_ROL128 31 w0 w1,
   ARIA_ROL128 31 w1 w2,
   ARIA_ROL128 31 w2 w3,
   ARIA_ROL128 31 w3 w0,
   ARIA_ROL128 67 w0 w1,
   ARIA_ROL128 67 w1 w2,
   ARIA_ROL128 67 w2 w3,
   ARIA_ROL128 67 w3 w0,
   ARIA_ROL128 97 w0 w1]
  ++ (if length = 24 ∨ length = 32 then [ARIA_ROL128 97 w1 w2, ARIA_ROL128 97 w2 w3] else [])
  ++ (if length = 32 then [ARIA_ROL128 97 w3 w0, ARIA_ROL128 109 w0 w1] else [])

/-- The contents of `ERK` after `key_schedule`, in closed form. -/
def erk_of (length : Nat) (w0 w1 w2 w3 : W4) : List Nat :=
  ((erk_groups length w0 w1 w2 w3).map g4).flatten

/-- Every element of a buffer is a byte. -/
def isBytes (l : List Nat) : Prop := ∀ b ∈ l, b < 256

instance (l : List Nat) : Decidable (isBytes l) := by unfold isBytes; infer_instance

/-- Every element of a schedule is a 32-bit word. -/
def isWords (l : List Nat) : Prop := ∀ w ∈ l, w < 2 ^ 32

instance (l : List Nat) : Decidable (isWords l) := by unfold isWords; infer_instance

/-- Big-endian word `i` of a byte buffer, bytes beyond the end of the buffer read as 0. -/
def be32 (buf : List Nat) (i : Nat) : Nat :=
  buf.getD (4 * i) 0 * 2 ^ 24 + buf.getD (4 * i + 1) 0 * 2 ^ 16 + buf.getD (4 * i + 2) 0 * 2 ^ 8
    + buf.getD (4 * i + 3) 0

/-- The four generator arrays `(w0, w1, w2, w3)` of the key schedule as a function of the
key bytes: `W0` is the first 16 key bytes, `KR` the key bytes 16 .. 31 with missing bytes
taken as zero, and `c = length / 8 - 2` selects the first of three rows of `KRK`. -/
def kw (key : List Nat) : W4 × W4 × W4 × W4 :=
  let c := key.length / 8 - 2
  let W0 : W4 := (be32 key 0, be32 key 1, be32 key 2, be32 key 3)
  let KR : W4 := (be32 key 4, be32 key 5, be32 key 6, be32 key 7)
  let w1 := xor4 (FO4 (xor4 W0 (KRK.getD c (0, 0, 0, 0)))) KR
  let w2 := xor4 (FE4 (xor4 w1 (KRK.getD ((c + 1) % 3) (0, 0, 0, 0)))) W0
  let w3 := xor4 (FO4 (xor4 w2 (KRK.getD ((c + 2) % 3) (0, 0, 0, 0)))) w1
  (W0, w1, w2, w3)

/-- The key length is one of the three lengths the cipher is defined for. -/
def validLen (n : Nat) : Prop := n = 16 ∨ n = 24 ∨ n = 32

instance (n : Nat) : Decidable (validLen n) := by unfold validLen; infer_instance

/-- The number of schedule groups for a key of `len` bytes: `ROUNDS + 1`. -/
def groups_of (len : Nat) : Nat := if len = 16 then 13 else if len = 24 then 15 else 17

/-- The encryption schedule derived from a key, in closed form. -/
def erk_key (key : List Nat) : List Nat :=
  erk_of key.length (kw key).1 (kw key).2.1 (kw key).2.2.1 (kw key).2.2.2

/-- The decryption schedule derived from a key, in closed form. -/
def drk_key (key : List Nat) : List Nat := drk_of (erk_key key) (groups_of key.length)

/-- Round function number `i` (counted from 1): `ARIA_FO` for odd `i`, `ARIA_FE` for even `i`. -/
def Fi (i : Nat) : W4 → W4 := if i % 2 = 1 then FO4 else FE4

/-- The flat description of the rounds: starting with round number `i`, apply `n` rounds
`state := F_i(state XOR group_{i-1})`. -/
def flat_rounds (g : Nat → W4) : Nat → Nat → W4 → W4
  | 0, _, s => s
  | n + 1, i, s => flat_rounds g n (i + 1) (Fi i (xor4 s (g (i - 1))))

/-- The final stage of `transform` on the four working words `s` and the last schedule
group `k`: 16 output bytes. -/
def final_stage (s k : W4) : List Nat :=
  final_word s.1 k.1 ++ final_word s.2.1 k.2.1 ++ final_word s.2.2.1 k.2.2.1
    ++ final_word s.2.2.2 k.2.2.2

/-- The flat round-by-round description of one block transform with `R` rounds: rounds
`1 .. R-1` alternate `ARIA_FO` (odd) and `ARIA_FE` (even), then the state is XORed with
group `R-1` and passed through the substitution-only final stage with group `R`. -/
def flat_block (KS : List Nat) (R : Nat) (blk : W4) : List Nat :=
  let state := flat_rounds (group KS) (R - 1) 1 blk
  let state := xor4 state (group KS (R - 1))
  final_stage state (group KS R)

/-- The four big-endian words of the 16 bytes that start at offset `off`. -/
def words_at (buf : List Nat) (off : Nat) : W4 :=
  (be32 (buf.drop off) 0, be32 (buf.drop off) 1, be32 (buf.drop off) 2, be32 (buf.drop off) 3)

/-- Substitution layer of round `i` (counted from 1): `SL1` for odd `i`, `SL2` for even `i`. -/
def SLi (i : Nat) : W4 → W4 := if i % 2 = 1 then SL1 else SL2

/-- The block transform on words: `R - 1` full rounds, the key addition of round `R`, the
substitution layer `SL2` and the final key addition. -/
def enc4 (g : Nat → W4) (R : Nat) (s : W4) : W4 :=
  xor4 (SL2 (xor4 (flat_rounds g (R - 1) 1 s) (g (R - 1)))) (g R)

/-- The four bytes of a 32-bit word, most significant first. -/
def word_bytes (w : Nat) : List Nat := [get_byte 0 w, get_byte 1 w, get_byte 2 w, get_byte 3 w]

/-- The 16 bytes of four words, big-endian. -/
def bytes_of (t : W4) : List Nat :=
  word_bytes t.1 ++ word_bytes t.2.1 ++ word_bytes t.2.2.1 ++ word_bytes t.2.2.2

/-- The block transform of the first `n` 16-byte blocks of a buffer, on words. -/
def enc_buf (g : Nat → W4) (R : Nat) : List Nat → Nat → List Nat
  | _, 0 => []
  | buf, n + 1 => bytes_of (enc4 g R (words_at buf 0)) ++ enc_buf g R (buf.drop 16) n

/-- The flat description of `transform` on the first `n` blocks of a buffer. -/
def flat_buf (KS : List Nat) (R : Nat) : List Nat → Nat → List Nat
  | _, 0 => []
  | buf, n + 1 => flat_block KS R (words_at buf 0) ++ flat_buf KS R (buf.drop 16) n

/-- The schedule has `4 * (R + 1)` words for an even number of rounds `R ≥ 2`. -/
def goodKS (KS : List Nat) (R : Nat) : Prop :=
  R % 2 = 0 ∧ 2 ≤ R ∧ KS.length = 4 * (R + 1) ∧ R < 2 ^ 63

end ARIA_F

namespace ARIA

/-- The error kinds of the block-cipher contract. -/
inductive Error where
  | InvalidKeyLength
  | NotKeyed
  deriving DecidableEq, Repr

/-- How a member function ends: normally, by raising an error, or in undefined behaviour
(an out-of-range access inside `ARIA_F`). -/
inductive Outcome where
  | done
  | raised (e : Error)
  | undefined
  deriving DecidableEq, Repr

/-- The data members of `ARIA_128`, `ARIA_192` and `ARIA_256`; the member functions of the
three classes in aria.cpp are textually identical, so one model serves all three. -/
structure State where
  m_ERK : List Nat
  m_DRK : List Nat
  deriving DecidableEq, Repr

/-- `has_keying_material` of aria.cpp: `!m_ERK.empty()`. -/
def has_keying_material (s : State) : Bool := !s.m_ERK.isEmpty

/-- Modelled from the spec: `assert_key_material_set()` of the cipher base class (not in
the excerpt): "calling encrypt or decrypt before a schedule is set ... must be rejected",
error kind NotKeyed, decided by `has_keying_material()`. -/
def assert_key_material_set (s : State) : Except Error Unit :=
  if has_keying_material s then .ok () else .error .NotKeyed

/-- The effect of a finished `transform` on the caller's output buffer: the written bytes
replace the front of `out`. -/
def write_out (out : List Nat) (r : Option (List Nat)) : List Nat × Outcome :=
  match r with
  | some bytes => (bytes ++ out.drop bytes.length, .done)
  | none => (out, .undefined)

/-- `encrypt_n` of aria.cpp: the output buffer afterwards and the outcome. -/
def encrypt_n (s : State) (inp out : List Nat) (blocks : Nat) : List Nat × Outcome :=
  match assert_key_material_set s with
  | .error e => (out, .raised e)
  | .ok _ => write_out out (ARIA_F.transform inp blocks s.m_ERK)

/-- `decrypt_n` of aria.cpp: the output buffer afterwards and the outcome. -/
def decrypt_n (s : State) (inp out : List Nat) (blocks : Nat) : List Nat × Outcome :=
  match assert_key_material_set s with
  | .error e => (out, .raised e)
  | .ok _ => write_out out (ARIA_F.transform inp blocks s.m_DRK)

/-- `key_schedule` of `ARIA_128/192/256` in aria.cpp: it forwards to `ARIA_F::key_schedule`
on the two members. -/
def key_schedule (s : State) (key : List Nat) : State × Outcome :=
  match ARIA_F.key_schedule s.m_ERK s.m_DRK key with
  | some (ERK, DRK) => ({ m_ERK := ERK, m_DRK := DRK }, .done)
  | none => (s, .undefined)

/-- Modelled from the spec: `set_key(bytes, length)` of the cipher base class (not in the
excerpt): "accepts 16/24/32-byte keys only; derives and stores both schedules"; a length
outside that set raises InvalidKeyLength "at `set_key` time", before `key_schedule` runs. -/
def set_key (s : State) (key : List Nat) : State × Outcome :=
  if key.length = 16 ∨ key.length = 24 ∨ key.length = 32 then key_schedule s key
  else (s, .raised .InvalidKeyLength)

/-- Modelled from the spec: `zap(v)` of secmem.h (not in the excerpt), which "erases
(zero-fills, not merely deallocates)" a schedule: every word is overwritten with zero, then
the vector is emptied. -/
def zap (v : List Nat) : List Nat := (v.map fun _ => 0).take 0

/-- `clear` of aria.cpp: `zap(m_ERK); zap(m_DRK);`. -/
def clear (s : State) : State × Outcome := ({ m_ERK := zap s.m_ERK, m_DRK := zap s.m_DRK }, .done)

end ARIA

namespace ARIA_F

/-- Plaintext of the test vectors of RFC 5794, Appendix A. -/
def kat_pt : List Nat :=
  [0x00, 0x11, 0x22, 0x33, 0x44, 0x55, 0x66, 0x77, 0x88, 0x99, 0xaa, 0xbb, 0xcc, 0xdd, 0xee, 0xff]

/-- Ciphertext of RFC 5794, Appendix A.1 (128-bit key). -/
def kat_ct128 : List Nat :=
  [0xd7, 0x18, 0xfb, 0xd6, 0xab, 0x64, 0x4c, 0x73, 0x9d, 0xa9, 0x5f, 0x3b, 0xe6, 0x45, 0x17, 0x78]

/-- Ciphertext of RFC 5794, Appendix A.2 (192-bit key). -/
def kat_ct192 : List Nat :=
  [0x26, 0x44, 0x9c, 0x18, 0x05, 0xdb, 0xe7, 0xaa, 0x25, 0xa4, 0x68, 0xce, 0x26, 0x3a, 0x9e, 0x79]

/-- Ciphertext of RFC 5794, Appendix A.3 (256-bit key). -/
def kat_ct256 : List Nat :=
  [0xf9, 0x2b, 0xd7, 0xc7, 0x9f, 0xb7, 0x2e, 0x2f, 0x2b, 0x8f, 0x80, 0xc1, 0x97, 0x2d, 0x24, 0xfc]

/-- Encrypt one block under the schedule of `key`, then decrypt the result: the pair
(ciphertext, decrypted text). -/
def kat_run (key pt : List Nat) : Option (List Nat × List Nat) :=
  match key_schedule [] [] key with
  | none => none
  | some (ERK, DRK) =>
    match transform pt 1 ERK with
    | none => none
    | some ct =>
      match transform ct 1 DRK with
      | none => none
      | some back => some (ct, back)

end ARIA_F

namespace ARIA

/-- A keyed instance used in the witnesses: the fresh instance after `key_schedule` with the
128-bit key `00 01 .. 0f`. -/
def keyed : State := (key_schedule { m_ERK := [], m_DRK := [] } (List.range 16)).1

end ARIA

namespace ARIA_F

/-- The table that `ARIA_F1` (the odd round function) applies to byte `k` of a word:
`S1, S2, X1, X2` for `k = 0, 1, 2, 3`. -/
def table_F1 (k : Nat) : List Nat :=
  match k with
  | 0 => S1
  | 1 => S2
  | 2 => X1
  | _ => X2

/-- The table that `ARIA_F2` (the even round function) applies to byte `k` of a word:
`X1, X2, S1, S2` for `k = 0, 1, 2, 3`. -/
def table_F2 (k : Nat) : List Nat :=
  match k with
  | 0 => X1
  | 1 => X2
  | 2 => S1
  | _ => S2

/-- A final stage for one word with a given table ordering: byte `k` of the working word
`t` goes through table `tab k` and is XORed with byte `k` of the schedule word. -/
def final_with (tab : Nat → List Nat) (t k : Nat) : List Nat :=
  [sub (tab 0) (get_byte 0 t) ^^^ get_byte 0 k,
   sub (tab 1) (get_byte 1 t) ^^^ get_byte 1 k,
   sub (tab 2) (get_byte 2 t) ^^^ get_byte 2 k,
   sub (tab 3) (get_byte 3 t) ^^^ get_byte 3 k]

/-- Four words read as one 128-bit value, word 0 most significant. -/
def to128 (Y : W4) : Nat := Y.1 * 2 ^ 96 + Y.2.1 * 2 ^ 64 + Y.2.2.1 * 2 ^ 32 + Y.2.2.2

/-- The four 32-bit words of a 128-bit value, most significant first. -/
def of128 (v : Nat) : W4 := (v / 2 ^ 96 % 2 ^ 32, v / 2 ^ 64 % 2 ^ 32, v / 2 ^ 32 % 2 ^ 32, v % 2 ^ 32)

/-- Rotation of a 128-bit value right by `n` bits. -/
def rotr128 (v n : Nat) : Nat := (v / 2 ^ n + (v % 2 ^ n) * 2 ^ (128 - n)) % 2 ^ 128

/-- The rotation amounts of the schedule, in the order the source uses them. -/
def rot_amounts : List Nat := [19, 31, 67, 97, 109]

/-- Array `w[i]` of the four generator arrays `(w0, w1, w2, w3)`. -/
def wsel (w : W4 × W4 × W4 × W4) (i : Nat) : W4 :=
  match i with
  | 0 => w.1
  | 1 => w.2.1
  | 2 => w.2.2.1
  | _ => w.2.2.2

end ARIA_F

namespace ARIA

/-- One state-changing call on an instance: `key_schedule(key)` or `clear()`. -/
inductive Op where
  | rekey (key : List Nat)
  | clear
  deriving DecidableEq, Repr

/-- The state after one call. -/
def step (s : State) : Op → State
  | .rekey key => (key_schedule s key).1
  | .clear => (clear s).1

/-- The state after a sequence of calls, first call first. -/
def run (s : State) (ops : List Op) : State := ops.foldl step s

/-- The fresh instance: both vectors empty. -/
def fresh : State := { m_ERK := [], m_DRK := [] }

/-- The call is a `clear()` or a `key_schedule` with a key of 16, 24 or 32 bytes. -/
def opOk : Op → Bool
  | .rekey key => decide (key.length = 16 ∨ key.length = 24 ∨ key.length = 32)
  | .clear => true

/-- The two vectors have the same size, and it is 0, 52, 60 or 68. -/
def sizesOk (s : State) : Prop :=
  s.m_ERK.length = s.m_DRK.length ∧
    (s.m_ERK.length = 0 ∨ s.m_ERK.length = 52 ∨ s.m_ERK.length = 60 ∨ s.m_ERK.length = 68)

end ARIA

namespace ARIA_F

/-- The indices that a run of `transform` touches, in program order: indices into `KS`,
into the four tables, into `in[]`, into `out[]`, and the number of iterations of the loop
`for(size_t r = 0; r < ROUNDS; r += 2)`. -/
structure Trace where
  ks : List Nat
  tab : List Nat
  inp : List Nat
  out : List Nat
  iters : Nat

/-- The trace of doing nothing. -/
def Trace.nil : Trace := { ks := [], tab := [], inp := [], out := [], iters := 0 }

/-- The trace of one run followed by another. -/
def Trace.append (a b : Trace) : Trace :=
  { ks := a.ks ++ b.ks, tab := a.tab ++ b.tab, inp := a.inp ++ b.inp, out := a.out ++ b.out,
    iters := a.iters + b.iters }

/-- The table indices `get_byte<0>(X) .. get_byte<3>(X)` that `ARIA_F1(X)`, `ARIA_F2(X)`
and the final stage use for a word `X`. -/
def byte_idx (X : Nat) : List Nat := [get_byte 0 X, get_byte 1 X, get_byte 2 X, get_byte 3 X]

/-- The 16 table indices of one call of `ARIA_FO` or `ARIA_FE`, or of the final stage. -/
def round_idx (t : W4) : List Nat :=
  byte_idx t.1 ++ byte_idx t.2.1 ++ byte_idx t.2.2.1 ++ byte_idx t.2.2.2

/-- The eight schedule indices `4*r .. 4*r + 7` read by one iteration of the round loop. -/
def idx8 (r : Nat) : List Nat :=
  [4 * r, 4 * r + 1, 4 * r + 2, 4 * r + 3, 4 * r + 4, 4 * r + 5, 4 * r + 6, 4 * r + 7]

/-- The 16 byte indices `16*i .. 16*i + 15` of block `i`. -/
def idx16 (i : Nat) : List Nat := (List.range 16).map fun k => 16 * i + k

/-- The round loop of `transform` as in `round_loop`, also returning the trace of the
iterations: the schedule indices read, the table indices of `ARIA_FO` and (when it is
called) `ARIA_FE`, and the iteration count. -/
def round_loop_tr (KS : List Nat) (ROUNDS : Nat) : Nat → Nat → W4 → Option (W4 × Trace)
  | 0, r, t => if r < ROUNDS then none else some (t, Trace.nil)
  | fuel + 1, r, (t0, t1, t2, t3) =>
    if r < ROUNDS then do
      let k0 ← KS[4 * r]?
      let k1 ← KS[4 * r + 1]?
      let k2 ← KS[4 * r + 2]?
      let k3 ← KS[4 * r + 3]?
      let a : W4 := (t0 ^^^ k0, t1 ^^^ k1, t2 ^^^ k2, t3 ^^^ k3)
      let (t0, t1, t2, t3) := ARIA_FO a.1 a.2.1 a.2.2.1 a.2.2.2
      let k4 ← KS[4 * r + 4]?
      let k5 ← KS[4 * r + 5]?
      let k6 ← KS[4 * r + 6]?
      let k7 ← KS[4 * r + 7]?
      let b : W4 := (t0 ^^^ k4, t1 ^^^ k5, t2 ^^^ k6, t3 ^^^ k7)
      let fe : Bool := decide (r ≠ (ROUNDS + 2 ^ 64 - 2) % 2 ^ 64)
      let t := if fe then ARIA_FE b.1 b.2.1 b.2.2.1 b.2.2.2 else b
      let here : Trace :=
        { ks := idx8 r, tab := round_idx a ++ (if fe then round_idx b else []), inp := [],
          out := [], iters := 1 }
      let rest ← round_loop_tr KS ROUNDS fuel (r + 2) t
      pure (rest.1, here.append rest.2)
    else some ((t0, t1, t2, t3), Trace.nil)

/-- One iteration of the block loop of `transform` as in `transform_block`, also returning
the trace: the bytes `in[16*i .. 16*i + 15]` read, the indices of the round loop, the
schedule indices `4*ROUNDS .. 4*ROUNDS + 3` and the table indices of the final stage, and
the bytes `out[16*i .. 16*i + 15]` written. -/
def transform_block_tr (inp : List Nat) (i : Nat) (KS : List Nat) :
    Option (List Nat × Trace) := do
  let ROUNDS := rounds_of KS
  let t ← load_be4 inp (16 * i)
  let loop ← round_loop_tr KS ROUNDS ROUNDS 0 t
  let k0 ← KS[4 * ROUNDS]?
  let k1 ← KS[4 * ROUNDS + 1]?
  let k2 ← KS[4 * ROUNDS + 2]?
  let k3 ← KS[4 * ROUNDS + 3]?
  let last : Trace :=
    { ks := [4 * ROUNDS, 4 * ROUNDS + 1, 4 * ROUNDS + 2, 4 * ROUNDS + 3],
      tab := round_idx loop.1, inp := [], out := idx16 i, iters := 0 }
  let first : Trace := { ks := [], tab := [], inp := idx16 i, out := [], iters := 0 }
  pure (final_word loop.1.1 k0 ++ final_word loop.1.2.1 k1 ++ final_word loop.1.2.2.1 k2
    ++ final_word loop.1.2.2.2 k3, (first.append loop.2).append last)

/-- The block loop of `transform` as in `transform_from`, also returning the trace. -/
def transform_from_tr (inp : List Nat) (KS : List Nat) : Nat → Nat → Option (List Nat × Trace)
  | _, 0 => some ([], Trace.nil)
  | i, n + 1 => do
    let b ← transform_block_tr inp i KS
    let rest ← transform_from_tr inp KS (i + 1) n
    pure (b.1 ++ rest.1, b.2.append rest.2)

/-- `ARIA_F::transform` as in `transform`, also returning the trace of all indices touched. -/
def transform_tr (inp : List Nat) (blocks : Nat) (KS : List Nat) : Option (List Nat × Trace) :=
  transform_from_tr inp KS 0 blocks

/-- The schedule indices read by `m` successive iterations of the round loop that start at
`r`: `4*r .. 4*r + 7`, then `4*(r+2) .. 4*(r+2) + 7`, and so on. -/
def reads_from : Nat → Nat → List Nat
  | _, 0 => []
  | r, m + 1 => idx8 r ++ reads_from (r + 2) m

/-- The schedule indices read for one block with `R` rounds: `4*r .. 4*r + 7` for
`r = 0, 2, .., R - 2`, then `4*R .. 4*R + 3`. -/
def block_reads (R : Nat) : List Nat :=
  reads_from 0 (R / 2) ++ [4 * R, 4 * R + 1, 4 * R + 2, 4 * R + 3]

/-- The trace of `m` iterations of the round loop that start at `r`. -/
def loopTrace (r m : Nat) (T : Trace) : Prop :=
  T.ks = reads_from r m ∧ (∀ x ∈ T.tab, x < 256) ∧ T.inp = [] ∧ T.out = [] ∧ T.iters = m

end ARIA_F

/-! ## Theorems -/

namespace ARIA_F

theorem mkw_lt (a b c d : Nat) : mkw a b c d < 2 ^ 32 := by
  unfold mkw; omega

theorem get_byte_0 (x : Nat) : get_byte 0 x = x / 16777216 % 256 := by simp [get_byte]

theorem get_byte_1 (x : Nat) : get_byte 1 x = x / 65536 % 256 := by simp [get_byte]

theorem get_byte_2 (x : Nat) : get_byte 2 x = x / 256 % 256 := by simp [get_byte]

theorem get_byte_3 (x : Nat) : get_byte 3 x = x % 256 := by simp [get_byte]

theorem get_byte_lt (B x : Nat) : get_byte B x < 256 := by
  unfold get_byte; exact Nat.mod_lt _ (by decide)

theorem eq_mkw {x : Nat} (h : x < 2 ^ 32) :
    x = mkw (get_byte 0 x) (get_byte 1 x) (get_byte 2 x) (get_byte 3 x) := by
  simp only [get_byte_0, get_byte_1, get_byte_2, get_byte_3, mkw]; omega

theorem get_byte_0_mkw (a b c d : Nat) : get_byte 0 (mkw a b c d) = a % 256 := by
  simp only [get_byte_0, mkw]; omega

theorem get_byte_1_mkw (a b c d : Nat) : get_byte 1 (mkw a b c d) = b % 256 := by
  simp only [get_byte_1, mkw]; omega

theorem get_byte_2_mkw (a b c d : Nat) : get_byte 2 (mkw a b c d) = c % 256 := by
  simp only [get_byte_2, mkw]; omega

theorem get_byte_3_mkw (a b c d : Nat) : get_byte 3 (mkw a b c d) = d % 256 := by
  simp only [get_byte_3, mkw]; omega

theorem mkw_mod (a b c d : Nat) : mkw (a % 256) (b % 256) (c % 256) (d % 256) = mkw a b c d := by
  simp [mkw]

theorem xor_concat (k a b c d : Nat) (hb : b < 2 ^ k) (hd : d < 2 ^ k) :
    (2 ^ k * a + b) ^^^ (2 ^ k * c + d) = 2 ^ k * (a ^^^ c) + (b ^^^ d) := by
  apply Nat.eq_of_testBit_eq; intro j
  rw [Nat.testBit_xor, Nat.testBit_mul_pow_two_add _ hb, Nat.testBit_mul_pow_two_add _ hd,
    Nat.testBit_mul_pow_two_add _ (Nat.xor_lt_two_pow hb hd)]
  split <;> simp [Nat.testBit_xor]

theorem and_concat (k a b c d : Nat) (hb : b < 2 ^ k) (hd : d < 2 ^ k) :
    (2 ^ k * a + b) &&& (2 ^ k * c + d) = 2 ^ k * (a &&& c) + (b &&& d) := by
  apply Nat.eq_of_testBit_eq; intro j
  rw [Nat.testBit_and, Nat.testBit_mul_pow_two_add _ hb, Nat.testBit_mul_pow_two_add _ hd,
    Nat.testBit_mul_pow_two_add _ (Nat.and_lt_two_pow _ hd)]
  split <;> simp [Nat.testBit_and]

theorem or_concat (k a b c d : Nat) (hb : b < 2 ^ k) (hd : d < 2 ^ k) :
    (2 ^ k * a + b) ||| (2 ^ k * c + d) = 2 ^ k * (a ||| c) + (b ||| d) := by
  apply Nat.eq_of_testBit_eq; intro j
  rw [Nat.testBit_or, Nat.testBit_mul_pow_two_add _ hb, Nat.testBit_mul_pow_two_add _ hd,
    Nat.testBit_mul_pow_two_add _ (Nat.or_lt_two_pow hb hd)]
  split <;> simp [Nat.testBit_or]

theorem xor_mod_256 (a b : Nat) : (a ^^^ b) % 256 = (a % 256) ^^^ (b % 256) := by
  apply Nat.eq_of_testBit_eq; intro j
  have h : (256 : Nat) = 2 ^ 8 := by norm_num
  simp only [h, Nat.testBit_mod_two_pow, Nat.testBit_xor]
  by_cases hj : j < 8 <;> simp [hj]

theorem mkw_nest (a b c d : Nat) :
    mkw a b c d = 2 ^ 8 * (2 ^ 8 * (2 ^ 8 * (a % 256) + b % 256) + c % 256) + d % 256 := by
  unfold mkw; omega

theorem lt8 (a : Nat) : a % 256 < 2 ^ 8 := by omega

theorem xor_mkw (a b c d e f g h : Nat) :
    mkw a b c d ^^^ mkw e f g h = mkw (a ^^^ e) (b ^^^ f) (c ^^^ g) (d ^^^ h) := by
  simp only [mkw_nest, xor_mod_256]
  rw [xor_concat 8 _ _ _ _ (lt8 d) (lt8 h), xor_concat 8 _ _ _ _ (lt8 c) (lt8 g),
    xor_concat 8 _ _ _ _ (lt8 b) (lt8 f)]

theorem rotr_8 (x : Nat) : rotr 8 x = (x / 256 + x % 256 * 16777216) % 4294967296 := by
  simp [rotr]

theorem rotr_16 (x : Nat) : rotr 16 x = (x / 65536 + x % 65536 * 65536) % 4294967296 := by
  simp [rotr]

theorem rotr_24 (x : Nat) : rotr 24 x = (x / 16777216 + x % 16777216 * 256) % 4294967296 := by
  simp [rotr]

theorem rotr_8_mkw (a b c d : Nat) : rotr 8 (mkw a b c d) = mkw d a b c := by
  have h1 : mkw a b c d / 256 = (a % 256) * 65536 + (b % 256) * 256 + c % 256 := by
    unfold mkw; omega
  have h2 : mkw a b c d % 256 = d % 256 := by unfold mkw; omega
  rw [rotr_8, h1, h2]; unfold mkw; omega

theorem rotr_16_mkw (a b c d : Nat) : rotr 16 (mkw a b c d) = mkw c d a b := by
  have h1 : mkw a b c d / 65536 = (a % 256) * 256 + b % 256 := by unfold mkw; omega
  have h2 : mkw a b c d % 65536 = (c % 256) * 256 + d % 256 := by unfold mkw; omega
  rw [rotr_16, h1, h2]; unfold mkw; omega

theorem rotr_24_mkw (a b c d : Nat) : rotr 24 (mkw a b c d) = mkw b c d a := by
  have h1 : mkw a b c d / 16777216 = a % 256 := by unfold mkw; omega
  have h2 : mkw a b c d % 16777216 = (b % 256) * 65536 + (c % 256) * 256 + d % 256 := by
    unfold mkw; omega
  rw [rotr_24, h1, h2]; unfold mkw; omega

theorem reverse_bytes_mkw (a b c d : Nat) : reverse_bytes (mkw a b c d) = mkw d c b a := by
  simp only [reverse_bytes, get_byte_0_mkw, get_byte_1_mkw, get_byte_2_mkw, get_byte_3_mkw]
  unfold mkw; omega

theorem and_255 (a : Nat) : a &&& 255 = a % 256 := by
  have := Nat.and_pow_two_sub_one_eq_mod a 8
  simpa using this

theorem swap_pairs_mkw (a b c d : Nat) : swap_pairs (mkw a b c d) = mkw b a d c := by
  have h1 : (mkw a b c d <<< 8) % 2 ^ 32 = mkw b c d 0 := by
    rw [Nat.shiftLeft_eq]; unfold mkw; omega
  have h2 : mkw a b c d >>> 8 = mkw 0 a b c := by
    rw [Nat.shiftRight_eq_div_pow]; unfold mkw; omega
  have m1 : (0xFF00FF00 : Nat) = mkw 255 0 255 0 := by decide
  have m2 : (0x00FF00FF : Nat) = mkw 0 255 0 255 := by decide
  unfold swap_pairs
  rw [h1, h2, m1, m2]
  simp only [mkw_nest]
  rw [and_concat 8 _ _ _ _ (lt8 _) (lt8 _), and_concat 8 _ _ _ _ (lt8 _) (lt8 _),
    and_concat 8 _ _ _ _ (lt8 _) (lt8 _), and_concat 8 _ _ _ _ (lt8 _) (lt8 _),
    and_concat 8 _ _ _ _ (lt8 _) (lt8 _), and_concat 8 _ _ _ _ (lt8 _) (lt8 _)]
  rw [or_concat 8 _ _ _ _ (Nat.and_lt_two_pow _ (lt8 _)) (Nat.and_lt_two_pow _ (lt8 _)),
    or_concat 8 _ _ _ _ (Nat.and_lt_two_pow _ (lt8 _)) (Nat.and_lt_two_pow _ (lt8 _)),
    or_concat 8 _ _ _ _ (Nat.and_lt_two_pow _ (lt8 _)) (Nat.and_lt_two_pow _ (lt8 _))]
  simp [and_255]

set_option maxRecDepth 100000 in
theorem S1_bytes : S1.all (fun x => decide (x < 256)) = true := by decide!

set_option maxRecDepth 100000 in
theorem S2_bytes : S2.all (fun x => decide (x < 256)) = true := by decide!

set_option maxRecDepth 100000 in
theorem X1_bytes : X1.all (fun x => decide (x < 256)) = true := by decide!

set_option maxRecDepth 100000 in
theorem X2_bytes : X2.all (fun x => decide (x < 256)) = true := by decide!

theorem sub_lt_of_all {T : List Nat} (h : T.all (fun x => decide (x < 256)) = true) (i : Nat) :
    sub T i < 256 := by
  unfold sub
  by_cases hi : i < T.length
  · rw [List.getD_eq_getElem _ _ hi]
    have := List.all_eq_true.mp h _ (List.getElem_mem hi)
    simpa using this
  · rw [List.getD_eq_default _ _ (by omega)]; decide

theorem sub_S1_lt (i : Nat) : sub S1 i < 256 := sub_lt_of_all S1_bytes i

theorem sub_S2_lt (i : Nat) : sub S2 i < 256 := sub_lt_of_all S2_bytes i

theorem sub_X1_lt (i : Nat) : sub X1 i < 256 := sub_lt_of_all X1_bytes i

theorem sub_X2_lt (i : Nat) : sub X2 i < 256 := sub_lt_of_all X2_bytes i

set_option maxRecDepth 100000 in
theorem X1_S1_all : S1.map (sub X1) = List.range 256 := by decide!

set_option maxRecDepth 100000 in
theorem S1_X1_all : X1.map (sub S1) = List.range 256 := by decide!

set_option maxRecDepth 100000 in
theorem X2_S2_all : S2.map (sub X2) = List.range 256 := by decide!

set_option maxRecDepth 100000 in
theorem S2_X2_all : X2.map (sub S2) = List.range 256 := by decide!

theorem inv_of_all {S X : List Nat} (h : S.map (sub X) = List.range 256) {b : Nat}
    (hb : b < 256) : sub X (sub S b) = b := by
  have hl : S.length = 256 := by
    have := congrArg List.length h
    simpa using this
  have h1 : (S.map (sub X))[b]? = (List.range 256)[b]? := by rw [h]
  rw [List.getElem?_map, List.getElem?_range hb, List.getElem?_eq_getElem (by omega)] at h1
  have h2 : sub S b = S[b] := by
    unfold sub; exact List.getD_eq_getElem _ _ (by omega)
  rw [h2]
  simpa using h1

theorem X1_S1 {b : Nat} (hb : b < 256) : sub X1 (sub S1 b) = b := inv_of_all X1_S1_all hb

theorem S1_X1 {b : Nat} (hb : b < 256) : sub S1 (sub X1 b) = b := inv_of_all S1_X1_all hb

theorem X2_S2 {b : Nat} (hb : b < 256) : sub X2 (sub S2 b) = b := inv_of_all X2_S2_all hb

theorem S2_X2 {b : Nat} (hb : b < 256) : sub S2 (sub X2 b) = b := inv_of_all S2_X2_all hb

theorem mul_M1 {s : Nat} (h : s < 256) : s * 0x00010101 = mkw 0 s s s := by unfold mkw; omega

theorem mul_M2 {s : Nat} (h : s < 256) : s * 0x01000101 = mkw s 0 s s := by unfold mkw; omega

theorem mul_M3 {s : Nat} (h : s < 256) : s * 0x01010001 = mkw s s 0 s := by unfold mkw; omega

theorem mul_M4 {s : Nat} (h : s < 256) : s * 0x01010100 = mkw s s s 0 := by unfold mkw; omega

theorem xor_ac_1 (a b c : Nat) : a ^^^ b ^^^ c = a ^^^ (b ^^^ c) := Nat.xor_assoc a b c

theorem xor_ac_2 (a b : Nat) : a ^^^ b = b ^^^ a := Nat.xor_comm a b

theorem xor_ac_3 (a b c : Nat) : a ^^^ (b ^^^ c) = b ^^^ (a ^^^ c) := by
  rw [← Nat.xor_assoc, Nat.xor_comm a b, Nat.xor_assoc]

theorem xor_ac_4 (a b : Nat) : a ^^^ (a ^^^ b) = b := by
  rw [← Nat.xor_assoc, Nat.xor_self, Nat.zero_xor]

theorem ARIA_F1_eq (X : Nat) :
    ARIA_F1 X = rotr 8 (sl1 X) ^^^ rotr 16 (sl1 X) ^^^ rotr 24 (sl1 X) := by
  simp only [ARIA_F1, sl1, mul_M1 (sub_S1_lt _), mul_M2 (sub_S2_lt _), mul_M3 (sub_X1_lt _),
    mul_M4 (sub_X2_lt _), rotr_8_mkw, rotr_16_mkw, rotr_24_mkw, xor_mkw]
  congr 1 <;>
    simp only [xor_ac_1, xor_ac_2, xor_ac_3, xor_ac_4, Nat.xor_self, Nat.xor_zero, Nat.zero_xor]

theorem ARIA_F2_eq (X : Nat) :
    ARIA_F2 X = rotr 16 (rotr 8 (sl2 X) ^^^ rotr 16 (sl2 X) ^^^ rotr 24 (sl2 X)) := by
  simp only [ARIA_F2, sl2, mul_M1 (sub_S1_lt _), mul_M2 (sub_S2_lt _), mul_M3 (sub_X1_lt _),
    mul_M4 (sub_X2_lt _), rotr_8_mkw, rotr_16_mkw, rotr_24_mkw, xor_mkw]
  congr 1 <;>
    simp only [xor_ac_1, xor_ac_2, xor_ac_3, xor_ac_4, Nat.xor_self, Nat.xor_zero, Nat.zero_xor]

theorem FO4_eq (t : W4) : FO4 t = A4 (SL1 t) := by
  simp only [FO4, ARIA_FO, A4, aria_ks_dk_transform, SL1, ARIA_F1_eq]

theorem FE4_eq (t : W4) : FE4 t = A4 (SL2 t) := by
  obtain ⟨t0, t1, t2, t3⟩ := t
  simp only [FE4, ARIA_FE, A4, aria_ks_dk_transform, SL2, ARIA_F2_eq, sl2]
  generalize sub X1 (get_byte 0 t0) = a0
  generalize sub X2 (get_byte 1 t0) = a1
  generalize sub S1 (get_byte 2 t0) = a2
  generalize sub S2 (get_byte 3 t0) = a3
  generalize sub X1 (get_byte 0 t1) = a4
  generalize sub X2 (get_byte 1 t1) = a5
  generalize sub S1 (get_byte 2 t1) = a6
  generalize sub S2 (get_byte 3 t1) = a7
  generalize sub X1 (get_byte 0 t2) = a8
  generalize sub X2 (get_byte 1 t2) = a9
  generalize sub S1 (get_byte 2 t2) = a10
  generalize sub S2 (get_byte 3 t2) = a11
  generalize sub X1 (get_byte 0 t3) = a12
  generalize sub X2 (get_byte 1 t3) = a13
  generalize sub S1 (get_byte 2 t3) = a14
  generalize sub S2 (get_byte 3 t3) = a15
  simp only [rotr_8_mkw, rotr_16_mkw, rotr_24_mkw, xor_mkw, swap_pairs_mkw, reverse_bytes_mkw]

theorem valid4_mk {a b c d : Nat} :
    valid4 (a, b, c, d) ↔ a < 2 ^ 32 ∧ b < 2 ^ 32 ∧ c < 2 ^ 32 ∧ d < 2 ^ 32 := Iff.rfl

theorem swap_pairs_lt (x : Nat) : swap_pairs x < 2 ^ 32 := by
  unfold swap_pairs
  apply Nat.or_lt_two_pow
  · exact Nat.and_lt_two_pow _ (by decide)
  · exact Nat.and_lt_two_pow _ (by decide)

theorem rotr_lt (n x : Nat) : rotr n x < 2 ^ 32 := by
  unfold rotr; exact Nat.mod_lt _ (by decide)

theorem reverse_bytes_lt (x : Nat) : reverse_bytes x < 2 ^ 32 := by
  unfold reverse_bytes
  have h0 := get_byte_lt 0 x
  have h1 := get_byte_lt 1 x
  have h2 := get_byte_lt 2 x
  have h3 := get_byte_lt 3 x
  omega

theorem xor_lt32 {a b : Nat} (ha : a < 2 ^ 32) (hb : b < 2 ^ 32) : a ^^^ b < 2 ^ 32 :=
  Nat.xor_lt_two_pow ha hb

theorem xor4_valid {a b : W4} (ha : valid4 a) (hb : valid4 b) : valid4 (xor4 a b) :=
  ⟨xor_lt32 ha.1 hb.1, xor_lt32 ha.2.1 hb.2.1, xor_lt32 ha.2.2.1 hb.2.2.1,
    xor_lt32 ha.2.2.2 hb.2.2.2⟩

theorem A4_bytes (a0 a1 a2 a3 a4 a5 a6 a7 a8 a9 a10 a11 a12 a13 a14 a15 : Nat) :
    A4 (mkw a0 a1 a2 a3, mkw a4 a5 a6 a7, mkw a8 a9 a10 a11, mkw a12 a13 a14 a15) =
      (mkw (a3 ^^^ a4 ^^^ a6 ^^^ a8 ^^^ a9 ^^^ a13 ^^^ a14)
           (a2 ^^^ a5 ^^^ a7 ^^^ a8 ^^^ a9 ^^^ a12 ^^^ a15)
           (a1 ^^^ a4 ^^^ a6 ^^^ a10 ^^^ a11 ^^^ a12 ^^^ a15)
           (a0 ^^^ a5 ^^^ a7 ^^^ a10 ^^^ a11 ^^^ a13 ^^^ a14),
       mkw (a0 ^^^ a2 ^^^ a5 ^^^ a8 ^^^ a11 ^^^ a14 ^^^ a15)
           (a1 ^^^ a3 ^^^ a4 ^^^ a9 ^^^ a10 ^^^ a14 ^^^ a15)
           (a0 ^^^ a2 ^^^ a7 ^^^ a9 ^^^ a10 ^^^ a12 ^^^ a13)
           (a1 ^^^ a3 ^^^ a6 ^^^ a8 ^^^ a11 ^^^ a12 ^^^ a13),
       mkw (a0 ^^^ a1 ^^^ a4 ^^^ a7 ^^^ a10 ^^^ a13 ^^^ a15)
           (a0 ^^^ a1 ^^^ a5 ^^^ a6 ^^^ a11 ^^^ a12 ^^^ a14)
           (a2 ^^^ a3 ^^^ a5 ^^^ a6 ^^^ a8 ^^^ a13 ^^^ a15)
           (a2 ^^^ a3 ^^^ a4 ^^^ a7 ^^^ a9 ^^^ a12 ^^^ a14),
       mkw (a1 ^^^ a2 ^^^ a6 ^^^ a7 ^^^ a9 ^^^ a11 ^^^ a12)
           (a0 ^^^ a3 ^^^ a6 ^^^ a7 ^^^ a8 ^^^ a10 ^^^ a13)
           (a0 ^^^ a3 ^^^ a4 ^^^ a5 ^^^ a9 ^^^ a11 ^^^ a14)
           (a1 ^^^ a2 ^^^ a4 ^^^ a5 ^^^ a8 ^^^ a10 ^^^ a15)) := by
  simp only [A4, aria_ks_dk_transform, rotr_8_mkw, rotr_16_mkw, rotr_24_mkw, xor_mkw,
    swap_pairs_mkw, reverse_bytes_mkw]
  simp only [xor_ac_1, xor_ac_2, xor_ac_3, xor_ac_4, Nat.xor_self, Nat.xor_zero, Nat.zero_xor]

theorem exists_mkw {x : Nat} (h : x < 2 ^ 32) : ∃ a b c d, x = mkw a b c d :=
  ⟨_, _, _, _, eq_mkw h⟩

theorem xor4_mk (a b c d e f g h : Nat) :
    xor4 (a, b, c, d) (e, f, g, h) = (a ^^^ e, b ^^^ f, c ^^^ g, d ^^^ h) := rfl

theorem A4_xor4 {a b : W4} (ha : valid4 a) (hb : valid4 b) :
    A4 (xor4 a b) = xor4 (A4 a) (A4 b) := by
  obtain ⟨x0, x1, x2, x3⟩ := a
  obtain ⟨y0, y1, y2, y3⟩ := b
  obtain ⟨h0, h1, h2, h3⟩ := ha
  obtain ⟨g0, g1, g2, g3⟩ := hb
  obtain ⟨a0, a1, a2, a3, rfl⟩ := exists_mkw h0
  obtain ⟨a4, a5, a6, a7, rfl⟩ := exists_mkw h1
  obtain ⟨a8, a9, a10, a11, rfl⟩ := exists_mkw h2
  obtain ⟨a12, a13, a14, a15, rfl⟩ := exists_mkw h3
  obtain ⟨b0, b1, b2, b3, rfl⟩ := exists_mkw g0
  obtain ⟨b4, b5, b6, b7, rfl⟩ := exists_mkw g1
  obtain ⟨b8, b9, b10, b11, rfl⟩ := exists_mkw g2
  obtain ⟨b12, b13, b14, b15, rfl⟩ := exists_mkw g3
  simp only [xor4_mk, xor_mkw, A4_bytes]
  simp only [xor_ac_1, xor_ac_2, xor_ac_3, xor_ac_4, Nat.xor_self, Nat.xor_zero, Nat.zero_xor]

set_option maxHeartbeats 4000000 in
theorem A4_A4 {a : W4} (ha : valid4 a) : A4 (A4 a) = a := by
  obtain ⟨x0, x1, x2, x3⟩ := a
  obtain ⟨h0, h1, h2, h3⟩ := ha
  obtain ⟨a0, a1, a2, a3, rfl⟩ := exists_mkw h0
  obtain ⟨a4, a5, a6, a7, rfl⟩ := exists_mkw h1
  obtain ⟨a8, a9, a10, a11, rfl⟩ := exists_mkw h2
  obtain ⟨a12, a13, a14, a15, rfl⟩ := exists_mkw h3
  simp only [A4_bytes]
  simp only [xor_ac_1, xor_ac_2, xor_ac_3, xor_ac_4, Nat.xor_self, Nat.xor_zero, Nat.zero_xor]

theorem A4_valid (t : W4) : valid4 (A4 t) := by
  simp only [A4, aria_ks_dk_transform, valid4]
  refine ⟨?_, ?_, ?_, ?_⟩ <;>
    repeat (first
      | exact rotr_lt _ _
      | exact swap_pairs_lt _
      | exact reverse_bytes_lt _
      | apply xor_lt32)

theorem SL1_valid (t : W4) : valid4 (SL1 t) := ⟨mkw_lt _ _ _ _, mkw_lt _ _ _ _, mkw_lt _ _ _ _, mkw_lt _ _ _ _⟩

theorem SL2_valid (t : W4) : valid4 (SL2 t) := ⟨mkw_lt _ _ _ _, mkw_lt _ _ _ _, mkw_lt _ _ _ _, mkw_lt _ _ _ _⟩

theorem FO4_valid (t : W4) : valid4 (FO4 t) := by rw [FO4_eq]; exact A4_valid _

theorem FE4_valid (t : W4) : valid4 (FE4 t) := by rw [FE4_eq]; exact A4_valid _

theorem sl2_sl1 {x : Nat} (h : x < 2 ^ 32) : sl2 (sl1 x) = x := by
  have e := eq_mkw h
  simp only [sl2, sl1, get_byte_0_mkw, get_byte_1_mkw, get_byte_2_mkw, get_byte_3_mkw,
    Nat.mod_eq_of_lt (sub_S1_lt _), Nat.mod_eq_of_lt (sub_S2_lt _),
    Nat.mod_eq_of_lt (sub_X1_lt _), Nat.mod_eq_of_lt (sub_X2_lt _),
    X1_S1 (get_byte_lt _ _), X2_S2 (get_byte_lt _ _), S1_X1 (get_byte_lt _ _),
    S2_X2 (get_byte_lt _ _)]
  exact e.symm

theorem sl1_sl2 {x : Nat} (h : x < 2 ^ 32) : sl1 (sl2 x) = x := by
  have e := eq_mkw h
  simp only [sl2, sl1, get_byte_0_mkw, get_byte_1_mkw, get_byte_2_mkw, get_byte_3_mkw,
    Nat.mod_eq_of_lt (sub_S1_lt _), Nat.mod_eq_of_lt (sub_S2_lt _),
    Nat.mod_eq_of_lt (sub_X1_lt _), Nat.mod_eq_of_lt (sub_X2_lt _),
    X1_S1 (get_byte_lt _ _), X2_S2 (get_byte_lt _ _), S1_X1 (get_byte_lt _ _),
    S2_X2 (get_byte_lt _ _)]
  exact e.symm

theorem SL2_SL1 {t : W4} (h : valid4 t) : SL2 (SL1 t) = t := by
  obtain ⟨t0, t1, t2, t3⟩ := t
  obtain ⟨h0, h1, h2, h3⟩ := h
  simp only [SL2, SL1, sl2_sl1 h0, sl2_sl1 h1, sl2_sl1 h2, sl2_sl1 h3]

theorem SL1_SL2 {t : W4} (h : valid4 t) : SL1 (SL2 t) = t := by
  obtain ⟨t0, t1, t2, t3⟩ := t
  obtain ⟨h0, h1, h2, h3⟩ := h
  simp only [SL2, SL1, sl1_sl2 h0, sl1_sl2 h1, sl1_sl2 h2, sl1_sl2 h3]

theorem xor4_cancel (a k : W4) : xor4 (xor4 a k) k = a := by
  obtain ⟨a0, a1, a2, a3⟩ := a
  obtain ⟨k0, k1, k2, k3⟩ := k
  simp only [xor4_mk, Nat.xor_assoc, Nat.xor_self, Nat.xor_zero]

theorem g4_length (g : W4) : (g4 g).length = 4 := rfl

theorem getElem?_eq_some_getD {l : List Nat} {i : Nat} (h : i < l.length) :
    l[i]? = some (l.getD i 0) := by
  rw [List.getD_eq_getElem _ _ h]; exact List.getElem?_eq_getElem h

theorem store4_append (pre rest : List Nat) (off : Nat) (g : W4) (hp : pre.length = off)
    (hr : 4 ≤ rest.length) :
    store4 (pre ++ rest) off g = some ((pre ++ g4 g) ++ rest.drop 4) := by
  subst hp
  obtain ⟨g0, g1, g2, g3⟩ := g
  match rest, hr with
  | a :: b :: c :: d :: rest', _ =>
    have hlt : pre.length + 3 < (pre ++ a :: b :: c :: d :: rest').length := by
      simp only [List.length_append, List.length_cons]; omega
    simp only [store4, hlt, if_true, g4, Option.some.injEq]
    induction pre with
    | nil => simp
    | cons x pre ih =>
      simp only [List.length_cons, List.cons_append, List.set_cons_succ, Nat.add_right_comm _ 1]
      simp only [List.length_append, List.length_cons] at hlt
      rw [ih (by simp only [List.length_append, List.length_cons]; omega)]

theorem getD_drop (l : List Nat) (k i : Nat) : (l.drop k).getD i 0 = l.getD (k + i) 0 := by
  simp only [List.getD_eq_getElem?_getD, List.getElem?_drop]

theorem group_append_left {pre : List Nat} (rest : List Nat) {i : Nat}
    (h : 4 * i + 4 ≤ pre.length) : group (pre ++ rest) i = group pre i := by
  unfold group
  rw [List.getD_append _ _ _ _ (by omega), List.getD_append _ _ _ _ (by omega),
    List.getD_append _ _ _ _ (by omega), List.getD_append _ _ _ _ (by omega)]

theorem group_append_right {p : List Nat} (rest : List Nat) {k : Nat} (i : Nat)
    (h : p.length = 4 * k) : group (p ++ rest) (k + i) = group rest i := by
  unfold group
  rw [List.getD_append_right _ _ _ _ (by omega), List.getD_append_right _ _ _ _ (by omega),
    List.getD_append_right _ _ _ _ (by omega), List.getD_append_right _ _ _ _ (by omega)]
  have e0 : 4 * (k + i) - p.length = 4 * i := by omega
  have e1 : 4 * (k + i) + 1 - p.length = 4 * i + 1 := by omega
  have e2 : 4 * (k + i) + 2 - p.length = 4 * i + 2 := by omega
  have e3 : 4 * (k + i) + 3 - p.length = 4 * i + 3 := by omega
  rw [e0, e1, e2, e3]

theorem group_g4 (g : W4) (rest : List Nat) : group (g4 g ++ rest) 0 = g := rfl

theorem group_drop (T : List Nat) (k i : Nat) : group (T.drop (4 * k)) i = group T (k + i) := by
  unfold group
  simp only [getD_drop]
  have e0 : 4 * k + 4 * i = 4 * (k + i) := by omega
  have e1 : 4 * k + (4 * i + 1) = 4 * (k + i) + 1 := by omega
  have e2 : 4 * k + (4 * i + 2) = 4 * (k + i) + 2 := by omega
  have e3 : 4 * k + (4 * i + 3) = 4 * (k + i) + 3 := by omega
  rw [e0, e1, e2, e3]

theorem g4_group_drop {T : List Nat} {k : Nat} (h : 4 * k + 4 ≤ T.length) :
    T.drop (4 * k) = g4 (group T k) ++ T.drop (4 * (k + 1)) := by
  have e : T.drop (4 * (k + 1)) = (T.drop (4 * k)).drop 4 := by
    rw [List.drop_drop, Nat.mul_add, Nat.mul_one]
  rw [e]
  have hl : 4 ≤ (T.drop (4 * k)).length := by rw [List.length_drop]; omega
  have hg : group T k = group (T.drop (4 * k)) 0 := by rw [group_drop]; rfl
  rw [hg]
  generalize T.drop (4 * k) = L at hl
  match L, hl with
  | a :: b :: c :: d :: L', _ => rfl

theorem copied_length (ERK : List Nat) (G j : Nat) : (copied ERK G j).length = 4 * j := by
  induction j with
  | zero => rfl
  | succ j ih => simp only [copied, List.length_append, ih, g4_length]; omega

theorem mixed_length (T : List Nat) (j : Nat) : (mixed T j).length = 4 * (j + 1) := by
  induction j with
  | zero => rfl
  | succ j ih => simp only [mixed, List.length_append, ih, g4_length]; omega

theorem drk_copy_loop_spec (ERK D0 : List Nat) (G : Nat) (hE : ERK.length = 4 * G)
    (hD : D0.length = 4 * G) (hG : 4 * G < 2 ^ 64) :
    ∀ m j fuel, j + m = G → m ≤ fuel →
      drk_copy_loop ERK fuel (4 * j) (copied ERK G j ++ D0.drop (4 * j)) =
        some (copied ERK G G) := by
  intro m
  induction m with
  | zero =>
    intro j fuel hj _
    have hjG : j = G := by omega
    subst hjG
    have hdrop : D0.drop (4 * j) = [] := List.drop_eq_nil_of_le (by omega)
    rw [hdrop, List.append_nil]
    cases fuel <;> simp [drk_copy_loop, copied_length]
  | succ m ih =>
    intro j fuel hj hf
    obtain ⟨f, rfl⟩ : ∃ f, fuel = f + 1 := ⟨fuel - 1, by omega⟩
    have hlen : (copied ERK G j ++ D0.drop (4 * j)).length = 4 * G := by
      rw [List.length_append, copied_length, List.length_drop]; omega
    have hne : 4 * j ≠ 4 * G := by omega
    have i0 : (ERK.length + 2 ^ 64 - 4 - 4 * j) % 2 ^ 64 = 4 * (G - 1 - j) := by omega
    have i1 : (ERK.length + 2 ^ 64 - 3 - 4 * j) % 2 ^ 64 = 4 * (G - 1 - j) + 1 := by omega
    have i2 : (ERK.length + 2 ^ 64 - 2 - 4 * j) % 2 ^ 64 = 4 * (G - 1 - j) + 2 := by omega
    have i3 : (ERK.length + 2 ^ 64 - 1 - 4 * j) % 2 ^ 64 = 4 * (G - 1 - j) + 3 := by omega
    have r0 := getElem?_eq_some_getD (l := ERK) (i := 4 * (G - 1 - j)) (by omega)
    have r1 := getElem?_eq_some_getD (l := ERK) (i := 4 * (G - 1 - j) + 1) (by omega)
    have r2 := getElem?_eq_some_getD (l := ERK) (i := 4 * (G - 1 - j) + 2) (by omega)
    have r3 := getElem?_eq_some_getD (l := ERK) (i := 4 * (G - 1 - j) + 3) (by omega)
    have hs := store4_append (copied ERK G j) (D0.drop (4 * j)) (4 * j) (group ERK (G - 1 - j))
      (copied_length _ _ _) (by rw [List.length_drop]; omega)
    have hnext : (copied ERK G j ++ g4 (group ERK (G - 1 - j))) ++ (D0.drop (4 * j)).drop 4 =
        copied ERK G (j + 1) ++ D0.drop (4 * (j + 1)) := by
      rw [List.drop_drop, Nat.mul_add, Nat.mul_one]; rfl
    rw [hnext] at hs
    have hrec := ih (j + 1) f (by omega) (by omega)
    unfold drk_copy_loop
    rw [hlen, if_pos hne, i0, i1, i2, i3, r0, r1, r2, r3]
    simp only [Option.bind_eq_bind, Option.some_bind]
    have hg : (ERK.getD (4 * (G - 1 - j)) 0, ERK.getD (4 * (G - 1 - j) + 1) 0,
        ERK.getD (4 * (G - 1 - j) + 2) 0, ERK.getD (4 * (G - 1 - j) + 3) 0) =
        group ERK (G - 1 - j) := rfl
    rw [hg, hs]
    simp only [Option.some_bind]
    have e : 4 * j + 4 = 4 * (j + 1) := by omega
    rw [e]
    exact hrec

theorem drk_transform_loop_spec (T : List Nat) (G : Nat) (hT : T.length = 4 * G)
    (hG2 : 2 ≤ G) (hG : 4 * G < 2 ^ 64) :
    ∀ m j fuel, j + m = G - 2 → m ≤ fuel →
      drk_transform_loop fuel (4 * (j + 1)) (mixed T j ++ T.drop (4 * (j + 1))) =
        some (mixed T (G - 2) ++ T.drop (4 * (G - 1))) := by
  intro m
  induction m with
  | zero =>
    intro j fuel hj _
    have hjG : j = G - 2 := by omega
    subst hjG
    have hlen : (mixed T (G - 2) ++ T.drop (4 * (G - 2 + 1))).length = 4 * G := by
      rw [List.length_append, mixed_length, List.length_drop]; omega
    have hi : 4 * (G - 2 + 1) = (4 * G + 2 ^ 64 - 4) % 2 ^ 64 := by omega
    have e : G - 2 + 1 = G - 1 := by omega
    cases fuel with
    | zero => unfold drk_transform_loop; rw [hlen, if_neg (fun h => h hi), e]
    | succ f => unfold drk_transform_loop; rw [hlen, if_neg (fun h => h hi), e]
  | succ m ih =>
    intro j fuel hj hf
    obtain ⟨f, rfl⟩ : ∃ f, fuel = f + 1 := ⟨fuel - 1, by omega⟩
    have hlen : (mixed T j ++ T.drop (4 * (j + 1))).length = 4 * G := by
      rw [List.length_append, mixed_length, List.length_drop]; omega
    have hne : 4 * (j + 1) ≠ (4 * G + 2 ^ 64 - 4) % 2 ^ 64 := by omega
    have rd : ∀ k, k < 4 → (mixed T j ++ T.drop (4 * (j + 1)))[4 * (j + 1) + k]? =
        some (T.getD (4 * (j + 1) + k) 0) := by
      intro k hk
      rw [List.getElem?_append_right (by rw [mixed_length]; omega), mixed_length,
        List.getElem?_drop]
      have e : 4 * (j + 1) + (4 * (j + 1) + k - 4 * (j + 1)) = 4 * (j + 1) + k := by omega
      rw [e]
      exact getElem?_eq_some_getD (by omega)
    have hs := store4_append (mixed T j) (T.drop (4 * (j + 1))) (4 * (j + 1))
      (A4 (group T (j + 1))) (mixed_length _ _) (by rw [List.length_drop]; omega)
    have hnext : (mixed T j ++ g4 (A4 (group T (j + 1)))) ++ (T.drop (4 * (j + 1))).drop 4 =
        mixed T (j + 1) ++ T.drop (4 * (j + 1 + 1)) := by
      rw [List.drop_drop, Nat.mul_add 4 (j + 1) 1, Nat.mul_one]; rfl
    rw [hnext] at hs
    have hrec := ih (j + 1) f (by omega) (by omega)
    unfold drk_transform_loop
    rw [hlen, if_pos hne, rd 0 (by omega), rd 1 (by omega), rd 2 (by omega), rd 3 (by omega)]
    simp only [Option.bind_eq_bind, Option.some_bind]
    have hg : aria_ks_dk_transform (T.getD (4 * (j + 1) + 0) 0) (T.getD (4 * (j + 1) + 1) 0)
        (T.getD (4 * (j + 1) + 2) 0) (T.getD (4 * (j + 1) + 3) 0) = A4 (group T (j + 1)) := rfl
    rw [hg, hs]
    simp only [Option.some_bind]
    have e : 4 * (j + 1) + 4 = 4 * (j + 1 + 1) := by omega
    rw [e]
    exact hrec

theorem resize_length (v : List Nat) (n : Nat) : (resize v n).length = n := by
  simp only [resize, List.length_append, List.length_take, List.length_replicate]; omega

theorem make_DRK_spec (ERK DRK : List Nat) (G : Nat) (hE : ERK.length = 4 * G)
    (hG2 : 2 ≤ G) (hG : 4 * G < 2 ^ 64) : make_DRK ERK DRK = some (drk_of ERK G) := by
  have hR : (resize DRK ERK.length).length = 4 * G := by rw [resize_length, hE]
  have h1 := drk_copy_loop_spec ERK (resize DRK ERK.length) G hE hR hG G 0 (4 * G)
    (by omega) (by omega)
  simp only [Nat.mul_zero, copied, List.nil_append, List.drop_zero] at h1
  have hT : (copied ERK G G).length = 4 * G := copied_length _ _ _
  have h2 := drk_transform_loop_spec (copied ERK G G) G hT hG2 hG (G - 2) 0 (4 * G)
    (by omega) (by omega)
  have h0 : mixed (copied ERK G G) 0 ++ (copied ERK G G).drop (4 * (0 + 1)) = copied ERK G G := by
    have := g4_group_drop (T := copied ERK G G) (k := 0) (by omega)
    simpa [mixed] using this.symm
  rw [h0] at h2
  unfold make_DRK
  simp only [Option.bind_eq_bind, hR, h1, Option.some_bind, hT]
  exact h2

theorem drk_of_length (ERK : List Nat) (G : Nat) (hG2 : 2 ≤ G) :
    (drk_of ERK G).length = 4 * G := by
  unfold drk_of
  rw [List.length_append, mixed_length, List.length_drop, copied_length]; omega

theorem group_copied (ERK : List Nat) (G : Nat) :
    ∀ j i, i < j → group (copied ERK G j) i = group ERK (G - 1 - i) := by
  intro j
  induction j with
  | zero => intro i hi; omega
  | succ j ih =>
    intro i hi
    by_cases h : i < j
    · rw [copied, group_append_left _ (by rw [copied_length]; omega)]
      exact ih i h
    · have e : i = j := by omega
      subst e
      have := group_append_right (p := copied ERK G i) (g4 (group ERK (G - 1 - i))) 0
        (copied_length _ _ _)
      rw [Nat.add_zero] at this
      rw [copied, this, ← List.append_nil (g4 _), group_g4]

theorem group_mixed_zero (T : List Nat) : ∀ j, group (mixed T j) 0 = group T 0 := by
  intro j
  induction j with
  | zero => rw [mixed, ← List.append_nil (g4 _), group_g4]
  | succ j ih =>
    rw [mixed, group_append_left _ (by rw [mixed_length]; omega)]
    exact ih

theorem group_mixed (T : List Nat) :
    ∀ j i, 0 < i → i ≤ j → group (mixed T j) i = A4 (group T i) := by
  intro j
  induction j with
  | zero => intro i h0 hi; omega
  | succ j ih =>
    intro i h0 hi
    by_cases h : i ≤ j
    · rw [mixed, group_append_left _ (by rw [mixed_length]; omega)]
      exact ih i h0 h
    · have e : i = j + 1 := by omega
      subst e
      have := group_append_right (p := mixed T j) (g4 (A4 (group T (j + 1)))) 0
        (mixed_length _ _)
      rw [Nat.add_zero] at this
      rw [mixed, this, ← List.append_nil (g4 _), group_g4]

theorem group_drk_of_first (ERK : List Nat) (G : Nat) (hG2 : 2 ≤ G) :
    group (drk_of ERK G) 0 = group ERK (G - 1) := by
  unfold drk_of
  rw [group_append_left _ (by rw [mixed_length]; omega), group_mixed_zero,
    group_copied _ _ _ _ (by omega)]
  rfl

theorem group_drk_of_last (ERK : List Nat) (G : Nat) (hG2 : 2 ≤ G) :
    group (drk_of ERK G) (G - 1) = group ERK 0 := by
  unfold drk_of
  have := group_append_right (p := mixed (copied ERK G G) (G - 2))
    ((copied ERK G G).drop (4 * (G - 1))) (k := G - 1) 0 (by rw [mixed_length]; omega)
  rw [Nat.add_zero] at this
  rw [this, group_drop, Nat.add_zero, group_copied _ _ _ _ (by omega)]
  congr 1; omega

theorem group_drk_of_mid (ERK : List Nat) (G i : Nat) (h0 : 0 < i) (hi : i < G - 1) :
    group (drk_of ERK G) i = A4 (group ERK (G - 1 - i)) := by
  unfold drk_of
  rw [group_append_left _ (by rw [mixed_length]; omega), group_mixed _ _ _ h0 (by omega),
    group_copied _ _ _ _ (by omega)]

theorem store_step (pre L : List Nat) (g : W4) (off : Nat) (hp : pre.length = off)
    (hL : off + 4 ≤ L.length) :
    store4 (pre ++ L.drop off) off g = some ((pre ++ g4 g) ++ L.drop (off + 4)) := by
  rw [store4_append pre (L.drop off) off g hp (by rw [List.length_drop]; omega), List.drop_drop]

theorem fill_ERK_16 (ERK : List Nat) (w0 w1 w2 w3 : W4) :
    fill_ERK ERK 16 w0 w1 w2 w3 = some (erk_of 16 w0 w1 w2 w3) := by
  unfold fill_ERK
  simp only [Nat.reduceMul, Nat.reduceEqDiff, if_true, if_false, or_true, true_or, or_false, or_self,
    reduceIte]
  have hL : (resize ERK 52).length = 52 := resize_length _ _
  generalize resize ERK 52 = L at hL ⊢
  have h0 : L = [] ++ L.drop 0 := rfl
  rw [h0]
  rw [store_step _ L _ 0]; rotate_left
  · simp only [List.length_append, g4_length, List.length_nil]
  · omega
  simp only [Nat.reduceAdd]
  rw [store_step _ L _ 4]; rotate_left
  · simp only [List.length_append, g4_length, List.length_nil]
  · omega
  simp only [Nat.reduceAdd]
  rw [store_step _ L _ 8]; rotate_left
  · simp only [List.length_append, g4_length, List.length_nil]
  · omega
  simp only [Nat.reduceAdd]
  rw [store_step _ L _ 12]; rotate_left
  · simp only [List.length_append, g4_length, List.length_nil]
  · omega
  simp only [Nat.reduceAdd]
  rw [store_step _ L _ 16]; rotate_left
  · simp only [List.length_append, g4_length, List.length_nil]
  · omega
  simp only [Nat.reduceAdd]
  rw [store_step _ L _ 20]; rotate_left
  · simp only [List.length_append, g4_length, List.length_nil]
  · omega
  simp only [Nat.reduceAdd]
  rw [store_step _ L _ 24]; rotate_left
  · simp only [List.length_append, g4_length, List.length_nil]
  · omega
  simp only [Nat.reduceAdd]
  rw [store_step _ L _ 28]; rotate_left
  · simp only [List.length_append, g4_length, List.length_nil]
  · omega
  simp only [Nat.reduceAdd]
  rw [store_step _ L _ 32]; rotate_left
  · simp only [List.length_append, g4_length, List.length_nil]
  · omega
  simp only [Nat.reduceAdd]
  rw [store_step _ L _ 36]; rotate_left
  · simp only [List.length_append, g4_length, List.length_nil]
  · omega
  simp only [Nat.reduceAdd]
  rw [store_step _ L _ 40]; rotate_left
  · simp only [List.length_append, g4_length, List.length_nil]
  · omega
  simp only [Nat.reduceAdd]
  rw [store_step _ L _ 44]; rotate_left
  · simp only [List.length_append, g4_length, List.length_nil]
  · omega
  simp only [Nat.reduceAdd]
  rw [store_step _ L _ 48]; rotate_left
  · simp only [List.length_append, g4_length, List.length_nil]
  · omega
  simp only [Nat.reduceAdd]
  rw [List.drop_eq_nil_of_le (by omega)]
  simp only [erk_of, erk_groups, Nat.reduceEqDiff, if_true, if_false, or_true, true_or, or_false,
    or_self, reduceIte, List.cons_append, List.nil_append, List.map_cons, List.map_nil,
    List.flatten_cons, List.flatten_nil, List.append_assoc, List.append_nil]

theorem fill_ERK_24 (ERK : List Nat) (w0 w1 w2 w3 : W4) :
    fill_ERK ERK 24 w0 w1 w2 w3 = some (erk_of 24 w0 w1 w2 w3) := by
  unfold fill_ERK
  simp only [Nat.reduceMul, Nat.reduceEqDiff, if_true, if_false, or_true, true_or, or_false, or_self,
    reduceIte]
  have hL : (resize ERK 60).length = 60 := resize_length _ _
  generalize resize ERK 60 = L at hL ⊢
  have h0 : L = [] ++ L.drop 0 := rfl
  rw [h0]
  rw [store_step _ L _ 0]; rotate_left
  · simp only [List.length_append, g4_length, List.length_nil]
  · omega
  simp only [Nat.reduceAdd]
  rw [store_step _ L _ 4]; rotate_left
  · simp only [List.length_append, g4_length, List.length_nil]
  · omega
  simp only [Nat.reduceAdd]
  rw [store_step _ L _ 8]; rotate_left
  · simp only [List.length_append, g4_length, List.length_nil]
  · omega
  simp only [Nat.reduceAdd]
  rw [store_step _ L _ 12]; rotate_left
  · simp only [List.length_append, g4_length, List.length_nil]
  · omega
  simp only [Nat.reduceAdd]
  rw [store_step _ L _ 16]; rotate_left
  · simp only [List.length_append, g4_length, List.length_nil]
  · omega
  simp only [Nat.reduceAdd]
  rw [store_step _ L _ 20]; rotate_left
  · simp only [List.length_append, g4_length, List.length_nil]
  · omega
  simp only [Nat.reduceAdd]
  rw [store_step _ L _ 24]; rotate_left
  · simp only [List.length_append, g4_length, List.length_nil]
  · omega
  simp only [Nat.reduceAdd]
  rw [store_step _ L _ 28]; rotate_left
  · simp only [List.length_append, g4_length, List.length_nil]
  · omega
  simp only [Nat.reduceAdd]
  rw [store_step _ L _ 32]; rotate_left
  · simp only [List.length_append, g4_length, List.length_nil]
  · omega
  simp only [Nat.reduceAdd]
  rw [store_step _ L _ 36]; rotate_left
  · simp only [List.length_append, g4_length, List.length_nil]
  · omega
  simp only [Nat.reduceAdd]
  rw [store_step _ L _ 40]; rotate_left
  · simp only [List.length_append, g4_length, List.length_nil]
  · omega
  simp only [Nat.reduceAdd]
  rw [store_step _ L _ 44]; rotate_left
  · simp only [List.length_append, g4_length, List.length_nil]
  · omega
  simp only [Nat.reduceAdd]
  rw [store_step _ L _ 48]; rotate_left
  · simp only [List.length_append, g4_length, List.length_nil]
  · omega
  simp only [Nat.reduceAdd]
  rw [store_step _ L _ 52]; rotate_left
  · simp only [List.length_append, g4_length, List.length_nil]
  · omega
  simp only [Nat.reduceAdd]
  rw [store_step _ L _ 56]; rotate_left
  · simp only [List.length_append, g4_length, List.length_nil]
  · omega
  simp only [Nat.reduceAdd]
  rw [List.drop_eq_nil_of_le (by omega)]
  simp only [erk_of, erk_groups, Nat.reduceEqDiff, if_true, if_false, or_true, true_or, or_false,
    or_self, reduceIte, List.cons_append, List.nil_append, List.map_cons, List.map_nil,
    List.flatten_cons, List.flatten_nil, List.append_assoc, List.append_nil]

theorem fill_ERK_32 (ERK : List Nat) (w0 w1 w2 w3 : W4) :
    fill_ERK ERK 32 w0 w1 w2 w3 = some (erk_of 32 w0 w1 w2 w3) := by
  unfold fill_ERK
  simp only [Nat.reduceMul, Nat.reduceEqDiff, if_true, if_false, or_true, true_or, or_false, or_self,
    reduceIte]
  have hL : (resize ERK 68).length = 68 := resize_length _ _
  generalize resize ERK 68 = L at hL ⊢
  have h0 : L = [] ++ L.drop 0 := rfl
  rw [h0]
  rw [store_step _ L _ 0]; rotate_left
  · simp only [List.length_append, g4_length, List.length_nil]
  · omega
  simp only [Nat.reduceAdd]
  rw [store_step _ L _ 4]; rotate_left
  · simp only [List.length_append, g4_length, List.length_nil]
  · omega
  simp only [Nat.reduceAdd]
  rw [store_step _ L _ 8]; rotate_left
  · simp only [List.length_append, g4_length, List.length_nil]
  · omega
  simp only [Nat.reduceAdd]
  rw [store_step _ L _ 12]; rotate_left
  · simp only [List.length_append, g4_length, List.length_nil]
  · omega
  simp only [Nat.reduceAdd]
  rw [store_step _ L _ 16]; rotate_left
  · simp only [List.length_append, g4_length, List.length_nil]
  · omega
  simp only [Nat.reduceAdd]
  rw [store_step _ L _ 20]; rotate_left
  · simp only [List.length_append, g4_length, List.length_nil]
  · omega
  simp only [Nat.reduceAdd]
  rw [store_step _ L _ 24]; rotate_left
  · simp only [List.length_append, g4_length, List.length_nil]
  · omega
  simp only [Nat.reduceAdd]
  rw [store_step _ L _ 28]; rotate_left
  · simp only [List.length_append, g4_length, List.length_nil]
  · omega
  simp only [Nat.reduceAdd]
  rw [store_step _ L _ 32]; rotate_left
  · simp only [List.length_append, g4_length, List.length_nil]
  · omega
  simp only [Nat.reduceAdd]
  rw [store_step _ L _ 36]; rotate_left
  · simp only [List.length_append, g4_length, List.length_nil]
  · omega
  simp only [Nat.reduceAdd]
  rw [store_step _ L _ 40]; rotate_left
  · simp only [List.length_append, g4_length, List.length_nil]
  · omega
  simp only [Nat.reduceAdd]
  rw [store_step _ L _ 44]; rotate_left
  · simp only [List.length_append, g4_length, List.length_nil]
  · omega
  simp only [Nat.reduceAdd]
  rw [store_step _ L _ 48]; rotate_left
  · simp only [List.length_append, g4_length, List.length_nil]
  · omega
  simp only [Nat.reduceAdd]
  rw [store_step _ L _ 52]; rotate_left
  · simp only [List.length_append, g4_length, List.length_nil]
  · omega
  simp only [Nat.reduceAdd]
  rw [store_step _ L _ 56]; rotate_left
  · simp only [List.length_append, g4_length, List.length_nil]
  · omega
  simp only [Nat.reduceAdd]
  rw [store_step _ L _ 60]; rotate_left
  · simp only [List.length_append, g4_length, List.length_nil]
  · omega
  simp only [Nat.reduceAdd]
  rw [store_step _ L _ 64]; rotate_left
  · simp only [List.length_append, g4_length, List.length_nil]
  · omega
  simp only [Nat.reduceAdd]
  rw [List.drop_eq_nil_of_le (by omega)]
  simp only [erk_of, erk_groups, Nat.reduceEqDiff, if_true, if_false, or_true, true_or, or_false,
    or_self, reduceIte, List.cons_append, List.nil_append, List.map_cons, List.map_nil,
    List.flatten_cons, List.flatten_nil, List.append_assoc, List.append_nil]

theorem load_be_eq {b : List Nat} {i : Nat} (h : 4 * i + 3 < b.length) :
    load_be b i = some (be32 b i) := by
  unfold load_be be32
  rw [getElem?_eq_some_getD (by omega), getElem?_eq_some_getD (by omega),
    getElem?_eq_some_getD (by omega), getElem?_eq_some_getD (by omega)]
  rfl

theorem be32_zero {b : List Nat} {i : Nat} (h : b.length ≤ 4 * i) : be32 b i = 0 := by
  unfold be32
  rw [List.getD_eq_default _ _ (by omega), List.getD_eq_default _ _ (by omega),
    List.getD_eq_default _ _ (by omega), List.getD_eq_default _ _ (by omega)]
  rfl

theorem getD_byte {buf : List Nat} (h : isBytes buf) (i : Nat) : buf.getD i 0 < 256 := by
  by_cases hi : i < buf.length
  · rw [List.getD_eq_getElem _ _ hi]; exact h _ (List.getElem_mem hi)
  · rw [List.getD_eq_default _ _ (by omega)]; decide

theorem be32_lt {buf : List Nat} (h : isBytes buf) (i : Nat) : be32 buf i < 2 ^ 32 := by
  unfold be32
  have h0 := getD_byte h (4 * i)
  have h1 := getD_byte h (4 * i + 1)
  have h2 := getD_byte h (4 * i + 2)
  have h3 := getD_byte h (4 * i + 3)
  omega

theorem key_words_16 (key : List Nat) (h : key.length = 16) : key_words key = some (kw key) := by
  unfold key_words kw
  simp only [h, load_be_eq (b := key) (i := 0) (by omega), load_be_eq (b := key) (i := 1) (by omega),
    load_be_eq (b := key) (i := 2) (by omega), load_be_eq (b := key) (i := 3) (by omega),
    be32_zero (b := key) (i := 4) (by omega), be32_zero (b := key) (i := 5) (by omega),
    be32_zero (b := key) (i := 6) (by omega), be32_zero (b := key) (i := 7) (by omega)]
  simp [KRK, xor4, FO4, FE4]

theorem key_words_24 (key : List Nat) (h : key.length = 24) : key_words key = some (kw key) := by
  unfold key_words kw
  simp only [h, load_be_eq (b := key) (i := 0) (by omega), load_be_eq (b := key) (i := 1) (by omega),
    load_be_eq (b := key) (i := 2) (by omega), load_be_eq (b := key) (i := 3) (by omega),
    load_be_eq (b := key) (i := 4) (by omega), load_be_eq (b := key) (i := 5) (by omega),
    be32_zero (b := key) (i := 6) (by omega), be32_zero (b := key) (i := 7) (by omega)]
  simp [KRK, xor4, FO4, FE4]

theorem key_words_32 (key : List Nat) (h : key.length = 32) : key_words key = some (kw key) := by
  unfold key_words kw
  simp only [h, load_be_eq (b := key) (i := 0) (by omega), load_be_eq (b := key) (i := 1) (by omega),
    load_be_eq (b := key) (i := 2) (by omega), load_be_eq (b := key) (i := 3) (by omega),
    load_be_eq (b := key) (i := 4) (by omega), load_be_eq (b := key) (i := 5) (by omega),
    load_be_eq (b := key) (i := 6) (by omega), load_be_eq (b := key) (i := 7) (by omega)]
  simp [KRK, xor4, FO4, FE4]

theorem key_words_eq (key : List Nat) (h : validLen key.length) :
    key_words key = some (kw key) := by
  rcases h with h | h | h
  · exact key_words_16 key h
  · exact key_words_24 key h
  · exact key_words_32 key h

theorem kw_valid (key : List Nat) (hb : isBytes key) :
    valid4 (kw key).1 ∧ valid4 (kw key).2.1 ∧ valid4 (kw key).2.2.1 ∧ valid4 (kw key).2.2.2 := by
  have hW0 : valid4 (be32 key 0, be32 key 1, be32 key 2, be32 key 3) :=
    ⟨be32_lt hb _, be32_lt hb _, be32_lt hb _, be32_lt hb _⟩
  have hKR : valid4 (be32 key 4, be32 key 5, be32 key 6, be32 key 7) :=
    ⟨be32_lt hb _, be32_lt hb _, be32_lt hb _, be32_lt hb _⟩
  have h1 := xor4_valid (FO4_valid (xor4 (be32 key 0, be32 key 1, be32 key 2, be32 key 3)
    (KRK.getD (key.length / 8 - 2) (0, 0, 0, 0)))) hKR
  have h2 := xor4_valid (FE4_valid (xor4 (kw key).2.1
    (KRK.getD ((key.length / 8 - 2 + 1) % 3) (0, 0, 0, 0)))) hW0
  have h3 := xor4_valid (FO4_valid (xor4 (kw key).2.2.1
    (KRK.getD ((key.length / 8 - 2 + 2) % 3) (0, 0, 0, 0)))) h1
  exact ⟨hW0, h1, h2, h3⟩

theorem at4_lt {Y : W4} (h : valid4 Y) (i : Nat) : at4 Y i < 2 ^ 32 := by
  unfold at4
  split
  · exact h.1
  · exact h.2.1
  · exact h.2.2.1
  · exact h.2.2.2

theorem shr_lt {y : Nat} (h : y < 2 ^ 32) (r : Nat) : y >>> r < 2 ^ 32 := by
  rw [Nat.shiftRight_eq_div_pow]
  exact Nat.lt_of_le_of_lt (Nat.div_le_self _ _) h

theorem ARIA_ROL128_valid (N : Nat) {X Y : W4} (hX : valid4 X) (hY : valid4 Y) :
    valid4 (ARIA_ROL128 N X Y) := by
  have m : ∀ z : Nat, z % 2 ^ 32 < 2 ^ 32 := fun z => Nat.mod_lt _ (by decide)
  exact ⟨xor_lt32 (xor_lt32 (at4_lt hX _) (shr_lt (at4_lt hY _) _)) (m _),
    xor_lt32 (xor_lt32 (at4_lt hX _) (shr_lt (at4_lt hY _) _)) (m _),
    xor_lt32 (xor_lt32 (at4_lt hX _) (shr_lt (at4_lt hY _) _)) (m _),
    xor_lt32 (xor_lt32 (at4_lt hX _) (shr_lt (at4_lt hY _) _)) (m _)⟩

theorem isWords_g4 {g : W4} (h : valid4 g) : isWords (g4 g) := by
  intro w hw
  simp only [g4, List.mem_cons, List.mem_singleton, List.not_mem_nil, or_false] at hw
  rcases hw with rfl | rfl | rfl | rfl
  · exact h.1
  · exact h.2.1
  · exact h.2.2.1
  · exact h.2.2.2

theorem isWords_flatten {gs : List W4} (h : ∀ g ∈ gs, valid4 g) :
    isWords ((gs.map g4).flatten) := by
  intro w hw
  simp only [List.mem_flatten, List.mem_map] at hw
  obtain ⟨l, ⟨g, hg, rfl⟩, hwl⟩ := hw
  exact isWords_g4 (h g hg) w hwl

theorem erk_groups_valid (len : Nat) {w0 w1 w2 w3 : W4} (h0 : valid4 w0) (h1 : valid4 w1)
    (h2 : valid4 w2) (h3 : valid4 w3) : ∀ g ∈ erk_groups len w0 w1 w2 w3, valid4 g := by
  intro g hg
  unfold erk_groups at hg
  simp only [List.mem_append, List.mem_cons, List.mem_singleton, List.not_mem_nil, or_false] at hg
  rcases hg with (hg | hg) | hg
  · rcases hg with rfl | rfl | rfl | rfl | rfl | rfl | rfl | rfl | rfl | rfl | rfl | rfl | rfl <;>
      apply ARIA_ROL128_valid <;> assumption
  · split at hg
    · simp only [List.mem_cons, List.mem_singleton, List.not_mem_nil, or_false] at hg
      rcases hg with rfl | rfl <;> apply ARIA_ROL128_valid <;> assumption
    · cases hg
  · split at hg
    · simp only [List.mem_cons, List.mem_singleton, List.not_mem_nil, or_false] at hg
      rcases hg with rfl | rfl <;> apply ARIA_ROL128_valid <;> assumption
    · cases hg

theorem erk_of_isWords (len : Nat) {w0 w1 w2 w3 : W4} (h0 : valid4 w0) (h1 : valid4 w1)
    (h2 : valid4 w2) (h3 : valid4 w3) : isWords (erk_of len w0 w1 w2 w3) :=
  isWords_flatten (erk_groups_valid len h0 h1 h2 h3)

theorem erk_of_length (len : Nat) (h : validLen len) (w0 w1 w2 w3 : W4) :
    (erk_of len w0 w1 w2 w3).length = 4 * groups_of len := by
  rcases h with h | h | h <;> subst h <;> rfl

theorem fill_ERK_eq (ERK : List Nat) (len : Nat) (h : validLen len) (w0 w1 w2 w3 : W4) :
    fill_ERK ERK len w0 w1 w2 w3 = some (erk_of len w0 w1 w2 w3) := by
  rcases h with h | h | h <;> subst h
  · exact fill_ERK_16 _ _ _ _ _
  · exact fill_ERK_24 _ _ _ _ _
  · exact fill_ERK_32 _ _ _ _ _

theorem groups_of_bounds (len : Nat) : 2 ≤ groups_of len ∧ 4 * groups_of len < 2 ^ 64 := by
  unfold groups_of; split
  · decide
  · split <;> decide

theorem key_schedule_eq (ERK DRK key : List Nat) (h : validLen key.length) :
    key_schedule ERK DRK key = some (erk_key key, drk_key key) := by
  unfold key_schedule
  rw [key_words_eq key h]
  simp only [Option.bind_eq_bind, Option.some_bind, fill_ERK_eq _ _ h]
  rw [make_DRK_spec _ _ (groups_of key.length) (erk_of_length _ h _ _ _ _)
    (groups_of_bounds _).1 (groups_of_bounds _).2]
  rfl

theorem round_loop_exit (KS : List Nat) (R fuel r : Nat) (t : W4) (h : ¬ r < R) :
    round_loop KS R fuel r t = some t := by
  obtain ⟨t0, t1, t2, t3⟩ := t
  cases fuel <;> simp [round_loop, h]

theorem round_loop_step (KS : List Nat) (R f r : Nat) (t : W4) (h : r < R)
    (hK : 4 * r + 7 < KS.length) :
    round_loop KS R (f + 1) r t =
      round_loop KS R f (r + 2)
        (if r ≠ (R + 2 ^ 64 - 2) % 2 ^ 64 then FE4 (xor4 (FO4 (xor4 t (group KS r))) (group KS (r + 1)))
         else xor4 (FO4 (xor4 t (group KS r))) (group KS (r + 1))) := by
  obtain ⟨t0, t1, t2, t3⟩ := t
  have e4 : 4 * (r + 1) = 4 * r + 4 := by omega
  have e5 : 4 * (r + 1) + 1 = 4 * r + 5 := by omega
  have e6 : 4 * (r + 1) + 2 = 4 * r + 6 := by omega
  have e7 : 4 * (r + 1) + 3 = 4 * r + 7 := by omega
  rw [round_loop, if_pos h, getElem?_eq_some_getD (l := KS) (i := 4 * r) (by omega),
    getElem?_eq_some_getD (l := KS) (i := 4 * r + 1) (by omega),
    getElem?_eq_some_getD (l := KS) (i := 4 * r + 2) (by omega),
    getElem?_eq_some_getD (l := KS) (i := 4 * r + 3) (by omega),
    getElem?_eq_some_getD (l := KS) (i := 4 * r + 4) (by omega),
    getElem?_eq_some_getD (l := KS) (i := 4 * r + 5) (by omega),
    getElem?_eq_some_getD (l := KS) (i := 4 * r + 6) (by omega),
    getElem?_eq_some_getD (l := KS) (i := 4 * r + 7) (by omega)]
  simp only [group, e4, e5, e6, e7, Option.bind_eq_bind, Option.some_bind]
  rfl

theorem Fi_odd {i : Nat} (h : i % 2 = 1) : Fi i = FO4 := by unfold Fi; rw [if_pos h]

theorem Fi_even {i : Nat} (h : i % 2 = 0) : Fi i = FE4 := by
  unfold Fi; rw [if_neg (by omega)]

theorem flat_rounds_succ (g : Nat → W4) (n i : Nat) (s : W4) :
    flat_rounds g (n + 1) i s = flat_rounds g n (i + 1) (Fi i (xor4 s (g (i - 1)))) := rfl

theorem round_loop_spec (KS : List Nat) (R : Nat) (hR : R % 2 = 0) (hK : KS.length = 4 * (R + 1))
    (hb : R < 2 ^ 63) :
    ∀ m r fuel t, r + 2 * (m + 1) = R → m + 1 ≤ fuel →
      round_loop KS R fuel r t =
        some (xor4 (flat_rounds (group KS) (2 * m + 1) (r + 1) t) (group KS (R - 1))) := by
  intro m
  induction m with
  | zero =>
    intro r fuel t hr hf
    obtain ⟨f, rfl⟩ : ∃ f, fuel = f + 1 := ⟨fuel - 1, by omega⟩
    have hc : ¬ (r ≠ (R + 2 ^ 64 - 2) % 2 ^ 64) := by omega
    rw [round_loop_step KS R f r t (by omega) (by omega), if_neg hc,
      round_loop_exit _ _ _ _ _ (by omega)]
    have e : R - 1 = r + 1 := by omega
    rw [e]
    show some _ = some (xor4 (Fi (r + 1) (xor4 t (group KS (r + 1 - 1)))) _)
    rw [Fi_odd (by omega), Nat.add_sub_cancel]
  | succ m ih =>
    intro r fuel t hr hf
    obtain ⟨f, rfl⟩ : ∃ f, fuel = f + 1 := ⟨fuel - 1, by omega⟩
    have hc : r ≠ (R + 2 ^ 64 - 2) % 2 ^ 64 := by omega
    have key : flat_rounds (group KS) (2 * (m + 1) + 1) (r + 1) t =
        flat_rounds (group KS) (2 * m + 1) (r + 2 + 1)
          (FE4 (xor4 (FO4 (xor4 t (group KS r))) (group KS (r + 1)))) := by
      have e : 2 * (m + 1) + 1 = 2 * m + 1 + 1 + 1 := by omega
      rw [e, flat_rounds_succ, flat_rounds_succ, Fi_odd (i := r + 1) (by omega),
        Fi_even (i := r + 1 + 1) (by omega)]
      simp only [Nat.add_sub_cancel]
    rw [round_loop_step KS R f r t (by omega) (by omega), if_pos hc,
      ih (r + 2) f _ (by omega) (by omega), key]

theorem rounds_of_eq {KS : List Nat} {R : Nat} (hK : KS.length = 4 * (R + 1)) (hb : R < 2 ^ 63) :
    rounds_of KS = R := by
  unfold rounds_of; omega

theorem load_be4_eq {buf : List Nat} {off : Nat} (h : off + 16 ≤ buf.length) :
    load_be4 buf off = some (words_at buf off) := by
  have hl : (buf.drop off).length = buf.length - off := List.length_drop _ _
  unfold load_be4
  rw [load_be_eq (by omega), load_be_eq (by omega), load_be_eq (by omega), load_be_eq (by omega)]
  rfl

theorem transform_block_spec (inp : List Nat) (i : Nat) (KS : List Nat) (R : Nat)
    (hR : R % 2 = 0) (h2 : 2 ≤ R) (hK : KS.length = 4 * (R + 1)) (hb : R < 2 ^ 63)
    (hi : 16 * i + 16 ≤ inp.length) :
    transform_block inp i KS = some (flat_block KS R (words_at inp (16 * i))) := by
  unfold transform_block
  rw [rounds_of_eq hK hb, load_be4_eq hi]
  simp only [Option.bind_eq_bind, Option.some_bind]
  rw [round_loop_spec KS R hR hK hb (R / 2 - 1) 0 R _ (by omega) (by omega)]
  simp only [Option.some_bind]
  rw [getElem?_eq_some_getD (l := KS) (i := 4 * R) (by omega),
    getElem?_eq_some_getD (l := KS) (i := 4 * R + 1) (by omega),
    getElem?_eq_some_getD (l := KS) (i := 4 * R + 2) (by omega),
    getElem?_eq_some_getD (l := KS) (i := 4 * R + 3) (by omega)]
  have e : 2 * (R / 2 - 1) + 1 = R - 1 := by omega
  simp only [Option.some_bind, e]
  rfl

theorem Fi_eq (i : Nat) (t : W4) : Fi i t = A4 (SLi i t) := by
  unfold Fi SLi
  split
  · exact FO4_eq t
  · exact FE4_eq t

theorem SLi_valid (i : Nat) (t : W4) : valid4 (SLi i t) := by
  unfold SLi; split
  · exact SL1_valid t
  · exact SL2_valid t

theorem Fi_valid (i : Nat) (t : W4) : valid4 (Fi i t) := by rw [Fi_eq]; exact A4_valid _

theorem SLi_SLi {i j : Nat} (h : (i + j) % 2 = 1) {t : W4} (ht : valid4 t) :
    SLi i (SLi j t) = t := by
  unfold SLi
  by_cases hi : i % 2 = 1
  · rw [if_pos hi, if_neg (by omega)]; exact SL1_SL2 ht
  · rw [if_neg hi, if_pos (by omega)]; exact SL2_SL1 ht

theorem flat_rounds_snoc (g : Nat → W4) :
    ∀ n i s, flat_rounds g (n + 1) i s =
      Fi (i + n) (xor4 (flat_rounds g n i s) (g (i + n - 1))) := by
  intro n
  induction n with
  | zero => intro i s; rfl
  | succ n ih =>
    intro i s
    rw [flat_rounds_succ, ih (i + 1), flat_rounds_succ]
    have e : i + 1 + n = i + (n + 1) := by omega
    rw [e]

theorem flat_rounds_valid (g : Nat → W4) (n : Nat) {s : W4} (hs : valid4 s) :
    valid4 (flat_rounds g n 1 s) := by
  cases n with
  | zero => exact hs
  | succ n => rw [flat_rounds_snoc]; exact Fi_valid _ _

theorem xor4_A4_cancel {a b : W4} (ha : valid4 a) (hb : valid4 b) :
    xor4 (A4 (xor4 a b)) (A4 b) = A4 a := by
  rw [A4_xor4 ha hb, xor4_cancel]

theorem dec_rounds (e d : Nat → W4) (R : Nat) (hR : R % 2 = 0)
    (he : ∀ i, valid4 (e i)) (h0 : d 0 = e R)
    (hm : ∀ j, 0 < j → j < R → d j = A4 (e (R - j))) {s : W4} (hs : valid4 s) :
    ∀ k, k + 2 ≤ R →
      flat_rounds d (k + 1) 1 (enc4 e R s) =
        A4 (xor4 (flat_rounds e (R - (k + 1)) 1 s) (e (R - (k + 1)))) := by
  intro k
  induction k with
  | zero =>
    intro _
    have hz : valid4 (xor4 (flat_rounds e (R - 1) 1 s) (e (R - 1))) :=
      xor4_valid (flat_rounds_valid _ _ hs) (he _)
    show Fi 1 (xor4 (enc4 e R s) (d 0)) = _
    rw [h0, enc4, xor4_cancel, Fi_odd (by decide), FO4_eq, SL1_SL2 hz]
  | succ k ih =>
    intro hk
    have hx : flat_rounds e (R - (k + 1)) 1 s =
        A4 (SLi (R - (k + 1)) (xor4 (flat_rounds e (R - (k + 2)) 1 s) (e (R - (k + 2))))) := by
      have e1 : R - (k + 1) = (R - (k + 2)) + 1 := by omega
      rw [e1, flat_rounds_snoc, Fi_eq]
      have e2 : 1 + (R - (k + 2)) = R - (k + 2) + 1 := by omega
      have e3 : R - (k + 2) + 1 - 1 = R - (k + 2) := by omega
      rw [e2, e3]
    have hw : valid4 (xor4 (flat_rounds e (R - (k + 2)) 1 s) (e (R - (k + 2)))) :=
      xor4_valid (flat_rounds_valid _ _ hs) (he _)
    rw [flat_rounds_snoc, ih (by omega), Fi_eq]
    have e4 : 1 + (k + 1) - 1 = k + 1 := by omega
    rw [e4, hm (k + 1) (by omega) (by omega),
      xor4_A4_cancel (flat_rounds_valid _ _ hs) (he _), hx, A4_A4 (SLi_valid _ _),
      SLi_SLi (by omega) hw]

theorem enc4_valid (g : Nat → W4) (R : Nat) (s : W4) (hg : valid4 (g R)) :
    valid4 (enc4 g R s) := xor4_valid (SL2_valid _) hg

theorem dec_enc4 (e d : Nat → W4) (R : Nat) (hR : R % 2 = 0) (h2 : 2 ≤ R)
    (he : ∀ i, valid4 (e i)) (h0 : d 0 = e R) (hl : d R = e 0)
    (hm : ∀ j, 0 < j → j < R → d j = A4 (e (R - j))) {s : W4} (hs : valid4 s) :
    enc4 d R (enc4 e R s) = s := by
  have h := dec_rounds e d R hR he h0 hm hs (R - 2) (by omega)
  have e1 : R - 2 + 1 = R - 1 := by omega
  have e2 : R - (R - 1) = 1 := by omega
  rw [e1, e2] at h
  have hx : flat_rounds e 1 1 s = A4 (SL1 (xor4 s (e 0))) := by
    show Fi 1 (xor4 s (e 0)) = _
    rw [Fi_odd (by decide), FO4_eq]
  have hv : valid4 (xor4 s (e 0)) := xor4_valid hs (he _)
  unfold enc4 at h ⊢
  rw [h, hm (R - 1) (by omega) (by omega), e2,
    xor4_A4_cancel (flat_rounds_valid _ _ hs) (he _), hx, A4_A4 (SL1_valid _), SL2_SL1 hv, hl,
    xor4_cancel]

theorem xor_byte_lt {a b : Nat} (ha : a < 256) (hb : b < 256) : a ^^^ b < 256 :=
  Nat.xor_lt_two_pow (n := 8) ha hb

theorem final_word_eq (t : Nat) {k : Nat} (hk : k < 2 ^ 32) :
    final_word t k = word_bytes (sl2 t ^^^ k) := by
  have e := eq_mkw hk
  have h : sl2 t ^^^ k = mkw (sub X1 (get_byte 0 t) ^^^ get_byte 0 k)
      (sub X2 (get_byte 1 t) ^^^ get_byte 1 k) (sub S1 (get_byte 2 t) ^^^ get_byte 2 k)
      (sub S2 (get_byte 3 t) ^^^ get_byte 3 k) := by
    conv => lhs; rw [e]
    rw [sl2, xor_mkw]
  rw [h]
  simp only [word_bytes, final_word, get_byte_0_mkw, get_byte_1_mkw, get_byte_2_mkw, get_byte_3_mkw,
    Nat.mod_eq_of_lt (xor_byte_lt (sub_X1_lt _) (get_byte_lt _ _)),
    Nat.mod_eq_of_lt (xor_byte_lt (sub_X2_lt _) (get_byte_lt _ _)),
    Nat.mod_eq_of_lt (xor_byte_lt (sub_S1_lt _) (get_byte_lt _ _)),
    Nat.mod_eq_of_lt (xor_byte_lt (sub_S2_lt _) (get_byte_lt _ _))]

theorem final_stage_eq (s : W4) {k : W4} (hk : valid4 k) :
    final_stage s k = bytes_of (xor4 (SL2 s) k) := by
  unfold final_stage bytes_of
  rw [final_word_eq _ hk.1, final_word_eq _ hk.2.1, final_word_eq _ hk.2.2.1,
    final_word_eq _ hk.2.2.2]
  rfl

theorem flat_block_eq (KS : List Nat) (R : Nat) (blk : W4) (hk : valid4 (group KS R)) :
    flat_block KS R blk = bytes_of (enc4 (group KS) R blk) := by
  unfold flat_block enc4
  exact final_stage_eq _ hk

theorem bytes_of_length (t : W4) : (bytes_of t).length = 16 := rfl

theorem be32_word_bytes (i : Nat) (pre : List Nat) (w : Nat) (rest : List Nat)
    (hp : pre.length = 4 * i) (hw : w < 2 ^ 32) :
    be32 (pre ++ (word_bytes w ++ rest)) i = w := by
  unfold be32
  rw [List.getD_append_right pre (word_bytes w ++ rest) 0 (4 * i) (by omega),
    List.getD_append_right pre (word_bytes w ++ rest) 0 (4 * i + 1) (by omega),
    List.getD_append_right pre (word_bytes w ++ rest) 0 (4 * i + 2) (by omega),
    List.getD_append_right pre (word_bytes w ++ rest) 0 (4 * i + 3) (by omega)]
  have e0 : 4 * i - pre.length = 0 := by omega
  have e1 : 4 * i + 1 - pre.length = 1 := by omega
  have e2 : 4 * i + 2 - pre.length = 2 := by omega
  have e3 : 4 * i + 3 - pre.length = 3 := by omega
  rw [e0, e1, e2, e3]
  have e := eq_mkw hw
  show get_byte 0 w * 2 ^ 24 + get_byte 1 w * 2 ^ 16 + get_byte 2 w * 2 ^ 8 + get_byte 3 w = w
  have h0 := get_byte_lt 0 w
  have h1 := get_byte_lt 1 w
  have h2 := get_byte_lt 2 w
  have h3 := get_byte_lt 3 w
  unfold mkw at e
  omega

theorem words_at_bytes_of {w : W4} (hw : valid4 w) (rest : List Nat) :
    words_at (bytes_of w ++ rest) 0 = w := by
  obtain ⟨a, b, c, d⟩ := w
  obtain ⟨ha, hb, hc, hd⟩ := hw
  unfold words_at bytes_of
  simp only [List.drop_zero, List.append_assoc]
  have h0 := be32_word_bytes 0 [] a (word_bytes b ++ (word_bytes c ++ (word_bytes d ++ rest)))
    rfl ha
  have h1 := be32_word_bytes 1 (word_bytes a) b (word_bytes c ++ (word_bytes d ++ rest)) rfl hb
  have h2 := be32_word_bytes 2 (word_bytes a ++ word_bytes b) c (word_bytes d ++ rest) rfl hc
  have h3 := be32_word_bytes 3 (word_bytes a ++ word_bytes b ++ word_bytes c) d rest rfl hd
  simp only [List.nil_append, List.append_assoc] at h0 h1 h2 h3
  rw [h0, h1, h2, h3]

theorem word_bytes_be32 {b0 b1 b2 b3 : Nat} (h0 : b0 < 256) (h1 : b1 < 256) (h2 : b2 < 256)
    (h3 : b3 < 256) :
    word_bytes (b0 * 2 ^ 24 + b1 * 2 ^ 16 + b2 * 2 ^ 8 + b3) = [b0, b1, b2, b3] := by
  have e : b0 * 2 ^ 24 + b1 * 2 ^ 16 + b2 * 2 ^ 8 + b3 = mkw b0 b1 b2 b3 := by
    unfold mkw
    rw [Nat.mod_eq_of_lt h0, Nat.mod_eq_of_lt h1, Nat.mod_eq_of_lt h2, Nat.mod_eq_of_lt h3]
  rw [e]
  simp only [word_bytes, get_byte_0_mkw, get_byte_1_mkw, get_byte_2_mkw, get_byte_3_mkw,
    Nat.mod_eq_of_lt h0, Nat.mod_eq_of_lt h1, Nat.mod_eq_of_lt h2, Nat.mod_eq_of_lt h3]

theorem bytes_of_words_at {buf : List Nat} (hb : isBytes buf) (hl : 16 ≤ buf.length) :
    bytes_of (words_at buf 0) = buf.take 16 := by
  match buf, hl, hb with
  | a0 :: a1 :: a2 :: a3 :: a4 :: a5 :: a6 :: a7 :: a8 :: a9 :: a10 :: a11 :: a12 :: a13 :: a14
      :: a15 :: rest, _, hb =>
    have m : ∀ x, x ∈ [a0, a1, a2, a3, a4, a5, a6, a7, a8, a9, a10, a11, a12, a13, a14, a15] →
        x < 256 := by
      intro x hx
      exact hb x (List.mem_append_left rest hx)
    have w0 := word_bytes_be32 (m a0 (by simp)) (m a1 (by simp)) (m a2 (by simp)) (m a3 (by simp))
    have w1 := word_bytes_be32 (m a4 (by simp)) (m a5 (by simp)) (m a6 (by simp)) (m a7 (by simp))
    have w2 := word_bytes_be32 (m a8 (by simp)) (m a9 (by simp)) (m a10 (by simp))
      (m a11 (by simp))
    have w3 := word_bytes_be32 (m a12 (by simp)) (m a13 (by simp)) (m a14 (by simp))
      (m a15 (by simp))
    generalize hL : a0 :: a1 :: a2 :: a3 :: a4 :: a5 :: a6 :: a7 :: a8 :: a9 :: a10 :: a11 :: a12
      :: a13 :: a14 :: a15 :: rest = L
    have c0 : be32 L 0 = a0 * 2 ^ 24 + a1 * 2 ^ 16 + a2 * 2 ^ 8 + a3 := by subst hL; rfl
    have c1 : be32 L 1 = a4 * 2 ^ 24 + a5 * 2 ^ 16 + a6 * 2 ^ 8 + a7 := by subst hL; rfl
    have c2 : be32 L 2 = a8 * 2 ^ 24 + a9 * 2 ^ 16 + a10 * 2 ^ 8 + a11 := by subst hL; rfl
    have c3 : be32 L 3 = a12 * 2 ^ 24 + a13 * 2 ^ 16 + a14 * 2 ^ 8 + a15 := by subst hL; rfl
    have ct : L.take 16 = [a0, a1, a2, a3] ++ [a4, a5, a6, a7] ++ [a8, a9, a10, a11]
        ++ [a12, a13, a14, a15] := by subst hL; rfl
    unfold bytes_of words_at
    rw [List.drop_zero]
    simp only [c0, c1, c2, c3, w0, w1, w2, w3, ct]

theorem words_at_valid {buf : List Nat} (hb : isBytes buf) (off : Nat) :
    valid4 (words_at buf off) := by
  have hd : isBytes (buf.drop off) := fun b h => hb b (List.mem_of_mem_drop h)
  exact ⟨be32_lt hd _, be32_lt hd _, be32_lt hd _, be32_lt hd _⟩

theorem words_at_drop (buf : List Nat) (k off : Nat) :
    words_at (buf.drop k) off = words_at buf (k + off) := by
  unfold words_at; rw [List.drop_drop]

theorem transform_block_shift (inp : List Nat) (i : Nat) (KS : List Nat) :
    transform_block inp (i + 1) KS = transform_block (inp.drop 16) i KS := by
  have e : load_be4 inp (16 * (i + 1)) = load_be4 (inp.drop 16) (16 * i) := by
    unfold load_be4
    rw [List.drop_drop, Nat.mul_add, Nat.mul_one, Nat.add_comm]
  unfold transform_block
  rw [e]

theorem transform_from_shift (inp KS : List Nat) :
    ∀ n i, transform_from inp KS (i + 1) n = transform_from (inp.drop 16) KS i n := by
  intro n
  induction n with
  | zero => intro i; rfl
  | succ n ih =>
    intro i
    rw [transform_from, transform_from, transform_block_shift, ih]

theorem transform_succ (inp KS : List Nat) (n : Nat) :
    transform inp (n + 1) KS =
      (transform_block inp 0 KS).bind fun b =>
        (transform (inp.drop 16) n KS).bind fun rest => some (b ++ rest) := by
  unfold transform
  rw [transform_from, transform_from_shift]
  rfl

theorem transform_spec {KS : List Nat} {R : Nat} (hK : goodKS KS R) :
    ∀ n inp, 16 * n ≤ inp.length → transform inp n KS = some (flat_buf KS R inp n) := by
  intro n
  induction n with
  | zero => intro inp _; rfl
  | succ n ih =>
    intro inp hl
    rw [transform_succ, transform_block_spec inp 0 KS R hK.1 hK.2.1 hK.2.2.1 hK.2.2.2 (by omega),
      ih (inp.drop 16) (by rw [List.length_drop]; omega)]
    rfl

theorem flat_block_length (KS : List Nat) (R : Nat) (blk : W4) :
    (flat_block KS R blk).length = 16 := rfl

theorem flat_buf_length (KS : List Nat) (R : Nat) :
    ∀ n buf, (flat_buf KS R buf n).length = 16 * n := by
  intro n
  induction n with
  | zero => intro buf; rfl
  | succ n ih =>
    intro buf
    rw [flat_buf, List.length_append, flat_block_length, ih]; omega

theorem flat_buf_block (KS : List Nat) (R : Nat) :
    ∀ n buf i, i < n →
      ((flat_buf KS R buf n).drop (16 * i)).take 16 = flat_block KS R (words_at buf (16 * i)) := by
  intro n
  induction n with
  | zero => intro buf i hi; omega
  | succ n ih =>
    intro buf i hi
    rw [flat_buf]
    cases i with
    | zero =>
      rw [Nat.mul_zero, List.drop_zero, List.take_append_of_le_length (by rw [flat_block_length])]
      exact List.take_of_length_le (by rw [flat_block_length])
    | succ i =>
      have e : 16 * (i + 1) = (flat_block KS R (words_at buf 0)).length + 16 * i := by
        rw [flat_block_length]; omega
      rw [e, List.drop_append, ih (buf.drop 16) i (by omega), words_at_drop, flat_block_length]

theorem flat_buf_eq_enc_buf (KS : List Nat) (R : Nat) (hk : valid4 (group KS R)) :
    ∀ n buf, flat_buf KS R buf n = enc_buf (group KS) R buf n := by
  intro n
  induction n with
  | zero => intro buf; rfl
  | succ n ih => intro buf; rw [flat_buf, enc_buf, flat_block_eq _ _ _ hk, ih]

theorem isBytes_drop {buf : List Nat} (h : isBytes buf) (k : Nat) : isBytes (buf.drop k) :=
  fun b hb => h b (List.mem_of_mem_drop hb)

theorem dec_enc_buf (e d : Nat → W4) (R : Nat) (hR : R % 2 = 0) (h2 : 2 ≤ R)
    (he : ∀ i, valid4 (e i)) (h0 : d 0 = e R) (hl : d R = e 0)
    (hm : ∀ j, 0 < j → j < R → d j = A4 (e (R - j))) :
    ∀ n P, P.length = 16 * n → isBytes P → enc_buf d R (enc_buf e R P n) n = P := by
  intro n
  induction n with
  | zero =>
    intro P hP _
    have : P = [] := List.eq_nil_of_length_eq_zero (by omega)
    subst this; rfl
  | succ n ih =>
    intro P hP hb
    have hv : valid4 (enc4 e R (words_at P 0)) := enc4_valid e R _ (he R)
    rw [enc_buf, enc_buf, words_at_bytes_of hv, dec_enc4 e d R hR h2 he h0 hl hm
      (words_at_valid hb 0), List.drop_append_of_le_length (by rw [bytes_of_length]),
      List.drop_of_length_le (by rw [bytes_of_length]), List.nil_append,
      ih (P.drop 16) (by rw [List.length_drop]; omega) (isBytes_drop hb 16),
      bytes_of_words_at hb (by omega), List.take_append_drop]

theorem enc_buf_length (g : Nat → W4) (R : Nat) :
    ∀ n buf, (enc_buf g R buf n).length = 16 * n := by
  intro n
  induction n with
  | zero => intro buf; rfl
  | succ n ih =>
    intro buf
    rw [enc_buf, List.length_append, bytes_of_length, ih]; omega

theorem group_valid {KS : List Nat} (h : isWords KS) (i : Nat) : valid4 (group KS i) := by
  have m : ∀ j, KS.getD j 0 < 2 ^ 32 := by
    intro j
    by_cases hj : j < KS.length
    · rw [List.getD_eq_getElem _ _ hj]; exact h _ (List.getElem_mem hj)
    · rw [List.getD_eq_default _ _ (by omega)]; decide
  exact ⟨m _, m _, m _, m _⟩

/-- Decrypting with the schedule derived from `ERK` undoes encrypting with `ERK`, for every
schedule of 32-bit words with an even number `G - 1 ≥ 2` of rounds. -/
theorem transform_round_trip (ERK : List Nat) (G : Nat) (hG : G % 2 = 1) (h3 : 3 ≤ G)
    (hb : G < 2 ^ 62) (hE : ERK.length = 4 * G) (hw : isWords ERK) (P : List Nat) (N : Nat)
    (hP : P.length = 16 * N) (hPb : isBytes P) :
    ∃ C, transform P N ERK = some C ∧ C.length = 16 * N ∧ isBytes C ∧
      transform C N (drk_of ERK G) = some P := by
  have gE : goodKS ERK (G - 1) := ⟨by omega, by omega, by omega, by omega⟩
  have gD : goodKS (drk_of ERK G) (G - 1) :=
    ⟨by omega, by omega, by rw [drk_of_length _ _ (by omega)]; omega, by omega⟩
  have he : ∀ i, valid4 (group ERK i) := group_valid hw
  have h0 : group (drk_of ERK G) 0 = group ERK (G - 1) := group_drk_of_first _ _ (by omega)
  have hl : group (drk_of ERK G) (G - 1) = group ERK 0 := group_drk_of_last _ _ (by omega)
  have hm : ∀ j, 0 < j → j < G - 1 →
      group (drk_of ERK G) j = A4 (group ERK (G - 1 - j)) :=
    fun j hj0 hj => group_drk_of_mid _ _ _ hj0 hj
  have hdv : valid4 (group (drk_of ERK G) (G - 1)) := by rw [hl]; exact he 0
  refine ⟨enc_buf (group ERK) (G - 1) P N, ?_, enc_buf_length _ _ _ _, ?_, ?_⟩
  · rw [transform_spec gE N P (by omega), flat_buf_eq_enc_buf _ _ (he _)]
  · have hb16 : ∀ t : W4, isBytes (bytes_of t) := by
      intro t b hb
      simp only [bytes_of, word_bytes, List.mem_append, List.mem_cons, List.mem_singleton,
        List.not_mem_nil, or_false] at hb
      rcases hb with ((h | h) | h) | h <;> rcases h with rfl | rfl | rfl | rfl <;>
        exact get_byte_lt _ _
    have : ∀ n buf, isBytes (enc_buf (group ERK) (G - 1) buf n) := by
      intro n
      induction n with
      | zero => intro buf b hb; cases hb
      | succ n ih =>
        intro buf b hb
        rw [enc_buf, List.mem_append] at hb
        rcases hb with hb | hb
        · exact hb16 _ b hb
        · exact ih _ b hb
    exact this N P
  · rw [transform_spec gD N _ (by rw [enc_buf_length]), flat_buf_eq_enc_buf _ _ hdv,
      dec_enc_buf (group ERK) (group (drk_of ERK G)) (G - 1) (by omega) (by omega) he h0 hl hm
        N P hP hPb]

theorem groups_of_odd (len : Nat) : groups_of len % 2 = 1 ∧ 3 ≤ groups_of len ∧
    groups_of len < 2 ^ 62 := by
  unfold groups_of; split
  · decide
  · split <;> decide

theorem erk_key_length (K : List Nat) (hK : validLen K.length) :
    (erk_key K).length = 4 * groups_of K.length := erk_of_length _ hK _ _ _ _

theorem erk_key_isWords (K : List Nat) (hKb : isBytes K) : isWords (erk_key K) := by
  obtain ⟨h0, h1, h2, h3⟩ := kw_valid K hKb
  exact erk_of_isWords _ h0 h1 h2 h3

/-- C1: for every key of 16, 24 or 32 bytes, whatever the two vectors held before, the
schedules `(ERK, DRK)` that `key_schedule` derives satisfy: `transform` under `ERK` succeeds
on every buffer of `N` blocks and `transform` under `DRK` maps the result back to the
buffer. -/
theorem C1_round_trip (E0 D0 K P : List Nat) (N : Nat) (hK : validLen K.length)
    (hKb : isBytes K) (hP : P.length = 16 * N) (hPb : isBytes P) :
    ∃ ERK DRK C, key_schedule E0 D0 K = some (ERK, DRK) ∧ transform P N ERK = some C ∧
      transform C N DRK = some P := by
  obtain ⟨hodd, h3, hb⟩ := groups_of_odd K.length
  obtain ⟨C, hC, _, _, hD⟩ := transform_round_trip (erk_key K) (groups_of K.length) hodd h3 hb
    (erk_key_length K hK) (erk_key_isWords K hKb) P N hP hPb
  exact ⟨erk_key K, drk_key K, C, key_schedule_eq E0 D0 K hK, hC, hD⟩

/-- Witness of C1 at the 128-bit key `00 01 .. 0f` and the one-block buffer `kat_pt`. -/
theorem C1_round_trip_witness :
    validLen (List.range 16).length ∧ isBytes (List.range 16) ∧ kat_pt.length = 16 * 1 ∧
      isBytes kat_pt ∧
      ∃ ERK DRK C, key_schedule [] [] (List.range 16) = some (ERK, DRK) ∧
        transform kat_pt 1 ERK = some C ∧ transform C 1 DRK = some kat_pt :=
  ⟨by decide, by decide, by decide, by decide,
    C1_round_trip [] [] (List.range 16) kat_pt 1 (by decide) (by decide) (by decide) (by decide)⟩

set_option maxRecDepth 100000 in
/-- C2: the three known-answer vectors of RFC 5794, Appendix A: under the keys
`00 01 .. 0f`, `00 01 .. 17` and `00 01 .. 1f` the plaintext `00112233445566778899aabbccddeeff`
encrypts to the published ciphertexts, and decrypting each ciphertext with the `DRK` of the
same key gives the plaintext back. -/
theorem C2_known_answers :
    kat_run (List.range 16) kat_pt = some (kat_ct128, kat_pt) ∧
    kat_run (List.range 24) kat_pt = some (kat_ct192, kat_pt) ∧
    kat_run (List.range 32) kat_pt = some (kat_ct256, kat_pt) :=
  ⟨by decide!, by decide!, by decide!⟩

theorem goodKS_of_size {KS : List Nat} (h : KS.length = 52 ∨ KS.length = 60 ∨ KS.length = 68) :
    goodKS KS (KS.length / 4 - 1) := by
  unfold goodKS
  rcases h with h | h | h <;> rw [h] <;> decide

/-- C3: for every schedule of 52, 60 or 68 words and every input of `16 * N` bytes,
`transform` succeeds and writes `16 * N` bytes (nothing for `N = 0`), and bytes
`16*i .. 16*i + 15` of the output are the output of `transform` on the single block
`in[16*i .. 16*i + 15]` with block count 1 and the same schedule, for every `i < N`. -/
theorem C3_block_independence (KS inp : List Nat) (N : Nat)
    (hK : KS.length = 52 ∨ KS.length = 60 ∨ KS.length = 68) (hI : inp.length = 16 * N) :
    ∃ out, transform inp N KS = some out ∧ out.length = 16 * N ∧
      ∀ i, i < N →
        transform ((inp.drop (16 * i)).take 16) 1 KS = some ((out.drop (16 * i)).take 16) := by
  have g := goodKS_of_size hK
  refine ⟨flat_buf KS (KS.length / 4 - 1) inp N, transform_spec g N inp (by omega),
    flat_buf_length _ _ _ _, ?_⟩
  intro i hi
  have hl : ((inp.drop (16 * i)).take 16).length = 16 := by
    rw [List.length_take, List.length_drop]; omega
  rw [transform_spec g 1 _ (by omega), flat_buf_block _ _ _ _ _ hi]
  have hw : words_at ((inp.drop (16 * i)).take 16) 0 = words_at inp (16 * i) := by
    have hb : ∀ j, j < 4 →
        be32 (((inp.drop (16 * i)).take 16).drop 0) j = be32 (inp.drop (16 * i)) j := by
      intro j hj
      have t : ∀ k, k < 16 → ((inp.drop (16 * i)).take 16).getD k 0 =
          (inp.drop (16 * i)).getD k 0 := by
        intro k hk
        simp only [List.getD_eq_getElem?_getD, List.getElem?_take_of_lt hk]
      unfold be32
      rw [List.drop_zero, t _ (by omega), t _ (by omega), t _ (by omega), t _ (by omega)]
    unfold words_at
    rw [hb 0 (by omega), hb 1 (by omega), hb 2 (by omega), hb 3 (by omega)]
  show some (flat_block KS _ (words_at _ 0) ++ []) = _
  rw [hw, List.append_nil]

/-- Witness of C3 at a schedule of 52 zero words and a buffer of two blocks. -/
theorem C3_block_independence_witness :
    ((List.replicate 52 0).length = 52 ∨ (List.replicate 52 0).length = 60 ∨
        (List.replicate 52 0).length = 68) ∧ (kat_pt ++ kat_ct128).length = 16 * 2 ∧
      ∃ out, transform (kat_pt ++ kat_ct128) 2 (List.replicate 52 0) = some out ∧
        out.length = 16 * 2 ∧
        ∀ i, i < 2 →
          transform (((kat_pt ++ kat_ct128).drop (16 * i)).take 16) 1 (List.replicate 52 0) =
            some ((out.drop (16 * i)).take 16) :=
  ⟨by decide, by decide,
    C3_block_independence (List.replicate 52 0) (kat_pt ++ kat_ct128) 2 (by decide) (by decide)⟩

/-- C4: for a key of 16, 24 or 32 bytes `key_schedule` leaves `ERK` and `DRK` each with
exactly 52, 60 or 68 words, that is `4 * (ROUNDS + 1)`, and the value `ROUNDS` that
`transform` computes from either schedule is 12, 14 or 16 respectively. -/
theorem C4_schedule_length (E0 D0 K : List Nat) (hK : validLen K.length) :
    ∃ ERK DRK, key_schedule E0 D0 K = some (ERK, DRK) ∧
      ERK.length = 4 * (rounds_of ERK + 1) ∧ DRK.length = 4 * (rounds_of DRK + 1) ∧
      (K.length = 16 → ERK.length = 52 ∧ DRK.length = 52 ∧ rounds_of ERK = 12 ∧
        rounds_of DRK = 12) ∧
      (K.length = 24 → ERK.length = 60 ∧ DRK.length = 60 ∧ rounds_of ERK = 14 ∧
        rounds_of DRK = 14) ∧
      (K.length = 32 → ERK.length = 68 ∧ DRK.length = 68 ∧ rounds_of ERK = 16 ∧
        rounds_of DRK = 16) := by
  have hE := erk_key_length K hK
  have hD : (drk_key K).length = 4 * groups_of K.length :=
    drk_of_length _ _ (groups_of_bounds _).1
  refine ⟨erk_key K, drk_key K, key_schedule_eq E0 D0 K hK, ?_⟩
  unfold rounds_of
  rw [hE, hD]
  rcases hK with h | h | h <;> rw [h] <;> simp [groups_of]

/-- Witness of C4 at the 192-bit key `00 01 .. 17`. -/
theorem C4_schedule_length_witness :
    validLen (List.range 24).length ∧
    ∃ ERK DRK, key_schedule [] [] (List.range 24) = some (ERK, DRK) ∧
      ERK.length = 4 * (rounds_of ERK + 1) ∧ DRK.length = 4 * (rounds_of DRK + 1) ∧
      ((List.range 24).length = 16 → ERK.length = 52 ∧ DRK.length = 52 ∧ rounds_of ERK = 12 ∧
        rounds_of DRK = 12) ∧
      ((List.range 24).length = 24 → ERK.length = 60 ∧ DRK.length = 60 ∧ rounds_of ERK = 14 ∧
        rounds_of DRK = 14) ∧
      ((List.range 24).length = 32 → ERK.length = 68 ∧ DRK.length = 68 ∧ rounds_of ERK = 16 ∧
        rounds_of DRK = 16) :=
  ⟨by decide, C4_schedule_length [] [] (List.range 24) (by decide)⟩

/-- C5: for every key of 16, 24 or 32 bytes, with `G = ERK.size() / 4` groups, group 0 of
`DRK` is group `G - 1` of `ERK`, group `G - 1` of `DRK` is group 0 of `ERK` (words in the
same order), and every interior group `0 < i < G - 1` of `DRK` is `aria_ks_dk_transform`
applied to group `G - 1 - i` of `ERK`. -/
theorem C5_decryption_schedule (E0 D0 K : List Nat) (hK : validLen K.length) :
    ∃ ERK DRK, key_schedule E0 D0 K = some (ERK, DRK) ∧
      group DRK 0 = group ERK (ERK.length / 4 - 1) ∧
      group DRK (ERK.length / 4 - 1) = group ERK 0 ∧
      ∀ i, 0 < i → i < ERK.length / 4 - 1 →
        group DRK i =
          aria_ks_dk_transform (group ERK (ERK.length / 4 - 1 - i)).1
            (group ERK (ERK.length / 4 - 1 - i)).2.1 (group ERK (ERK.length / 4 - 1 - i)).2.2.1
            (group ERK (ERK.length / 4 - 1 - i)).2.2.2 := by
  have hE := erk_key_length K hK
  have hG : (erk_key K).length / 4 = groups_of K.length := by rw [hE]; omega
  have h2 := (groups_of_bounds K.length).1
  refine ⟨erk_key K, drk_key K, key_schedule_eq E0 D0 K hK, ?_, ?_, ?_⟩
  · rw [hG]; exact group_drk_of_first _ _ h2
  · rw [hG]; exact group_drk_of_last _ _ h2
  · intro i h0 hi
    rw [hG] at hi ⊢
    exact group_drk_of_mid _ _ _ h0 hi

/-- Witness of C5 at the 256-bit key `00 01 .. 1f`. -/
theorem C5_decryption_schedule_witness :
    validLen (List.range 32).length ∧
    ∃ ERK DRK, key_schedule [] [] (List.range 32) = some (ERK, DRK) ∧
      group DRK 0 = group ERK (ERK.length / 4 - 1) ∧
      group DRK (ERK.length / 4 - 1) = group ERK 0 ∧
      ∀ i, 0 < i → i < ERK.length / 4 - 1 →
        group DRK i =
          aria_ks_dk_transform (group ERK (ERK.length / 4 - 1 - i)).1
            (group ERK (ERK.length / 4 - 1 - i)).2.1 (group ERK (ERK.length / 4 - 1 - i)).2.2.1
            (group ERK (ERK.length / 4 - 1 - i)).2.2.2 :=
  ⟨by decide, C5_decryption_schedule [] [] (List.range 32) (by decide)⟩

/-- C9: for every key of 16, 24 or 32 bytes and every prior content of the two vectors,
`key_schedule` succeeds and yields the same pair `(ERK, DRK)` as on empty vectors: the
result is a function of the key bytes only. -/
theorem C9_derivation_depends_on_key_only (E0 D0 K : List Nat) (hK : validLen K.length) :
    (key_schedule E0 D0 K).isSome = true ∧ key_schedule E0 D0 K = key_schedule [] [] K := by
  rw [key_schedule_eq E0 D0 K hK, key_schedule_eq [] [] K hK]
  exact ⟨rfl, rfl⟩

/-- Witness of C9: re-keying a 68-word schedule pair with the 128-bit key `00 01 .. 0f`. -/
theorem C9_derivation_depends_on_key_only_witness :
    validLen (List.range 16).length ∧
      (key_schedule (List.replicate 68 7) (List.replicate 68 9) (List.range 16)).isSome = true ∧
      key_schedule (List.replicate 68 7) (List.replicate 68 9) (List.range 16) =
        key_schedule [] [] (List.range 16) :=
  ⟨by decide, C9_derivation_depends_on_key_only (List.replicate 68 7) (List.replicate 68 9)
    (List.range 16) (by decide)⟩

/-- C10: for every schedule of `4 * (R + 1)` words with `R` in {12, 14, 16} and every
block `i` of the input, the 16 bytes `transform` writes for the block are those of the flat
round-by-round description `flat_block`: rounds `1 .. R - 1` with `ARIA_FO` for odd and
`ARIA_FE` for even round numbers, then the XOR with group `R - 1` and the substitution-only
final stage with group `R`; the flat description has `R / 2` odd and `R / 2 - 1` even
rounds. -/
theorem C10_round_structure (KS inp : List Nat) (i R : Nat) (hR : R = 12 ∨ R = 14 ∨ R = 16)
    (hK : KS.length = 4 * (R + 1)) (hi : 16 * i + 16 ≤ inp.length) :
    transform_block inp i KS = some (flat_block KS R (words_at inp (16 * i))) ∧
      ((List.range' 1 (R - 1)).filter (fun j => j % 2 = 1)).length = R / 2 ∧
      ((List.range' 1 (R - 1)).filter (fun j => j % 2 = 0)).length = R / 2 - 1 := by
  refine ⟨transform_block_spec inp i KS R (by omega) (by omega) hK (by omega) hi, ?_, ?_⟩
  · rcases hR with h | h | h <;> subst h <;> decide
  · rcases hR with h | h | h <;> subst h <;> decide

/-- Witness of C10 at a schedule of 60 zero words (`R = 14`) and the block `kat_pt`. -/
theorem C10_round_structure_witness :
    ((14 : Nat) = 12 ∨ (14 : Nat) = 14 ∨ (14 : Nat) = 16) ∧
      (List.replicate 60 0).length = 4 * (14 + 1) ∧ 16 * 0 + 16 ≤ kat_pt.length ∧
      transform_block kat_pt 0 (List.replicate 60 0) =
        some (flat_block (List.replicate 60 0) 14 (words_at kat_pt (16 * 0))) ∧
      ((List.range' 1 (14 - 1)).filter (fun j => j % 2 = 1)).length = 14 / 2 ∧
      ((List.range' 1 (14 - 1)).filter (fun j => j % 2 = 0)).length = 14 / 2 - 1 :=
  ⟨by decide, by decide, by decide,
    C10_round_structure (List.replicate 60 0) kat_pt 0 14 (by decide) (by decide) (by decide)⟩

end ARIA_F

namespace ARIA

/-- C6 (against `set_key` as modelled from the spec): for every key whose length is not
16, 24 or 32, setting the key raises InvalidKeyLength and leaves `m_ERK` and `m_DRK`
unchanged. -/
theorem C6_invalid_key_length_rejected (s : State) (key : List Nat)
    (h : ¬ (key.length = 16 ∨ key.length = 24 ∨ key.length = 32)) :
    set_key s key = (s, .raised .InvalidKeyLength) := by
  unfold set_key; rw [if_neg h]

/-- Witness of C6: a 20-byte key offered to a keyed instance. -/
theorem C6_invalid_key_length_rejected_witness :
    ¬ ((List.range 20).length = 16 ∨ (List.range 20).length = 24 ∨ (List.range 20).length = 32) ∧
      set_key keyed (List.range 20) = (keyed, .raised .InvalidKeyLength) :=
  ⟨by decide, C6_invalid_key_length_rejected keyed (List.range 20) (by decide)⟩

/-- C7: when `has_keying_material()` is false, that is when `m_ERK` is empty, `encrypt_n`
and `decrypt_n` raise NotKeyed and leave the output buffer untouched; otherwise they run
`ARIA_F::transform` on `m_ERK` and `m_DRK` respectively. -/
theorem C7_unkeyed_use_rejected (s : State) (inp out : List Nat) (blocks : Nat) :
    (has_keying_material s = false ↔ s.m_ERK = []) ∧
    (s.m_ERK = [] →
      encrypt_n s inp out blocks = (out, .raised .NotKeyed) ∧
      decrypt_n s inp out blocks = (out, .raised .NotKeyed)) ∧
    (s.m_ERK ≠ [] →
      encrypt_n s inp out blocks = write_out out (ARIA_F.transform inp blocks s.m_ERK) ∧
      decrypt_n s inp out blocks = write_out out (ARIA_F.transform inp blocks s.m_DRK)) := by
  obtain ⟨E, D⟩ := s
  cases E with
  | nil =>
    refine ⟨⟨fun _ => rfl, fun _ => rfl⟩, fun _ => ⟨rfl, rfl⟩, fun h => absurd rfl h⟩
  | cons e E =>
    refine ⟨⟨fun h => ?_, fun h => ?_⟩, fun h => ?_, fun _ => ⟨rfl, rfl⟩⟩
    · cases h
    · cases h
    · cases h

/-- Witness of C7: the unkeyed instance rejects, with the output buffer `kat_ct128` left
as it was. -/
theorem C7_unkeyed_use_rejected_witness :
    encrypt_n { m_ERK := [], m_DRK := [] } ARIA_F.kat_pt ARIA_F.kat_ct128 1 =
        (ARIA_F.kat_ct128, .raised .NotKeyed) ∧
      decrypt_n { m_ERK := [], m_DRK := [] } ARIA_F.kat_pt ARIA_F.kat_ct128 1 =
        (ARIA_F.kat_ct128, .raised .NotKeyed) :=
  (C7_unkeyed_use_rejected { m_ERK := [], m_DRK := [] } ARIA_F.kat_pt ARIA_F.kat_ct128 1).2.1 rfl

/-- C8: from any state `clear()` ends normally, leaves `m_ERK` and `m_DRK` empty,
`has_keying_material()` is false afterwards, and a following `encrypt_n` or `decrypt_n`
raises NotKeyed without touching the output buffer. -/
theorem C8_clear_unkeys (s : State) (inp out : List Nat) (blocks : Nat) :
    (clear s).2 = .done ∧ (clear s).1.m_ERK = [] ∧ (clear s).1.m_DRK = [] ∧
      has_keying_material (clear s).1 = false ∧
      encrypt_n (clear s).1 inp out blocks = (out, .raised .NotKeyed) ∧
      decrypt_n (clear s).1 inp out blocks = (out, .raised .NotKeyed) :=
  ⟨rfl, rfl, rfl, rfl, rfl, rfl⟩

end ARIA

namespace ARIA_F

theorem ARIA_F1_tables (X : Nat) :
    ARIA_F1 X = (sub (table_F1 0) (get_byte 0 X) * 0x00010101) ^^^
      (sub (table_F1 1) (get_byte 1 X) * 0x01000101) ^^^
      (sub (table_F1 2) (get_byte 2 X) * 0x01010001) ^^^
      (sub (table_F1 3) (get_byte 3 X) * 0x01010100) := rfl

theorem ARIA_F2_tables (X : Nat) :
    ARIA_F2 X = (sub (table_F2 0) (get_byte 0 X) * 0x01010001) ^^^
      (sub (table_F2 1) (get_byte 1 X) * 0x01010100) ^^^
      (sub (table_F2 2) (get_byte 2 X) * 0x00010101) ^^^
      (sub (table_F2 3) (get_byte 3 X) * 0x01000101) := rfl

set_option maxRecDepth 100000 in
/-- C11, counterexample: at working word 0 and schedule word 0 the final stage of
`transform` writes the bytes `X1[0], X2[0], S1[0], S2[0] = 52 30 63 e2`, while the table
ordering of the odd round function `ARIA_F1` would give `S1[0], S2[0], X1[0], X2[0] =
63 e2 52 30`. -/
theorem C11_counterexample :
    final_word 0 0 = [0x52, 0x30, 0x63, 0xe2] ∧
      final_with table_F1 0 0 = [0x63, 0xe2, 0x52, 0x30] ∧
      final_word 0 0 ≠ final_with table_F1 0 0 := by decide!

/-- C11, amended: for every schedule of `4 * (R + 1)` words with `R` in {12, 14, 16} the 16
bytes `transform` writes for a block are, for each of the four working words `s_j` left by
the rounds, byte `k` of `s_j` substituted through the table that the even round function
`ARIA_F2` applies to byte `k` (`X1, X2, S1, S2`), XORed with byte `k` of word `j` of the
last schedule group. -/
theorem C11_final_stage_tables (KS inp : List Nat) (i R : Nat)
    (hR : R = 12 ∨ R = 14 ∨ R = 16) (hK : KS.length = 4 * (R + 1))
    (hi : 16 * i + 16 ≤ inp.length) :
    ∃ s : W4,
      s = xor4 (flat_rounds (group KS) (R - 1) 1 (words_at inp (16 * i))) (group KS (R - 1)) ∧
      transform_block inp i KS =
        some (final_with table_F2 s.1 (KS.getD (4 * R) 0) ++
          final_with table_F2 s.2.1 (KS.getD (4 * R + 1) 0) ++
          final_with table_F2 s.2.2.1 (KS.getD (4 * R + 2) 0) ++
          final_with table_F2 s.2.2.2 (KS.getD (4 * R + 3) 0)) :=
  ⟨_, rfl, transform_block_spec inp i KS R (by omega) (by omega) hK (by omega) hi⟩

/-- Witness of the amended C11 at a schedule of 52 zero words and the block `kat_pt`. -/
theorem C11_final_stage_tables_witness :
    ((12 : Nat) = 12 ∨ (12 : Nat) = 14 ∨ (12 : Nat) = 16) ∧
      (List.replicate 52 0).length = 4 * (12 + 1) ∧ 16 * 0 + 16 ≤ kat_pt.length ∧
      ∃ s : W4,
        s = xor4 (flat_rounds (group (List.replicate 52 0)) (12 - 1) 1 (words_at kat_pt (16 * 0)))
          (group (List.replicate 52 0) (12 - 1)) ∧
        transform_block kat_pt 0 (List.replicate 52 0) =
          some (final_with table_F2 s.1 ((List.replicate 52 0).getD (4 * 12) 0) ++
            final_with table_F2 s.2.1 ((List.replicate 52 0).getD (4 * 12 + 1) 0) ++
            final_with table_F2 s.2.2.1 ((List.replicate 52 0).getD (4 * 12 + 2) 0) ++
            final_with table_F2 s.2.2.2 ((List.replicate 52 0).getD (4 * 12 + 3) 0)) :=
  ⟨by decide, by decide, by decide,
    C11_final_stage_tables (List.replicate 52 0) kat_pt 0 12 (by decide) (by decide) (by decide)⟩

/-- C12: with `A` the map of `aria_ks_dk_transform`, `ARIA_FO(T) = A(SL1(T))` and
`ARIA_FE(T) = A(SL2(T))` for every input `T`, where `SL1` substitutes the bytes of each word
through `S1, S2, X1, X2` and `SL2` through `X1, X2, S1, S2`; and `A` is linear over XOR on
32-bit words. -/
theorem C12_shared_linear_layer (T0 T1 T2 T3 : Nat) (a b : W4) (ha : valid4 a)
    (hb : valid4 b) :
    ARIA_FO T0 T1 T2 T3 = aria_ks_dk_transform (sl1 T0) (sl1 T1) (sl1 T2) (sl1 T3) ∧
      ARIA_FE T0 T1 T2 T3 = aria_ks_dk_transform (sl2 T0) (sl2 T1) (sl2 T2) (sl2 T3) ∧
      A4 (xor4 a b) = xor4 (A4 a) (A4 b) :=
  ⟨FO4_eq (T0, T1, T2, T3), FE4_eq (T0, T1, T2, T3), A4_xor4 ha hb⟩

/-- Witness of C12 at concrete words. -/
theorem C12_shared_linear_layer_witness :
    valid4 (1, 2, 3, 4) ∧ valid4 (5, 6, 7, 8) ∧
      ARIA_FO 9 10 11 12 = aria_ks_dk_transform (sl1 9) (sl1 10) (sl1 11) (sl1 12) ∧
      ARIA_FE 9 10 11 12 = aria_ks_dk_transform (sl2 9) (sl2 10) (sl2 11) (sl2 12) ∧
      A4 (xor4 (1, 2, 3, 4) (5, 6, 7, 8)) = xor4 (A4 (1, 2, 3, 4)) (A4 (5, 6, 7, 8)) :=
  ⟨by decide, by decide,
    C12_shared_linear_layer 9 10 11 12 (1, 2, 3, 4) (5, 6, 7, 8) (by decide) (by decide)⟩

/-- C13: for every four 32-bit words, applying `aria_ks_dk_transform` twice returns them. -/
theorem C13_dk_transform_involution (K0 K1 K2 K3 : Nat) (h0 : K0 < 2 ^ 32) (h1 : K1 < 2 ^ 32)
    (h2 : K2 < 2 ^ 32) (h3 : K3 < 2 ^ 32) :
    aria_ks_dk_transform (aria_ks_dk_transform K0 K1 K2 K3).1
      (aria_ks_dk_transform K0 K1 K2 K3).2.1 (aria_ks_dk_transform K0 K1 K2 K3).2.2.1
      (aria_ks_dk_transform K0 K1 K2 K3).2.2.2 = (K0, K1, K2, K3) :=
  A4_A4 (a := (K0, K1, K2, K3)) ⟨h0, h1, h2, h3⟩

/-- Witness of C13 at the first row of `KRK`. -/
theorem C13_dk_transform_involution_witness :
    (0x517cc1b7 : Nat) < 2 ^ 32 ∧ (0x27220a94 : Nat) < 2 ^ 32 ∧ (0xfe13abe8 : Nat) < 2 ^ 32 ∧
      (0xfa9a6ee0 : Nat) < 2 ^ 32 ∧
      aria_ks_dk_transform
        (aria_ks_dk_transform 0x517cc1b7 0x27220a94 0xfe13abe8 0xfa9a6ee0).1
        (aria_ks_dk_transform 0x517cc1b7 0x27220a94 0xfe13abe8 0xfa9a6ee0).2.1
        (aria_ks_dk_transform 0x517cc1b7 0x27220a94 0xfe13abe8 0xfa9a6ee0).2.2.1
        (aria_ks_dk_transform 0x517cc1b7 0x27220a94 0xfe13abe8 0xfa9a6ee0).2.2.2 =
        (0x517cc1b7, 0x27220a94, 0xfe13abe8, 0xfa9a6ee0) :=
  ⟨by decide, by decide, by decide, by decide,
    C13_dk_transform_involution 0x517cc1b7 0x27220a94 0xfe13abe8 0xfa9a6ee0 (by decide)
      (by decide) (by decide) (by decide)⟩

theorem perm_of_inverse {S X : List Nat} (h : S.map (sub X) = List.range 256)
    (hb : S.all (fun x => decide (x < 256)) = true) : S.Perm (List.range 256) := by
  have hl : S.length = 256 := by
    have := congrArg List.length h
    simpa using this
  have hn : S.Nodup := by
    have : (S.map (sub X)).Nodup := by rw [h]; exact List.nodup_range 256
    exact List.Nodup.of_map _ this
  have hs : S ⊆ List.range 256 := by
    intro x hx
    have := List.all_eq_true.mp hb x hx
    exact List.mem_range.mpr (by simpa using this)
  exact (List.subperm_of_subset hn hs).perm_of_length_le (by simp [hl])

/-- C14: each of `S1, S2, X1, X2` is a permutation of the byte values `0 .. 255`, and for
every byte `b`: `X1[S1[b]] = b`, `S1[X1[b]] = b`, `X2[S2[b]] = b`, `S2[X2[b]] = b`. -/
theorem C14_tables_inverse_pairs (b : Nat) (hb : b < 256) :
    S1.Perm (List.range 256) ∧ S2.Perm (List.range 256) ∧ X1.Perm (List.range 256) ∧
      X2.Perm (List.range 256) ∧
      sub X1 (sub S1 b) = b ∧ sub S1 (sub X1 b) = b ∧ sub X2 (sub S2 b) = b ∧
      sub S2 (sub X2 b) = b :=
  ⟨perm_of_inverse X1_S1_all S1_bytes, perm_of_inverse X2_S2_all S2_bytes,
    perm_of_inverse S1_X1_all X1_bytes, perm_of_inverse S2_X2_all X2_bytes,
    X1_S1 hb, S1_X1 hb, X2_S2 hb, S2_X2 hb⟩

/-- Witness of C14 at the byte `0xa5`. -/
theorem C14_tables_inverse_pairs_witness :
    (0xa5 : Nat) < 256 ∧
      S1.Perm (List.range 256) ∧ S2.Perm (List.range 256) ∧ X1.Perm (List.range 256) ∧
      X2.Perm (List.range 256) ∧
      sub X1 (sub S1 0xa5) = 0xa5 ∧ sub S1 (sub X1 0xa5) = 0xa5 ∧ sub X2 (sub S2 0xa5) = 0xa5 ∧
      sub S2 (sub X2 0xa5) = 0xa5 :=
  ⟨by decide, C14_tables_inverse_pairs 0xa5 (by decide)⟩

theorem div_mod_of_eq {V Q r m : Nat} (h : V = Q * m + r) (hr : r < m) :
    V / m = Q ∧ V % m = r := by
  have hm : 0 < m := by omega
  subst h
  constructor
  · rw [Nat.add_comm, Nat.add_mul_div_right _ _ hm, Nat.div_eq_of_lt hr, Nat.zero_add]
  · rw [Nat.add_comm, Nat.add_mul_mod_self_right, Nat.mod_eq_of_lt hr]

theorem of128_words (a b c d : Nat) (ha : a < 2 ^ 32) (hb : b < 2 ^ 32) (hc : c < 2 ^ 32)
    (hd : d < 2 ^ 32) :
    of128 (a * 2 ^ 96 + b * 2 ^ 64 + c * 2 ^ 32 + d) = (a, b, c, d) := by
  have h0 := div_mod_of_eq (V := a * 2 ^ 96 + b * 2 ^ 64 + c * 2 ^ 32 + d) (Q := a)
    (r := b * 2 ^ 64 + c * 2 ^ 32 + d) (m := 2 ^ 96) (by omega) (by omega)
  have h1 := div_mod_of_eq (V := a * 2 ^ 96 + b * 2 ^ 64 + c * 2 ^ 32 + d) (Q := a * 2 ^ 32 + b)
    (r := c * 2 ^ 32 + d) (m := 2 ^ 64) (by omega) (by omega)
  have h2 := div_mod_of_eq (V := a * 2 ^ 96 + b * 2 ^ 64 + c * 2 ^ 32 + d)
    (Q := a * 2 ^ 64 + b * 2 ^ 32 + c) (r := d) (m := 2 ^ 32) (by omega) (by omega)
  unfold of128
  rw [h0.1, h1.1, h2.1, h2.2]
  have e1 : (a * 2 ^ 32 + b) % 2 ^ 32 = b := by omega
  have e2 : (a * 2 ^ 64 + b * 2 ^ 32 + c) % 2 ^ 32 = c := by omega
  rw [Nat.mod_eq_of_lt ha, e1, e2]

theorem rol_word (a b R : Nat) (h0 : 0 < R) (h1 : R < 32) (ha : a < 2 ^ 32) :
    (a >>> R) ^^^ ((b <<< (32 - R)) % 2 ^ 32) = a / 2 ^ R + (b % 2 ^ R) * 2 ^ (32 - R) := by
  have hp : 2 ^ 32 = 2 ^ R * 2 ^ (32 - R) := by
    rw [← Nat.pow_add]; congr 1; omega
  have hlo : a / 2 ^ R < 2 ^ (32 - R) := by
    rw [Nat.div_lt_iff_lt_mul (Nat.two_pow_pos R), Nat.mul_comm, ← hp]; exact ha
  have hhi : (b <<< (32 - R)) % 2 ^ 32 = 2 ^ (32 - R) * (b % 2 ^ R) := by
    rw [Nat.shiftLeft_eq, hp, Nat.mul_mod_mul_right, Nat.mul_comm]
  rw [Nat.shiftRight_eq_div_pow, hhi]
  have := xor_concat (32 - R) 0 (a / 2 ^ R) (b % 2 ^ R) 0 hlo (Nat.two_pow_pos _)
  simp only [Nat.mul_zero, Nat.zero_add, Nat.add_zero, Nat.zero_xor, Nat.xor_zero] at this
  rw [this, Nat.mul_comm, Nat.add_comm]

theorem rotr128_19 (a b c d : Nat) (ha : a < 2 ^ 32) (hb : b < 2 ^ 32) (hc : c < 2 ^ 32)
    (hd : d < 2 ^ 32) :
    of128 (rotr128 (to128 (a, b, c, d)) 19) =
      (a / 2 ^ 19 + d % 2 ^ 19 * 2 ^ 13,
       b / 2 ^ 19 + a % 2 ^ 19 * 2 ^ 13,
       c / 2 ^ 19 + b % 2 ^ 19 * 2 ^ 13,
       d / 2 ^ 19 + c % 2 ^ 19 * 2 ^ 13) := by
  have hV : a * 2 ^ 96 + b * 2 ^ 64 + c * 2 ^ 32 + d = (a * 2 ^ 77 + b * 2 ^ 45 + c * 2 ^ 13 + d / 2 ^ 19) * 2 ^ 19 + (d % 2 ^ 19) := by omega
  have hr : d % 2 ^ 19 < 2 ^ 19 := by omega
  have hdm := div_mod_of_eq hV hr
  have hT : a * 2 ^ 77 + b * 2 ^ 45 + c * 2 ^ 13 + d / 2 ^ 19 + (d % 2 ^ 19) * 2 ^ 109 =
      (a / 2 ^ 19 + d % 2 ^ 19 * 2 ^ 13) * 2 ^ 96 + (b / 2 ^ 19 + a % 2 ^ 19 * 2 ^ 13) * 2 ^ 64 +
        (c / 2 ^ 19 + b % 2 ^ 19 * 2 ^ 13) * 2 ^ 32 + (d / 2 ^ 19 + c % 2 ^ 19 * 2 ^ 13) := by omega
  have hlt : a * 2 ^ 77 + b * 2 ^ 45 + c * 2 ^ 13 + d / 2 ^ 19 + (d % 2 ^ 19) * 2 ^ 109 < 2 ^ 128 := by omega
  show of128 (((a * 2 ^ 96 + b * 2 ^ 64 + c * 2 ^ 32 + d) / 2 ^ 19 + (a * 2 ^ 96 + b * 2 ^ 64 + c * 2 ^ 32 + d) % 2 ^ 19 * 2 ^ 109) % 2 ^ 128) = _
  rw [hdm.1, hdm.2, Nat.mod_eq_of_lt hlt, hT]
  exact of128_words _ _ _ _ (by omega) (by omega) (by omega) (by omega)

theorem ARIA_ROL128_19 (X Y : W4) (hY : valid4 Y) :
    ARIA_ROL128 19 X Y = xor4 X (of128 (rotr128 (to128 Y) 19)) := by
  obtain ⟨x0, x1, x2, x3⟩ := X
  obtain ⟨a, b, c, d⟩ := Y
  obtain ⟨ha, hb, hc, hd⟩ := hY
  simp only [] at ha hb hc hd
  rw [rotr128_19 a b c d ha hb hc hd]
  have e0 := rol_word a d 19 (by decide) (by decide) ha
  have e1 := rol_word b a 19 (by decide) (by decide) hb
  have e2 := rol_word c b 19 (by decide) (by decide) hc
  have e3 := rol_word d c 19 (by decide) (by decide) hd
  simp only [Nat.reduceSub] at e0 e1 e2 e3
  simp only [ARIA_ROL128, at4, xor4, Nat.reduceMod, Nat.reduceDiv, Nat.reduceSub, Nat.reduceAdd,
    Nat.xor_assoc, e0, e1, e2, e3]

theorem rotr128_31 (a b c d : Nat) (ha : a < 2 ^ 32) (hb : b < 2 ^ 32) (hc : c < 2 ^ 32)
    (hd : d < 2 ^ 32) :
    of128 (rotr128 (to128 (a, b, c, d)) 31) =
      (a / 2 ^ 31 + d % 2 ^ 31 * 2 ^ 1,
       b / 2 ^ 31 + a % 2 ^ 31 * 2 ^ 1,
       c / 2 ^ 31 + b % 2 ^ 31 * 2 ^ 1,
       d / 2 ^ 31 + c % 2 ^ 31 * 2 ^ 1) := by
  have hV : a * 2 ^ 96 + b * 2 ^ 64 + c * 2 ^ 32 + d = (a * 2 ^ 65 + b * 2 ^ 33 + c * 2 ^ 1 + d / 2 ^ 31) * 2 ^ 31 + (d % 2 ^ 31) := by omega
  have hr : d % 2 ^ 31 < 2 ^ 31 := by omega
  have hdm := div_mod_of_eq hV hr
  have hT : a * 2 ^ 65 + b * 2 ^ 33 + c * 2 ^ 1 + d / 2 ^ 31 + (d % 2 ^ 31) * 2 ^ 97 =
      (a / 2 ^ 31 + d % 2 ^ 31 * 2 ^ 1) * 2 ^ 96 + (b / 2 ^ 31 + a % 2 ^ 31 * 2 ^ 1) * 2 ^ 64 +
        (c / 2 ^ 31 + b % 2 ^ 31 * 2 ^ 1) * 2 ^ 32 + (d / 2 ^ 31 + c % 2 ^ 31 * 2 ^ 1) := by omega
  have hlt : a * 2 ^ 65 + b * 2 ^ 33 + c * 2 ^ 1 + d / 2 ^ 31 + (d % 2 ^ 31) * 2 ^ 97 < 2 ^ 128 := by omega
  show of128 (((a * 2 ^ 96 + b * 2 ^ 64 + c * 2 ^ 32 + d) / 2 ^ 31 + (a * 2 ^ 96 + b * 2 ^ 64 + c * 2 ^ 32 + d) % 2 ^ 31 * 2 ^ 97) % 2 ^ 128) = _
  rw [hdm.1, hdm.2, Nat.mod_eq_of_lt hlt, hT]
  exact of128_words _ _ _ _ (by omega) (by omega) (by omega) (by omega)

theorem ARIA_ROL128_31 (X Y : W4) (hY : valid4 Y) :
    ARIA_ROL128 31 X Y = xor4 X (of128 (rotr128 (to128 Y) 31)) := by
  obtain ⟨x0, x1, x2, x3⟩ := X
  obtain ⟨a, b, c, d⟩ := Y
  obtain ⟨ha, hb, hc, hd⟩ := hY
  simp only [] at ha hb hc hd
  rw [rotr128_31 a b c d ha hb hc hd]
  have e0 := rol_word a d 31 (by decide) (by decide) ha
  have e1 := rol_word b a 31 (by decide) (by decide) hb
  have e2 := rol_word c b 31 (by decide) (by decide) hc
  have e3 := rol_word d c 31 (by decide) (by decide) hd
  simp only [Nat.reduceSub] at e0 e1 e2 e3
  simp only [ARIA_ROL128, at4, xor4, Nat.reduceMod, Nat.reduceDiv, Nat.reduceSub, Nat.reduceAdd,
    Nat.xor_assoc, e0, e1, e2, e3]

theorem rotr128_67 (a b c d : Nat) (ha : a < 2 ^ 32) (hb : b < 2 ^ 32) (hc : c < 2 ^ 32)
    (hd : d < 2 ^ 32) :
    of128 (rotr128 (to128 (a, b, c, d)) 67) =
      (c / 2 ^ 3 + b % 2 ^ 3 * 2 ^ 29,
       d / 2 ^ 3 + c % 2 ^ 3 * 2 ^ 29,
       a / 2 ^ 3 + d % 2 ^ 3 * 2 ^ 29,
       b / 2 ^ 3 + a % 2 ^ 3 * 2 ^ 29) := by
  have hV : a * 2 ^ 96 + b * 2 ^ 64 + c * 2 ^ 32 + d = (a * 2 ^ 29 + b / 2 ^ 3) * 2 ^ 67 + (b % 2 ^ 3 * 2 ^ 64 + c * 2 ^ 32 + d) := by omega
  have hr : b % 2 ^ 3 * 2 ^ 64 + c * 2 ^ 32 + d < 2 ^ 67 := by omega
  have hdm := div_mod_of_eq hV hr
  have hT : a * 2 ^ 29 + b / 2 ^ 3 + (b % 2 ^ 3 * 2 ^ 64 + c * 2 ^ 32 + d) * 2 ^ 61 =
      (c / 2 ^ 3 + b % 2 ^ 3 * 2 ^ 29) * 2 ^ 96 + (d / 2 ^ 3 + c % 2 ^ 3 * 2 ^ 29) * 2 ^ 64 +
        (a / 2 ^ 3 + d % 2 ^ 3 * 2 ^ 29) * 2 ^ 32 + (b / 2 ^ 3 + a % 2 ^ 3 * 2 ^ 29) := by omega
  have hlt : a * 2 ^ 29 + b / 2 ^ 3 + (b % 2 ^ 3 * 2 ^ 64 + c * 2 ^ 32 + d) * 2 ^ 61 < 2 ^ 128 := by omega
  show of128 (((a * 2 ^ 96 + b * 2 ^ 64 + c * 2 ^ 32 + d) / 2 ^ 67 + (a * 2 ^ 96 + b * 2 ^ 64 + c * 2 ^ 32 + d) % 2 ^ 67 * 2 ^ 61) % 2 ^ 128) = _
  rw [hdm.1, hdm.2, Nat.mod_eq_of_lt hlt, hT]
  exact of128_words _ _ _ _ (by omega) (by omega) (by omega) (by omega)

theorem ARIA_ROL128_67 (X Y : W4) (hY : valid4 Y) :
    ARIA_ROL128 67 X Y = xor4 X (of128 (rotr128 (to128 Y) 67)) := by
  obtain ⟨x0, x1, x2, x3⟩ := X
  obtain ⟨a, b, c, d⟩ := Y
  obtain ⟨ha, hb, hc, hd⟩ := hY
  simp only [] at ha hb hc hd
  rw [rotr128_67 a b c d ha hb hc hd]
  have e0 := rol_word c b 3 (by decide) (by decide) hc
  have e1 := rol_word d c 3 (by decide) (by decide) hd
  have e2 := rol_word a d 3 (by decide) (by decide) ha
  have e3 := rol_word b a 3 (by decide) (by decide) hb
  simp only [Nat.reduceSub] at e0 e1 e2 e3
  simp only [ARIA_ROL128, at4, xor4, Nat.reduceMod, Nat.reduceDiv, Nat.reduceSub, Nat.reduceAdd,
    Nat.xor_assoc, e0, e1, e2, e3]

theorem rotr128_97 (a b c d : Nat) (ha : a < 2 ^ 32) (hb : b < 2 ^ 32) (hc : c < 2 ^ 32)
    (hd : d < 2 ^ 32) :
    of128 (rotr128 (to128 (a, b, c, d)) 97) =
      (b / 2 ^ 1 + a % 2 ^ 1 * 2 ^ 31,
       c / 2 ^ 1 + b % 2 ^ 1 * 2 ^ 31,
       d / 2 ^ 1 + c % 2 ^ 1 * 2 ^ 31,
       a / 2 ^ 1 + d % 2 ^ 1 * 2 ^ 31) := by
  have hV : a * 2 ^ 96 + b * 2 ^ 64 + c * 2 ^ 32 + d = (a / 2 ^ 1) * 2 ^ 97 + (a % 2 ^ 1 * 2 ^ 96 + b * 2 ^ 64 + c * 2 ^ 32 + d) := by omega
  have hr : a % 2 ^ 1 * 2 ^ 96 + b * 2 ^ 64 + c * 2 ^ 32 + d < 2 ^ 97 := by omega
  have hdm := div_mod_of_eq hV hr
  have hT : a / 2 ^ 1 + (a % 2 ^ 1 * 2 ^ 96 + b * 2 ^ 64 + c * 2 ^ 32 + d) * 2 ^ 31 =
      (b / 2 ^ 1 + a % 2 ^ 1 * 2 ^ 31) * 2 ^ 96 + (c / 2 ^ 1 + b % 2 ^ 1 * 2 ^ 31) * 2 ^ 64 +
        (d / 2 ^ 1 + c % 2 ^ 1 * 2 ^ 31) * 2 ^ 32 + (a / 2 ^ 1 + d % 2 ^ 1 * 2 ^ 31) := by omega
  have hlt : a / 2 ^ 1 + (a % 2 ^ 1 * 2 ^ 96 + b * 2 ^ 64 + c * 2 ^ 32 + d) * 2 ^ 31 < 2 ^ 128 := by omega
  show of128 (((a * 2 ^ 96 + b * 2 ^ 64 + c * 2 ^ 32 + d) / 2 ^ 97 + (a * 2 ^ 96 + b * 2 ^ 64 + c * 2 ^ 32 + d) % 2 ^ 97 * 2 ^ 31) % 2 ^ 128) = _
  rw [hdm.1, hdm.2, Nat.mod_eq_of_lt hlt, hT]
  exact of128_words _ _ _ _ (by omega) (by omega) (by omega) (by omega)

theorem ARIA_ROL128_97 (X Y : W4) (hY : valid4 Y) :
    ARIA_ROL128 97 X Y = xor4 X (of128 (rotr128 (to128 Y) 97)) := by
  obtain ⟨x0, x1, x2, x3⟩ := X
  obtain ⟨a, b, c, d⟩ := Y
  obtain ⟨ha, hb, hc, hd⟩ := hY
  simp only [] at ha hb hc hd
  rw [rotr128_97 a b c d ha hb hc hd]
  have e0 := rol_word b a 1 (by decide) (by decide) hb
  have e1 := rol_word c b 1 (by decide) (by decide) hc
  have e2 := rol_word d c 1 (by decide) (by decide) hd
  have e3 := rol_word a d 1 (by decide) (by decide) ha
  simp only [Nat.reduceSub] at e0 e1 e2 e3
  simp only [ARIA_ROL128, at4, xor4, Nat.reduceMod, Nat.reduceDiv, Nat.reduceSub, Nat.reduceAdd,
    Nat.xor_assoc, e0, e1, e2, e3]

theorem rotr128_109 (a b c d : Nat) (ha : a < 2 ^ 32) (hb : b < 2 ^ 32) (hc : c < 2 ^ 32)
    (hd : d < 2 ^ 32) :
    of128 (rotr128 (to128 (a, b, c, d)) 109) =
      (b / 2 ^ 13 + a % 2 ^ 13 * 2 ^ 19,
       c / 2 ^ 13 + b % 2 ^ 13 * 2 ^ 19,
       d / 2 ^ 13 + c % 2 ^ 13 * 2 ^ 19,
       a / 2 ^ 13 + d % 2 ^ 13 * 2 ^ 19) := by
  have hV : a * 2 ^ 96 + b * 2 ^ 64 + c * 2 ^ 32 + d = (a / 2 ^ 13) * 2 ^ 109 + (a % 2 ^ 13 * 2 ^ 96 + b * 2 ^ 64 + c * 2 ^ 32 + d) := by omega
  have hr : a % 2 ^ 13 * 2 ^ 96 + b * 2 ^ 64 + c * 2 ^ 32 + d < 2 ^ 109 := by omega
  have hdm := div_mod_of_eq hV hr
  have hT : a / 2 ^ 13 + (a % 2 ^ 13 * 2 ^ 96 + b * 2 ^ 64 + c * 2 ^ 32 + d) * 2 ^ 19 =
      (b / 2 ^ 13 + a % 2 ^ 13 * 2 ^ 19) * 2 ^ 96 + (c / 2 ^ 13 + b % 2 ^ 13 * 2 ^ 19) * 2 ^ 64 +
        (d / 2 ^ 13 + c % 2 ^ 13 * 2 ^ 19) * 2 ^ 32 + (a / 2 ^ 13 + d % 2 ^ 13 * 2 ^ 19) := by omega
  have hlt : a / 2 ^ 13 + (a % 2 ^ 13 * 2 ^ 96 + b * 2 ^ 64 + c * 2 ^ 32 + d) * 2 ^ 19 < 2 ^ 128 := by omega
  show of128 (((a * 2 ^ 96 + b * 2 ^ 64 + c * 2 ^ 32 + d) / 2 ^ 109 + (a * 2 ^ 96 + b * 2 ^ 64 + c * 2 ^ 32 + d) % 2 ^ 109 * 2 ^ 19) % 2 ^ 128) = _
  rw [hdm.1, hdm.2, Nat.mod_eq_of_lt hlt, hT]
  exact of128_words _ _ _ _ (by omega) (by omega) (by omega) (by omega)

theorem ARIA_ROL128_109 (X Y : W4) (hY : valid4 Y) :
    ARIA_ROL128 109 X Y = xor4 X (of128 (rotr128 (to128 Y) 109)) := by
  obtain ⟨x0, x1, x2, x3⟩ := X
  obtain ⟨a, b, c, d⟩ := Y
  obtain ⟨ha, hb, hc, hd⟩ := hY
  simp only [] at ha hb hc hd
  rw [rotr128_109 a b c d ha hb hc hd]
  have e0 := rol_word b a 13 (by decide) (by decide) hb
  have e1 := rol_word c b 13 (by decide) (by decide) hc
  have e2 := rol_word d c 13 (by decide) (by decide) hd
  have e3 := rol_word a d 13 (by decide) (by decide) ha
  simp only [Nat.reduceSub] at e0 e1 e2 e3
  simp only [ARIA_ROL128, at4, xor4, Nat.reduceMod, Nat.reduceDiv, Nat.reduceSub, Nat.reduceAdd,
    Nat.xor_assoc, e0, e1, e2, e3]

/-- C15: for every `N` in {19, 31, 67, 97, 109}, every `X` and every four 32-bit words `Y`,
`ARIA_ROL128<N>(X, Y)` is `X` XOR the 128-bit value of `Y` (word 0 most significant) rotated
right by `N` bits. -/
theorem C15_rol128_is_rotate_xor (N : Nat) (X Y : W4)
    (hN : N = 19 ∨ N = 31 ∨ N = 67 ∨ N = 97 ∨ N = 109) (hY : valid4 Y) :
    ARIA_ROL128 N X Y = xor4 X (of128 (rotr128 (to128 Y) N)) := by
  rcases hN with h | h | h | h | h <;> subst h
  · exact ARIA_ROL128_19 X Y hY
  · exact ARIA_ROL128_31 X Y hY
  · exact ARIA_ROL128_67 X Y hY
  · exact ARIA_ROL128_97 X Y hY
  · exact ARIA_ROL128_109 X Y hY

/-- Witness of C15 at `N = 67` and two rows of `KRK`. -/
theorem C15_rol128_is_rotate_xor_witness :
    ((67 : Nat) = 19 ∨ (67 : Nat) = 31 ∨ (67 : Nat) = 67 ∨ (67 : Nat) = 97 ∨ (67 : Nat) = 109) ∧
      valid4 (0x6db14acc, 0x9e21c820, 0xff28b1d5, 0xef5de2b0) ∧
      ARIA_ROL128 67 (0x517cc1b7, 0x27220a94, 0xfe13abe8, 0xfa9a6ee0)
          (0x6db14acc, 0x9e21c820, 0xff28b1d5, 0xef5de2b0) =
        xor4 (0x517cc1b7, 0x27220a94, 0xfe13abe8, 0xfa9a6ee0)
          (of128 (rotr128 (to128 (0x6db14acc, 0x9e21c820, 0xff28b1d5, 0xef5de2b0)) 67)) :=
  ⟨by decide, by decide,
    C15_rol128_is_rotate_xor 67 (0x517cc1b7, 0x27220a94, 0xfe13abe8, 0xfa9a6ee0)
      (0x6db14acc, 0x9e21c820, 0xff28b1d5, 0xef5de2b0) (by decide) (by decide)⟩

theorem group_erk_of (len : Nat) (h : validLen len) (w0 w1 w2 w3 : W4) (g : Nat)
    (hg : g < groups_of len) :
    group (erk_of len w0 w1 w2 w3) g =
      ARIA_ROL128 (rot_amounts.getD (g / 4) 0) (wsel (w0, w1, w2, w3) (g % 4))
        (wsel (w0, w1, w2, w3) ((g + 1) % 4)) := by
  rcases h with h | h | h <;> subst h
  · have e : groups_of 16 = 13 := rfl
    rw [e] at hg
    interval_cases g <;> rfl
  · have e : groups_of 24 = 15 := rfl
    rw [e] at hg
    interval_cases g <;> rfl
  · have e : groups_of 32 = 17 := rfl
    rw [e] at hg
    interval_cases g <;> rfl

/-- C16: for every key of 16, 24 or 32 bytes with generator arrays `w0 .. w3`, the schedule
has 13, 15 or 17 groups and every group `g` of `ERK` is
`ARIA_ROL128<rot[g div 4]>(w[g mod 4], w[(g + 1) mod 4])` with `rot = [19, 31, 67, 97, 109]`. -/
theorem C16_erk_group_structure (E0 D0 K : List Nat) (hK : validLen K.length) :
    ∃ ERK DRK w, key_schedule E0 D0 K = some (ERK, DRK) ∧ key_words K = some w ∧
      ERK.length / 4 = (if K.length = 16 then 13 else if K.length = 24 then 15 else 17) ∧
      ∀ g, g < ERK.length / 4 →
        group ERK g =
          ARIA_ROL128 (rot_amounts.getD (g / 4) 0) (wsel w (g % 4)) (wsel w ((g + 1) % 4)) := by
  have hE := erk_key_length K hK
  have hG : (erk_key K).length / 4 = groups_of K.length := by rw [hE]; omega
  refine ⟨erk_key K, drk_key K, kw K, key_schedule_eq E0 D0 K hK, key_words_eq K hK, ?_, ?_⟩
  · rw [hG]; rfl
  · intro g hg
    rw [hG] at hg
    exact group_erk_of K.length hK _ _ _ _ g hg

/-- Witness of C16 at the 192-bit key `00 01 .. 17`. -/
theorem C16_erk_group_structure_witness :
    validLen (List.range 24).length ∧
    ∃ ERK DRK w, key_schedule [] [] (List.range 24) = some (ERK, DRK) ∧
      key_words (List.range 24) = some w ∧
      ERK.length / 4 = (if (List.range 24).length = 16 then 13
        else if (List.range 24).length = 24 then 15 else 17) ∧
      ∀ g, g < ERK.length / 4 →
        group ERK g =
          ARIA_ROL128 (rot_amounts.getD (g / 4) 0) (wsel w (g % 4)) (wsel w ((g + 1) % 4)) :=
  ⟨by decide, C16_erk_group_structure [] [] (List.range 24) (by decide)⟩

set_option maxRecDepth 100000 in
/-- C17, counterexample: for the 32-byte key `00 01 .. 1f` the encryption schedule has 68
words, that is 17 groups: beyond the 15 groups of a 24-byte key there are two groups, not the
three (one at rotation 97 and two at rotation 109) that the claim counts. -/
theorem C17_counterexample :
    (key_schedule [] [] (List.range 32)).map (fun p => p.1.length) = some 68 ∧
      (key_schedule [] [] (List.range 32)).map (fun p => p.1.length / 4) = some (15 + 2) ∧
      ¬ ((key_schedule [] [] (List.range 32)).map (fun p => p.1.length / 4) =
        some (15 + 1 + 2)) := by decide!

/-- C17, amended: for every 32-byte key the encryption schedule has 17 groups; its first 15
groups follow the same group sequence as for a 24-byte key, and beyond them it gains one
further group at rotation 97 (pair `w3/w0`) followed by one group at rotation 109 (pair
`w0/w1`). -/
theorem C17_groups_for_256_bit_keys (E0 D0 K : List Nat) (hK : K.length = 32) :
    ∃ ERK DRK w, key_schedule E0 D0 K = some (ERK, DRK) ∧ key_words K = some w ∧
      ERK.length = 4 * 17 ∧
      (∀ g, g < 15 → group ERK g = group (erk_of 24 w.1 w.2.1 w.2.2.1 w.2.2.2) g) ∧
      group ERK 15 = ARIA_ROL128 97 w.2.2.2 w.1 ∧
      group ERK 16 = ARIA_ROL128 109 w.1 w.2.1 := by
  have hv : validLen K.length := Or.inr (Or.inr hK)
  refine ⟨erk_key K, drk_key K, kw K, key_schedule_eq E0 D0 K hv, key_words_eq K hv, ?_, ?_, ?_, ?_⟩
  · rw [erk_key_length K hv, hK]; rfl
  · intro g hg
    unfold erk_key
    have e32 : groups_of 32 = 17 := rfl
    have e24 : groups_of 24 = 15 := rfl
    rw [hK, group_erk_of 32 (by decide) _ _ _ _ g (by omega),
      group_erk_of 24 (by decide) _ _ _ _ g (by omega)]
  · unfold erk_key; rw [hK]; rfl
  · unfold erk_key; rw [hK]; rfl

/-- Witness of the amended C17 at the 256-bit key `00 01 .. 1f`. -/
theorem C17_groups_for_256_bit_keys_witness :
    (List.range 32).length = 32 ∧
    ∃ ERK DRK w, key_schedule [] [] (List.range 32) = some (ERK, DRK) ∧
      key_words (List.range 32) = some w ∧
      ERK.length = 4 * 17 ∧
      (∀ g, g < 15 → group ERK g = group (erk_of 24 w.1 w.2.1 w.2.2.1 w.2.2.2) g) ∧
      group ERK 15 = ARIA_ROL128 97 w.2.2.2 w.1 ∧
      group ERK 16 = ARIA_ROL128 109 w.1 w.2.1 :=
  ⟨by decide, C17_groups_for_256_bit_keys [] [] (List.range 32) (by decide)⟩

/-- C18: for every key of length `L` in {16, 24, 32}, with `c = L / 8 - 2`, `W0` the first
16 key bytes as four big-endian words and `KR` the key bytes 16 .. 31 as four big-endian
words with missing bytes taken as zero, `key_schedule` computes `w0 = W0`,
`w1 = ARIA_FO(W0 XOR KRK[c]) XOR KR`, `w2 = ARIA_FE(w1 XOR KRK[(c + 1) mod 3]) XOR W0`,
`w3 = ARIA_FO(w2 XOR KRK[(c + 2) mod 3]) XOR w1`; `c` is 0, 1, 2 respectively, `KR` is all
zero for `L = 16` and has its last two words zero for `L = 24`, and the three rows of `KRK`
used are pairwise distinct. -/
theorem C18_generator_words (K : List Nat) (hK : validLen K.length) :
    ∃ W0 KR k0 k1 k2 w1 w2 w3,
      W0 = (be32 K 0, be32 K 1, be32 K 2, be32 K 3) ∧
      KR = (be32 K 4, be32 K 5, be32 K 6, be32 K 7) ∧
      KRK[K.length / 8 - 2]? = some k0 ∧ KRK[(K.length / 8 - 2 + 1) % 3]? = some k1 ∧
      KRK[(K.length / 8 - 2 + 2) % 3]? = some k2 ∧
      w1 = xor4 (FO4 (xor4 W0 k0)) KR ∧ w2 = xor4 (FE4 (xor4 w1 k1)) W0 ∧
      w3 = xor4 (FO4 (xor4 w2 k2)) w1 ∧
      key_words K = some (W0, w1, w2, w3) ∧
      k0 ≠ k1 ∧ k1 ≠ k2 ∧ k0 ≠ k2 ∧
      (K.length = 16 → K.length / 8 - 2 = 0 ∧ KR = (0, 0, 0, 0)) ∧
      (K.length = 24 → K.length / 8 - 2 = 1 ∧ KR.2.2.1 = 0 ∧ KR.2.2.2 = 0) ∧
      (K.length = 32 → K.length / 8 - 2 = 2) := by
  have hkw := key_words_eq K hK
  rcases hK with h | h | h
  · refine ⟨_, _, KRK.getD 0 (0, 0, 0, 0), KRK.getD 1 (0, 0, 0, 0), KRK.getD 2 (0, 0, 0, 0),
      _, _, _, rfl, rfl, (by rw [h]; rfl), (by rw [h]; rfl), (by rw [h]; rfl), rfl, rfl, rfl, ?_,
      by decide, by decide, by decide, ?_, ?_, ?_⟩
    · rw [hkw]; unfold kw; rw [h]
    · intro _
      refine ⟨by rw [h], ?_⟩
      rw [be32_zero (b := K) (i := 4) (by omega), be32_zero (b := K) (i := 5) (by omega),
        be32_zero (b := K) (i := 6) (by omega), be32_zero (b := K) (i := 7) (by omega)]
    · intro h'; omega
    · intro h'; omega
  · refine ⟨_, _, KRK.getD 1 (0, 0, 0, 0), KRK.getD 2 (0, 0, 0, 0), KRK.getD 0 (0, 0, 0, 0),
      _, _, _, rfl, rfl, (by rw [h]; rfl), (by rw [h]; rfl), (by rw [h]; rfl), rfl, rfl, rfl, ?_,
      by decide, by decide, by decide, ?_, ?_, ?_⟩
    · rw [hkw]; unfold kw; rw [h]
    · intro h'; omega
    · intro _
      exact ⟨by rw [h], be32_zero (b := K) (i := 6) (by omega),
        be32_zero (b := K) (i := 7) (by omega)⟩
    · intro h'; omega
  · refine ⟨_, _, KRK.getD 2 (0, 0, 0, 0), KRK.getD 0 (0, 0, 0, 0), KRK.getD 1 (0, 0, 0, 0),
      _, _, _, rfl, rfl, (by rw [h]; rfl), (by rw [h]; rfl), (by rw [h]; rfl), rfl, rfl, rfl, ?_,
      by decide, by decide, by decide, ?_, ?_, ?_⟩
    · rw [hkw]; unfold kw; rw [h]
    · intro h'; omega
    · intro h'; omega
    · intro _; rw [h]

/-- Witness of C18 at the 192-bit key `00 01 .. 17`. -/
theorem C18_generator_words_witness :
    validLen (List.range 24).length ∧
    ∃ W0 KR k0 k1 k2 w1 w2 w3,
      W0 = (be32 (List.range 24) 0, be32 (List.range 24) 1, be32 (List.range 24) 2, be32 (List.range 24) 3) ∧
      KR = (be32 (List.range 24) 4, be32 (List.range 24) 5, be32 (List.range 24) 6, be32 (List.range 24) 7) ∧
      KRK[(List.range 24).length / 8 - 2]? = some k0 ∧ KRK[((List.range 24).length / 8 - 2 + 1) % 3]? = some k1 ∧
      KRK[((List.range 24).length / 8 - 2 + 2) % 3]? = some k2 ∧
      w1 = xor4 (FO4 (xor4 W0 k0)) KR ∧ w2 = xor4 (FE4 (xor4 w1 k1)) W0 ∧
      w3 = xor4 (FO4 (xor4 w2 k2)) w1 ∧
      key_words (List.range 24) = some (W0, w1, w2, w3) ∧
      k0 ≠ k1 ∧ k1 ≠ k2 ∧ k0 ≠ k2 ∧
      ((List.range 24).length = 16 → (List.range 24).length / 8 - 2 = 0 ∧ KR = (0, 0, 0, 0)) ∧
      ((List.range 24).length = 24 → (List.range 24).length / 8 - 2 = 1 ∧ KR.2.2.1 = 0 ∧ KR.2.2.2 = 0) ∧
      ((List.range 24).length = 32 → (List.range 24).length / 8 - 2 = 2) :=
  ⟨by decide, C18_generator_words (List.range 24) (by decide)⟩

theorem group_oob {KS : List Nat} {i : Nat} (h : KS.length ≤ 4 * i) :
    group KS i = (0, 0, 0, 0) := by
  unfold group
  rw [List.getD_eq_default _ _ (by omega), List.getD_eq_default _ _ (by omega),
    List.getD_eq_default _ _ (by omega), List.getD_eq_default _ _ (by omega)]

theorem drk_of_group_valid (ERK : List Nat) (G : Nat) (hw : isWords ERK) (h2 : 2 ≤ G) :
    ∀ i, valid4 (group (drk_of ERK G) i) := by
  intro i
  by_cases h0 : i = 0
  · subst h0; rw [group_drk_of_first _ _ h2]; exact group_valid hw _
  · by_cases h1 : i < G - 1
    · rw [group_drk_of_mid _ _ _ (by omega) h1]; exact A4_valid _
    · by_cases h3 : i = G - 1
      · subst h3; rw [group_drk_of_last _ _ h2]; exact group_valid hw _
      · rw [group_oob (by rw [drk_of_length _ _ h2]; omega)]; decide

/-- Encrypting with `ERK` undoes decrypting with the schedule derived from `ERK`. -/
theorem transform_round_trip_rev (ERK : List Nat) (G : Nat) (hG : G % 2 = 1) (h3 : 3 ≤ G)
    (hb : G < 2 ^ 62) (hE : ERK.length = 4 * G) (hw : isWords ERK) (C : List Nat) (N : Nat)
    (hC : C.length = 16 * N) (hCb : isBytes C) :
    ∃ P, transform C N (drk_of ERK G) = some P ∧ P.length = 16 * N ∧
      transform P N ERK = some C := by
  have gE : goodKS ERK (G - 1) := ⟨by omega, by omega, by omega, by omega⟩
  have gD : goodKS (drk_of ERK G) (G - 1) :=
    ⟨by omega, by omega, by rw [drk_of_length _ _ (by omega)]; omega, by omega⟩
  have he : ∀ i, valid4 (group ERK i) := group_valid hw
  have hd : ∀ i, valid4 (group (drk_of ERK G) i) := drk_of_group_valid ERK G hw (by omega)
  have h0 : group (drk_of ERK G) 0 = group ERK (G - 1) := group_drk_of_first _ _ (by omega)
  have hl : group (drk_of ERK G) (G - 1) = group ERK 0 := group_drk_of_last _ _ (by omega)
  have hm : ∀ j, 0 < j → j < G - 1 →
      group ERK j = A4 (group (drk_of ERK G) (G - 1 - j)) := by
    intro j hj0 hj
    rw [group_drk_of_mid _ _ _ (by omega) (by omega), A4_A4 (he _)]
    congr 1; omega
  refine ⟨enc_buf (group (drk_of ERK G)) (G - 1) C N, ?_, enc_buf_length _ _ _ _, ?_⟩
  · rw [transform_spec gD N C (by omega), flat_buf_eq_enc_buf _ _ (hd _)]
  · rw [transform_spec gE N _ (by rw [enc_buf_length]), flat_buf_eq_enc_buf _ _ (he _),
      dec_enc_buf (group (drk_of ERK G)) (group ERK) (G - 1) (by omega) (by omega) hd hl.symm
        h0.symm hm N C hC hCb]

/-- C19: for every key of 16, 24 or 32 bytes, with `(ERK, DRK)` the schedules that
`key_schedule` derives, `transform` under `DRK` succeeds on every buffer `C` of `N` blocks
and `transform` under `ERK` maps the result back to `C`. -/
theorem C19_inverse_round_trip (E0 D0 K C : List Nat) (N : Nat) (hK : validLen K.length)
    (hKb : isBytes K) (hC : C.length = 16 * N) (hCb : isBytes C) :
    ∃ ERK DRK P, key_schedule E0 D0 K = some (ERK, DRK) ∧ transform C N DRK = some P ∧
      transform P N ERK = some C := by
  obtain ⟨hodd, h3, hb⟩ := groups_of_odd K.length
  obtain ⟨P, hP, _, hE⟩ := transform_round_trip_rev (erk_key K) (groups_of K.length) hodd h3 hb
    (erk_key_length K hK) (erk_key_isWords K hKb) C N hC hCb
  exact ⟨erk_key K, drk_key K, P, key_schedule_eq E0 D0 K hK, hP, hE⟩

/-- Witness of C19 at the 256-bit key `00 01 .. 1f` and the one-block buffer `kat_ct256`. -/
theorem C19_inverse_round_trip_witness :
    validLen (List.range 32).length ∧ isBytes (List.range 32) ∧ kat_ct256.length = 16 * 1 ∧
      isBytes kat_ct256 ∧
      ∃ ERK DRK P, key_schedule [] [] (List.range 32) = some (ERK, DRK) ∧
        transform kat_ct256 1 DRK = some P ∧ transform P 1 ERK = some kat_ct256 :=
  ⟨by decide, by decide, by decide, by decide,
    C19_inverse_round_trip [] [] (List.range 32) kat_ct256 1 (by decide) (by decide) (by decide)
      (by decide)⟩

end ARIA_F

namespace ARIA

theorem key_schedule_valid (s : State) (key : List Nat) (h : ARIA_F.validLen key.length) :
    key_schedule s key =
      ({ m_ERK := ARIA_F.erk_key key, m_DRK := ARIA_F.drk_key key }, .done) := by
  unfold key_schedule
  rw [ARIA_F.key_schedule_eq s.m_ERK s.m_DRK key h]

theorem sizesOk_step (s : State) (o : Op) (ho : opOk o = true) : sizesOk (step s o) := by
  cases o with
  | clear => exact ⟨rfl, Or.inl rfl⟩
  | rekey key =>
    have hv : ARIA_F.validLen key.length := by simpa [opOk] using ho
    have hE := ARIA_F.erk_key_length key hv
    have hD : (ARIA_F.drk_key key).length = 4 * ARIA_F.groups_of key.length :=
      ARIA_F.drk_of_length _ _ (ARIA_F.groups_of_bounds _).1
    show sizesOk (key_schedule s key).1
    rw [key_schedule_valid s key hv]
    refine ⟨by rw [hE, hD], ?_⟩
    show (ARIA_F.erk_key key).length = 0 ∨ _
    rw [hE]
    rcases hv with h | h | h <;> rw [h] <;> simp [ARIA_F.groups_of]

theorem sizesOk_run (ops : List Op) :
    ∀ s, sizesOk s → (∀ o ∈ ops, opOk o = true) → sizesOk (run s ops) := by
  induction ops with
  | nil => intro s hs _; exact hs
  | cons o ops ih =>
    intro s _ h
    exact ih (step s o) (sizesOk_step s o (h o (List.mem_cons_self _ _)))
      (fun o' ho' => h o' (List.mem_cons_of_mem _ ho'))

/-- C20: in every state reached from the fresh instance by `key_schedule` calls with keys of
16, 24 or 32 bytes and `clear()` calls, `m_ERK` and `m_DRK` have the same size, which is 0,
52, 60 or 68; `has_keying_material()` is true exactly when `m_DRK` is a full schedule, and
then `m_DRK` is not empty. -/
theorem C20_schedule_pair_invariant (ops : List Op) (h : ∀ o ∈ ops, opOk o = true) :
    (run fresh ops).m_ERK.length = (run fresh ops).m_DRK.length ∧
      ((run fresh ops).m_ERK.length = 0 ∨ (run fresh ops).m_ERK.length = 52 ∨
        (run fresh ops).m_ERK.length = 60 ∨ (run fresh ops).m_ERK.length = 68) ∧
      (has_keying_material (run fresh ops) = true ↔
        ((run fresh ops).m_DRK.length = 52 ∨ (run fresh ops).m_DRK.length = 60 ∨
          (run fresh ops).m_DRK.length = 68)) ∧
      (has_keying_material (run fresh ops) = true → (run fresh ops).m_DRK ≠ []) := by
  have hs := sizesOk_run ops fresh ⟨rfl, Or.inl rfl⟩ h
  generalize run fresh ops = s at hs
  obtain ⟨E, D⟩ := s
  obtain ⟨h1, h2⟩ := hs
  simp only [] at h1 h2
  have hk : has_keying_material { m_ERK := E, m_DRK := D } = true ↔ E.length ≠ 0 := by
    cases E <;> simp [has_keying_material]
  refine ⟨h1, h2, ?_, ?_⟩
  · rw [hk]; show _ ↔ (D.length = 52 ∨ D.length = 60 ∨ D.length = 68); omega
  · rw [hk]; intro hne hD
    have hD' : D = [] := hD
    rw [hD'] at h1
    exact hne h1

/-- Witness of C20: key with 16 bytes, clear, key with 32 bytes. -/
theorem C20_schedule_pair_invariant_witness :
    (∀ o ∈ [Op.rekey (List.range 16), Op.clear, Op.rekey (List.range 32)], opOk o = true) ∧
      (run fresh [Op.rekey (List.range 16), Op.clear, Op.rekey (List.range 32)]).m_ERK.length =
        (run fresh [Op.rekey (List.range 16), Op.clear, Op.rekey (List.range 32)]).m_DRK.length :=
  ⟨by decide,
    (C20_schedule_pair_invariant [Op.rekey (List.range 16), Op.clear, Op.rekey (List.range 32)]
      (by decide)).1⟩

end ARIA

namespace ARIA_F

theorem bind_pure_eq_map {α β : Type} (x : Option α) (f : α → β) :
    (x.bind fun a => pure (f a)) = x.map f := by
  cases x <;> rfl

theorem round_loop_tr_exit (KS : List Nat) (R fuel r : Nat) (t : W4) (h : ¬ r < R) :
    round_loop_tr KS R fuel r t = some (t, Trace.nil) := by
  obtain ⟨t0, t1, t2, t3⟩ := t
  cases fuel <;> simp [round_loop_tr, h]

theorem round_loop_tr_step (KS : List Nat) (R f r : Nat) (t : W4) (h : r < R)
    (hK : 4 * r + 7 < KS.length) :
    round_loop_tr KS R (f + 1) r t =
      (round_loop_tr KS R f (r + 2)
        (if r ≠ (R + 2 ^ 64 - 2) % 2 ^ 64 then
          FE4 (xor4 (FO4 (xor4 t (group KS r))) (group KS (r + 1)))
         else xor4 (FO4 (xor4 t (group KS r))) (group KS (r + 1)))).map
        (fun rest => (rest.1, Trace.append
          { ks := idx8 r,
            tab := round_idx (xor4 t (group KS r)) ++
              (if r ≠ (R + 2 ^ 64 - 2) % 2 ^ 64 then
                round_idx (xor4 (FO4 (xor4 t (group KS r))) (group KS (r + 1))) else []),
            inp := [], out := [], iters := 1 } rest.2)) := by
  obtain ⟨t0, t1, t2, t3⟩ := t
  have e4 : 4 * (r + 1) = 4 * r + 4 := by omega
  have e5 : 4 * (r + 1) + 1 = 4 * r + 5 := by omega
  have e6 : 4 * (r + 1) + 2 = 4 * r + 6 := by omega
  have e7 : 4 * (r + 1) + 3 = 4 * r + 7 := by omega
  rw [round_loop_tr, if_pos h, getElem?_eq_some_getD (l := KS) (i := 4 * r) (by omega),
    getElem?_eq_some_getD (l := KS) (i := 4 * r + 1) (by omega),
    getElem?_eq_some_getD (l := KS) (i := 4 * r + 2) (by omega),
    getElem?_eq_some_getD (l := KS) (i := 4 * r + 3) (by omega),
    getElem?_eq_some_getD (l := KS) (i := 4 * r + 4) (by omega),
    getElem?_eq_some_getD (l := KS) (i := 4 * r + 5) (by omega),
    getElem?_eq_some_getD (l := KS) (i := 4 * r + 6) (by omega),
    getElem?_eq_some_getD (l := KS) (i := 4 * r + 7) (by omega)]
  simp only [group, e4, e5, e6, e7, Option.bind_eq_bind, Option.some_bind]
  by_cases hc : r ≠ (R + 2 ^ 64 - 2) % 2 ^ 64
  · simp only [hc, decide_True, if_true, not_false_eq_true, ne_eq]
    refine (bind_pure_eq_map _ _).trans ?_
    rfl
  · simp only [hc, decide_False, if_false, Bool.false_eq_true]
    refine (bind_pure_eq_map _ _).trans ?_
    rfl

theorem byte_idx_lt (X : Nat) : ∀ x ∈ byte_idx X, x < 256 := by
  intro x hx
  simp only [byte_idx, List.mem_cons, List.mem_singleton, List.not_mem_nil, or_false] at hx
  rcases hx with h | h | h | h <;> rw [h] <;> exact get_byte_lt _ _

theorem round_idx_lt (t : W4) : ∀ x ∈ round_idx t, x < 256 := by
  intro x hx
  simp only [round_idx, List.mem_append] at hx
  rcases hx with ((h | h) | h) | h <;> exact byte_idx_lt _ x h

theorem loopTrace_cons {r m : Nat} {T : Trace} (tab : List Nat) (ht : ∀ x ∈ tab, x < 256)
    (h : loopTrace (r + 2) m T) :
    loopTrace r (m + 1)
      (Trace.append { ks := idx8 r, tab := tab, inp := [], out := [], iters := 1 } T) := by
  obtain ⟨h1, h2, h3, h4, h5⟩ := h
  refine ⟨?_, ?_, ?_, ?_, ?_⟩
  · show idx8 r ++ T.ks = _
    rw [h1]; rfl
  · intro x hx
    have hx2 : x ∈ tab ++ T.tab := hx
    rcases List.mem_append.1 hx2 with h | h
    · exact ht x h
    · exact h2 x h
  · show [] ++ T.inp = []
    rw [h3]; rfl
  · show [] ++ T.out = []
    rw [h4]; rfl
  · show 1 + T.iters = m + 1
    rw [h5]; omega

theorem loopTrace_nil (r : Nat) : loopTrace r 0 Trace.nil :=
  ⟨rfl, fun x hx => absurd hx (List.not_mem_nil x), rfl, rfl, rfl⟩

theorem round_loop_tr_spec (KS : List Nat) (R : Nat) (hR : R % 2 = 0)
    (hK : KS.length = 4 * (R + 1)) (hb : R < 2 ^ 63) :
    ∀ m r fuel t, r + 2 * (m + 1) = R → m + 1 ≤ fuel →
      ∃ T, round_loop_tr KS R fuel r t =
          some (xor4 (flat_rounds (group KS) (2 * m + 1) (r + 1) t) (group KS (R - 1)), T) ∧
        loopTrace r (m + 1) T := by
  intro m
  induction m with
  | zero =>
    intro r fuel t hr hf
    obtain ⟨f, rfl⟩ : ∃ f, fuel = f + 1 := ⟨fuel - 1, by omega⟩
    have hc : ¬ (r ≠ (R + 2 ^ 64 - 2) % 2 ^ 64) := by omega
    rw [round_loop_tr_step KS R f r t (by omega) (by omega), if_neg hc, if_neg hc,
      round_loop_tr_exit _ _ _ _ _ (by omega), Option.map_some']
    have e : R - 1 = r + 1 := by omega
    rw [e]
    have hv : flat_rounds (group KS) (2 * 0 + 1) (r + 1) t = FO4 (xor4 t (group KS r)) := by
      show Fi (r + 1) (xor4 t (group KS (r + 1 - 1))) = _
      rw [Fi_odd (by omega), Nat.add_sub_cancel]
    rw [hv]
    refine ⟨_, rfl, ?_⟩
    refine loopTrace_cons (T := Trace.nil) _ ?_ (loopTrace_nil _)
    intro x hx
    rw [List.append_nil] at hx
    exact round_idx_lt _ x hx
  | succ m ih =>
    intro r fuel t hr hf
    obtain ⟨f, rfl⟩ : ∃ f, fuel = f + 1 := ⟨fuel - 1, by omega⟩
    have hc : r ≠ (R + 2 ^ 64 - 2) % 2 ^ 64 := by omega
    have key : flat_rounds (group KS) (2 * (m + 1) + 1) (r + 1) t =
        flat_rounds (group KS) (2 * m + 1) (r + 2 + 1)
          (FE4 (xor4 (FO4 (xor4 t (group KS r))) (group KS (r + 1)))) := by
      have e : 2 * (m + 1) + 1 = 2 * m + 1 + 1 + 1 := by omega
      rw [e, flat_rounds_succ, flat_rounds_succ, Fi_odd (i := r + 1) (by omega),
        Fi_even (i := r + 1 + 1) (by omega)]
      simp only [Nat.add_sub_cancel]
    obtain ⟨T, hT, hl⟩ := ih (r + 2) f
      (FE4 (xor4 (FO4 (xor4 t (group KS r))) (group KS (r + 1)))) (by omega) (by omega)
    rw [round_loop_tr_step KS R f r t (by omega) (by omega), if_pos hc, if_pos hc, hT, key,
      Option.map_some']
    refine ⟨_, rfl, loopTrace_cons _ ?_ hl⟩
    intro x hx
    rcases List.mem_append.1 hx with h | h
    · exact round_idx_lt _ x h
    · exact round_idx_lt _ x h

theorem transform_block_tr_spec (inp : List Nat) (i : Nat) (KS : List Nat) (R : Nat)
    (hR : R % 2 = 0) (h2 : 2 ≤ R) (hK : KS.length = 4 * (R + 1)) (hb : R < 2 ^ 63)
    (hi : 16 * i + 16 ≤ inp.length) :
    ∃ T, transform_block_tr inp i KS = some (flat_block KS R (words_at inp (16 * i)), T) ∧
      T.ks = block_reads R ∧ (∀ x ∈ T.tab, x < 256) ∧ T.inp = idx16 i ∧ T.out = idx16 i ∧
      T.iters = R / 2 := by
  obtain ⟨L, hL, h1, h2, h3, h4, h5⟩ := round_loop_tr_spec KS R hR hK hb (R / 2 - 1) 0 R
    (words_at inp (16 * i)) (by omega) (by omega)
  have em : R / 2 - 1 + 1 = R / 2 := by omega
  rw [em] at h1 h5
  unfold transform_block_tr
  rw [rounds_of_eq hK hb, load_be4_eq hi]
  simp only [Option.bind_eq_bind, Option.some_bind]
  rw [hL]
  simp only [Option.some_bind]
  rw [getElem?_eq_some_getD (l := KS) (i := 4 * R) (by omega),
    getElem?_eq_some_getD (l := KS) (i := 4 * R + 1) (by omega),
    getElem?_eq_some_getD (l := KS) (i := 4 * R + 2) (by omega),
    getElem?_eq_some_getD (l := KS) (i := 4 * R + 3) (by omega)]
  have e : 2 * (R / 2 - 1) + 1 = R - 1 := by omega
  simp only [Option.some_bind, e]
  refine ⟨_, rfl, ?_, ?_, ?_, ?_, ?_⟩
  · show ([] ++ L.ks) ++ [4 * R, 4 * R + 1, 4 * R + 2, 4 * R + 3] = _
    rw [h1]; rfl
  · intro x hx
    have hx2 : x ∈ ([] ++ L.tab) ++ round_idx _ := hx
    rcases List.mem_append.1 hx2 with h | h
    · exact h2 x (by simpa using h)
    · exact round_idx_lt _ x h
  · show (idx16 i ++ L.inp) ++ [] = _
    rw [h3]; simp
  · show ([] ++ L.out) ++ idx16 i = _
    rw [h4]; rfl
  · show (0 + L.iters) + 0 = _
    rw [h5]; omega

theorem idx16_eq (i : Nat) : idx16 i = List.range' (16 * i) 16 := by
  unfold idx16
  rw [List.range'_eq_map_range]

theorem range16_append (i n : Nat) :
    List.range' (16 * i) 16 ++ List.range' (16 * (i + 1)) (16 * n) =
      List.range' (16 * i) (16 * (n + 1)) := by
  have e : 16 * (i + 1) = 16 * i + 16 := by omega
  have e2 : 16 * (n + 1) = 16 * n + 16 := by omega
  rw [e, e2, List.range'_append_1]

theorem transform_from_tr_spec (KS : List Nat) (R : Nat) (hR : R % 2 = 0) (h2 : 2 ≤ R)
    (hK : KS.length = 4 * (R + 1)) (hb : R < 2 ^ 63) (inp : List Nat) :
    ∀ n i, 16 * (i + n) ≤ inp.length →
      ∃ out T, transform_from_tr inp KS i n = some (out, T) ∧
        transform_from inp KS i n = some out ∧
        T.ks = (List.replicate n (block_reads R)).flatten ∧ (∀ x ∈ T.tab, x < 256) ∧
        T.inp = List.range' (16 * i) (16 * n) ∧ T.out = List.range' (16 * i) (16 * n) ∧
        T.iters = n * (R / 2) := by
  intro n
  induction n with
  | zero =>
    intro i _
    exact ⟨[], Trace.nil, rfl, rfl, rfl, fun x hx => absurd hx (List.not_mem_nil x), rfl, rfl,
      by simp [Trace.nil]⟩
  | succ n ih =>
    intro i hi
    obtain ⟨B, hB, b1, b2, b3, b4, b5⟩ :=
      transform_block_tr_spec inp i KS R hR h2 hK hb (by omega)
    obtain ⟨out, T, hT, hv, t1, t2, t3, t4, t5⟩ := ih (i + 1) (by omega)
    refine ⟨flat_block KS R (words_at inp (16 * i)) ++ out, B.append T, ?_, ?_, ?_, ?_, ?_, ?_,
      ?_⟩
    · rw [transform_from_tr, hB, hT]; rfl
    · rw [transform_from, transform_block_spec inp i KS R hR h2 hK hb (by omega), hv]; rfl
    · show B.ks ++ T.ks = _
      rw [b1, t1]; rfl
    · intro x hx
      have hx2 : x ∈ B.tab ++ T.tab := hx
      rcases List.mem_append.1 hx2 with h | h
      · exact b2 x h
      · exact t2 x h
    · show B.inp ++ T.inp = _
      rw [b3, t3, idx16_eq, range16_append]
    · show B.out ++ T.out = _
      rw [b4, t4, idx16_eq, range16_append]
    · show B.iters + T.iters = _
      rw [b5, t5, Nat.succ_mul]; omega

theorem idx8_lt (r x : Nat) (hx : x ∈ idx8 r) : x < 4 * r + 8 := by
  simp only [idx8, List.mem_cons, List.mem_singleton, List.not_mem_nil, or_false] at hx
  omega

theorem reads_from_lt : ∀ m r x, x ∈ reads_from r m → x < 4 * (r + 2 * m) := by
  intro m
  induction m with
  | zero => intro r x hx; exact absurd hx (List.not_mem_nil x)
  | succ m ih =>
    intro r x hx
    rcases List.mem_append.1 hx with h | h
    · have := idx8_lt r x h
      omega
    · have := ih (r + 2) x h
      omega

theorem block_reads_lt (R : Nat) (hR : R % 2 = 0) (x : Nat) (hx : x ∈ block_reads R) :
    x < 4 * (R + 1) := by
  rcases List.mem_append.1 hx with h | h
  · have := reads_from_lt (R / 2) 0 x h
    omega
  · simp only [List.mem_cons, List.mem_singleton, List.not_mem_nil, or_false] at h
    omega

theorem replicate_flatten_mem {n : Nat} {l : List Nat} {x : Nat}
    (hx : x ∈ (List.replicate n l).flatten) : x ∈ l := by
  obtain ⟨l2, h1, h2⟩ := List.mem_flatten.1 hx
  rw [(List.mem_replicate.1 h1).2] at h2
  exact h2

/-- C21: index safety of `transform`. For every schedule `KS` of size `4*(R+1)` with `R`
even and `R ≥ 2` (sizes 52, 60 and 68 are `R = 12, 14, 16`; a vector size is below `2^64`)
and every input of at least `16*blocks` bytes, the traced run of `transform` returns, with
the output of `transform`, which has `16*blocks` bytes. The schedule indices read are, for
each block, `4r .. 4r+7` for `r = 0, 2, .., R-2` and then `4R .. 4R+3`, and each is
`< KS.size()`; every table index is `< 256`; the input bytes read and the output bytes
written are the indices `0 .. 16*blocks - 1`, each `< 16*blocks`; and the round loop runs
exactly `R/2` iterations for each block. -/
theorem C21_transform_index_safety (KS inp : List Nat) (R blocks : Nat) (hR : R % 2 = 0)
    (h2 : 2 ≤ R) (hK : KS.length = 4 * (R + 1)) (hs : KS.length < 2 ^ 64)
    (hi : 16 * blocks ≤ inp.length) :
    ∃ out T, transform_tr inp blocks KS = some (out, T) ∧
      transform inp blocks KS = some out ∧ out.length = 16 * blocks ∧
      T.ks = (List.replicate blocks (block_reads R)).flatten ∧
      (∀ x ∈ T.ks, x < KS.length) ∧
      (∀ x ∈ T.tab, x < 256) ∧
      T.inp = List.range (16 * blocks) ∧ (∀ x ∈ T.inp, x < 16 * blocks) ∧
      T.out = List.range (16 * blocks) ∧ (∀ x ∈ T.out, x < 16 * blocks) ∧
      T.iters = blocks * (R / 2) := by
  have hb : R < 2 ^ 63 := by omega
  obtain ⟨out, T, hT, hv, t1, t2, t3, t4, t5⟩ :=
    transform_from_tr_spec KS R hR h2 hK hb inp blocks 0 (by omega)
  have hv2 : transform inp blocks KS = some out := hv
  have hl : out.length = 16 * blocks := by
    have h := transform_spec (show goodKS KS R from ⟨hR, h2, hK, hb⟩) blocks inp hi
    rw [hv2] at h
    rw [Option.some.inj h, flat_buf_length]
  have e : List.range' (16 * 0) (16 * blocks) = List.range (16 * blocks) := by
    rw [List.range_eq_range']
  rw [e] at t3 t4
  refine ⟨out, T, hT, hv2, hl, t1, ?_, t2, t3, ?_, t4, ?_, t5⟩
  · intro x hx
    rw [t1] at hx
    rw [hK]
    exact block_reads_lt R hR x (replicate_flatten_mem hx)
  · intro x hx
    rw [t3] at hx
    exact List.mem_range.1 hx
  · intro x hx
    rw [t4] at hx
    exact List.mem_range.1 hx

/-- Witness of C21 at an all-zero schedule of size 52 and one block. -/
theorem C21_transform_index_safety_witness :
    12 % 2 = 0 ∧ 2 ≤ 12 ∧ (List.replicate 52 0).length = 4 * (12 + 1) ∧
      (List.replicate 52 0).length < 2 ^ 64 ∧ 16 * 1 ≤ kat_pt.length ∧
      ∃ out T, transform_tr kat_pt 1 (List.replicate 52 0) = some (out, T) ∧
        transform kat_pt 1 (List.replicate 52 0) = some out ∧ out.length = 16 * 1 ∧
        T.ks = (List.replicate 1 (block_reads 12)).flatten ∧
        (∀ x ∈ T.ks, x < (List.replicate 52 0).length) ∧
        (∀ x ∈ T.tab, x < 256) ∧
        T.inp = List.range (16 * 1) ∧ (∀ x ∈ T.inp, x < 16 * 1) ∧
        T.out = List.range (16 * 1) ∧ (∀ x ∈ T.out, x < 16 * 1) ∧
        T.iters = 1 * (12 / 2) :=
  ⟨by decide, by decide, by decide, by decide, by decide,
    C21_transform_index_safety (List.replicate 52 0) kat_pt 12 1 (by decide) (by decide)
      (by decide) (by decide) (by decide)⟩

end ARIA_F
